import Mathlib

/-!
# Storage coordinator of the air-quality sensor firmware

A shallow embedding of `sensor/src/PacketStorageManager.{h,cpp}` (with the parts of
`Packets/Packet.cpp`, `main.h` and `ErrorHandler.cpp` it uses) and theorems about it.

Conventions of the embedding.

* `time32_t` values are integers; where the source subtracts two of them the result is
  reduced to the signed 32-bit range by `wrap32`.
* Containers (`static_vector`, the caller's output container) are lists; an iterator is a
  position in the list.  Of the capacities of the containers only that of the vector
  `packetTimestamps` of `findPacketsInFolder` is part of the model.
* A function of the source that can stop abnormally returns an `Exec`: a normal return, a
  failed `assert`, a read through a past-the-end iterator, or a loop that never ends.
* File-system calls that can fail take their outcome from an explicit fault record.
* The storage mutex is not modelled.
* The storage manager with the shared `SystemState` is a record (`Manager`) that the
  operations take and return; the messages handed to `ErrorHandler::sendErrorMessages` are
  collected in it.
* In `findPackets` a read outside the output container ends the run (`invalidRead`).  The
  member function on the manager, `Manager.findPackets`, takes as a parameter what such a
  read yields, so that it also covers the runs in which the read goes through.
-/

namespace AirQuality

/-! ## Basic types (`main.h`) -/

/-- Time interval `interval_t`, `std::pair<time32_t, time32_t>`: (begin, end).  A `time32_t`
(signed 32-bit Unix time stamp) is an `Int` throughout. -/
abbrev interval_t := Int × Int

/-- File names `f_string` (`static_string<64>`), as lists of characters. -/
abbrev f_string := List Char

/-- Raw packet bytes. -/
abbrev Bytes := List Nat

/-- Value of a 32-bit signed expression whose mathematical value is `x` (two's complement). -/
def wrap32 (x : Int) : Int := (x + 2147483648) % 4294967296 - 2147483648

/-- Constant `SystemConfig::FLASH_MAX_PACKETS`. -/
def FLASH_MAX_PACKETS : Nat := 1024

/-- Constant `SystemConfig::SD_CARD_SUBFOLDER_TIMESPAN`. -/
def SD_CARD_SUBFOLDER_TIMESPAN : Int := 3600

/-- Local constant `gapTreshold` of `findPackets`. -/
def gapTreshold : Int := 12

/-- Result of running a piece of the source. -/
inductive Exec (α : Type) where
  /-- normal return with a value -/
  | done (a : α)
  /-- an `assert` failed -/
  | assertFailed
  /-- a past-the-end iterator or an index outside the container was read -/
  | invalidRead
  /-- the code loops forever -/
  | hang
  /-- the step budget of the model ran out (not a behaviour of the source) -/
  | outOfFuel
  /-- a `push_back` met a full `static_vector`: the container throws `bad_alloc` (or
  aborts, where exceptions are disabled), and nothing in the program catches it -/
  | capacityExceeded
deriving DecidableEq, Repr

/-- The struct `PacketStorageManager::PacketDescriptor`. -/
structure PacketDescriptor where
  /-- either SD sub-folder timestamp or `FLASH_LOCATION` -/
  location : Int
  /-- timestamp, as in the file name of the packet -/
  packetTimestamp : Int
deriving DecidableEq, Repr

/-- Constant `PacketDescriptor::FLASH_LOCATION`. -/
def PacketDescriptor.FLASH_LOCATION : Int := -1

/-! ## Sorted-index range search -/

/-- Position that `std::find_if(begin, end, p)` returns: the first element satisfying `p`,
or the length of the list (`end`) when there is none. -/
def find_if (p : Int → Bool) : List Int → Nat
  | [] => 0
  | t :: ts => if p t then 0 else find_if p ts + 1

/-- The function `PacketStorageManager::findInterval`: the positions
(`relevantPacketsBegin`, `relevantPacketsEnd`). -/
def findInterval (interval : interval_t) (ts : List Int) : Nat × Nat :=
  (find_if (fun t => decide (interval.1 < t)) ts, find_if (fun t => decide (interval.2 ≤ t)) ts)

/-- Elements visited by `for (auto it = r.first; it < r.second; ++it)`. -/
def iterRange (ts : List Int) (r : Nat × Nat) : List Int :=
  (ts.drop r.1).take (r.2 - r.1)

/-- Descriptor `{.location = FLASH_LOCATION, .packetTimestamp = t}`. -/
def flashDescriptor (t : Int) : PacketDescriptor :=
  PacketDescriptor.mk PacketDescriptor.FLASH_LOCATION t

/-- The function `PacketStorageManager::findPacketsInFlash`: appends a flash descriptor for
every index entry in the range found by `findInterval`. -/
def findPacketsInFlash (flashPacketTimestampsIndex : List Int) (interval : interval_t)
    (output : List PacketDescriptor) : List PacketDescriptor :=
  output ++ (iterRange flashPacketTimestampsIndex
    (findInterval interval flashPacketTimestampsIndex)).map flashDescriptor

/-- Elements strictly inside an interval, in list order (specification side). -/
def strictlyInside (interval : interval_t) (ts : List Int) : List Int :=
  ts.filter (fun t => decide (interval.1 < t ∧ t < interval.2))

/-! ## File names (`Packet::makeFilename`, `checkPacketName`, `std::atoi`) -/

/-- The function `PacketStorageManager::checkPacketName`: the text after the first `.` is
`pkt`; false when the name has no `.`. -/
def checkPacketName (name : f_string) : Bool :=
  match name.dropWhile (fun c => c != '.') with
  | [] => false
  | _ :: suffix => suffix == ['p', 'k', 't']

/-- White space as `isspace` in the C locale: space and the control characters 9 to 13. -/
def isspace (c : Char) : Bool :=
  c.toNat == 32 || (9 ≤ c.toNat && c.toNat ≤ 13)

/-- Value of the leading run of decimal digits, continuing from `acc`. -/
def digitsValue : List Char → Nat → Nat
  | [], acc => acc
  | c :: cs, acc =>
    if 48 ≤ c.toNat && c.toNat ≤ 57 then digitsValue cs (acc * 10 + (c.toNat - 48)) else acc

/-- The C function `std::atoi`: skips white space, reads an optional sign and the leading
digits; 0 when there are none.  For digit strings outside the `int` range the behaviour of
the C function is undefined; the model returns the mathematical value. -/
def atoi (s : f_string) : Int :=
  match s.dropWhile isspace with
  | [] => 0
  | c :: cs =>
    if c = '-' then - (digitsValue cs 0 : Int)
    else if c = '+' then (digitsValue cs 0 : Int)
    else (digitsValue (c :: cs) 0 : Int)

/-- Output of `printf("%d", t)`. -/
def printInt (t : Int) : List Char :=
  if t < 0 then '-' :: Nat.toDigits 10 t.natAbs else Nat.toDigits 10 t.toNat

/-! ## The archive (SD card) as the query path reads it -/

/-- One sub-folder `/<deviceId>/<folderTimestamp>` as `findPacketsInFolder` sees it: the
names that successive `openNextFile` calls return, and whether the directory and the file
object can be closed after the scan. -/
structure SdDir where
  /-- entry names in directory order -/
  entries : List f_string
  /-- the calls `dir.close()` and `file.close()` after the scan both succeed -/
  closeOk : Bool

/-- The SD card for the query path: the directory behind each folder timestamp, `none`
when `dir.open` fails (no such folder, or an I/O error). -/
abbrev SdView := Int → Option SdDir

/-- The scan loop of `findPacketsInFolder` over the entries not yet visited: the collected
`packetTimestamps` in push order.  `none`: the loop reached a name that passes
`checkPacketName` and parses to 0; there the source executes `continue` without opening the
next file, so the loop never ends. -/
def scanFolder : List f_string → Option (List Int)
  | [] => some []
  | name :: rest =>
    if checkPacketName name then
      if atoi name ≠ 0 then (scanFolder rest).map (fun ts => atoi name :: ts) else none
    else scanFolder rest

/-- Capacity of the vector `packetTimestamps` of `findPacketsInFolder` (line 376):
`SystemConfig::SD_CARD_SUBFOLDER_TIMESPAN / DataPointPacket::TIMESPAN + 1`, with
`DataPointPacket::TIMESPAN` = (120 - 10) / 34 * 1 * 2 = 6. -/
def PACKET_TIMESTAMPS_CAPACITY : Nat := 601

/-- Whether the scan loop of `findPacketsInFolder` reaches `packetTimestamps.push_back` with
the vector full; `size` is the number of timestamps pushed so far.  The loop does not get
past a name that passes `checkPacketName` and parses to 0. -/
def scanFolderOverflows (capacity : Nat) : List f_string → Nat → Bool
  | [], _ => false
  | name :: rest, size =>
    if checkPacketName name then
      if atoi name ≠ 0 then
        if size < capacity then scanFolderOverflows capacity rest (size + 1) else true
      else false
    else scanFolderOverflows capacity rest size

/-- Result of `std::sort` on time stamps. -/
def sortTimestamps (ts : List Int) : List Int := ts.insertionSort (· ≤ ·)

/-- Descriptors that `findPacketsInFolder` appends for one interval. -/
def folderMatches (folderTimestamp : Int) (packetTimestamps : List Int)
    (interval : interval_t) : List PacketDescriptor :=
  if (findInterval interval packetTimestamps).1 = packetTimestamps.length then []
  else (iterRange packetTimestamps (findInterval interval packetTimestamps)).map
    (fun t => PacketDescriptor.mk folderTimestamp t)

/-- The function `PacketStorageManager::findPacketsInFolder`.  Returns the success flag and
the output container.  The scan stops with `capacityExceeded` when it finds a packet file
with `packetTimestamps` full (`scanFolderOverflows`); otherwise `scanFolder` tells whether
the loop ends and what it collects. -/
def findPacketsInFolder (sd : SdView) (folderTimestamp : Int) (intervals : List interval_t)
    (output : List PacketDescriptor) : Exec (Bool × List PacketDescriptor) :=
  match sd folderTimestamp with
  | none => .done (false, output)
  | some dir =>
    if scanFolderOverflows PACKET_TIMESTAMPS_CAPACITY dir.entries 0 then .capacityExceeded
    else
      match scanFolder dir.entries with
      | none => .hang
      | some packetTimestamps =>
        if dir.closeOk then
          .done (true, output ++
            intervals.flatMap
              (folderMatches folderTimestamp (sortTimestamps packetTimestamps)))
        else .done (false, output)

/-- The inner `while` loop of `findPacketsOnSDCard` for the folder `currentFolder`: the
pair (`relevantIntervals`, `intervals` after the erasures). -/
def relevantScan (currentFolder : Int) : List interval_t → List interval_t × List interval_t
  | [] => ([], [])
  | iv :: rest =>
    let r := relevantScan currentFolder rest
    if iv.1 < currentFolder then
      if iv.2 < currentFolder then (iv :: r.1, r.2) else (iv :: r.1, iv :: r.2)
    else (r.1, iv :: r.2)

/-- The `for` loop of `findPacketsOnSDCard` from the iteration whose `previousFolder` is
`previousFolder`; `later` holds `subFolderTimestampsIndex[i]` and the entries after it. -/
def sdCardLoop (sd : SdView) : Int → List Int → List interval_t → List PacketDescriptor →
    Exec (Bool × List PacketDescriptor)
  | _, [], _, output => .done (true, output)
  | previousFolder, currentFolder :: later, intervals, output =>
    let r := relevantScan currentFolder intervals
    let afterFolders : Exec (Bool × List PacketDescriptor) :=
      if r.1.isEmpty then .done (true, output)
      else
        match findPacketsInFolder sd previousFolder r.1 output with
        | .done (true, out1) =>
          if later.isEmpty then findPacketsInFolder sd currentFolder r.2 out1
          else .done (true, out1)
        | other => other
    match afterFolders with
    | .done (true, out2) =>
      if r.2.isEmpty then .done (true, out2) else sdCardLoop sd currentFolder later r.2 out2
    | other => other

/-- The function `PacketStorageManager::findPacketsOnSDCard` (Phase A). -/
def findPacketsOnSDCard (subFolderTimestampsIndex : List Int) (sd : SdView)
    (intervals : List interval_t) (output : List PacketDescriptor) :
    Exec (Bool × List PacketDescriptor) :=
  match subFolderTimestampsIndex with
  | [] => .done (true, output)
  | first :: later => sdCardLoop sd first later intervals output

/-! ## Phase B of the query: flash gap-fill (`findPackets`) -/

/-- Result of `std::sort` on the output container, ordered by `packetTimestamp`.  (The
relative order that `std::sort` gives to equal keys is unspecified; the model keeps them in
their original order.) -/
def sortDescriptors (output : List PacketDescriptor) : List PacketDescriptor :=
  output.insertionSort (fun lhs rhs => lhs.packetTimestamp ≤ rhs.packetTimestamp)

/-- Result of `std::sort` on the intervals, ordered by their begin (same remark). -/
def sortIntervals (intervals : List interval_t) : List interval_t :=
  intervals.insertionSort (fun lhs rhs => lhs.1 ≤ rhs.1)

/-- The loop `while (std::next(pktIt)->packetTimestamp < intervalIt->second)` of
`findPackets`, entered with `pktIt` at position `pkt`; returns the output container and the
position of `pktIt` when the loop is left.  `intervalEnd` is `intervalIt->second`.  The loop
condition reads the element after `pktIt` without a bounds check: when there is none the
result is `invalidRead`. -/
def gapWalk (flashPacketTimestampsIndex : List Int) (intervalEnd : Int) :
    Nat → List PacketDescriptor → Nat → Exec (List PacketDescriptor × Nat)
  | 0, _, _ => .outOfFuel
  | fuel + 1, output, pkt =>
    match output[pkt]?, output[pkt + 1]? with
    | some cur, some next =>
      if next.packetTimestamp < intervalEnd then
        let gap := wrap32 (next.packetTimestamp - cur.packetTimestamp)
        let output1 :=
          if gap > gapTreshold then
            findPacketsInFlash flashPacketTimestampsIndex
              (cur.packetTimestamp, next.packetTimestamp) output
          else output
        if pkt + 1 = output1.length then .done (output1, pkt)
        else gapWalk flashPacketTimestampsIndex intervalEnd fuel output1 (pkt + 1)
      else .done (output, pkt)
    | _, _ => .invalidRead

/-- The first `for` loop of `findPackets` (lines 231-292), from the interval at the head of
the list, with `pktIt` at position `pkt`.  Returns the intervals left for the final loop
(from `intervalIt` on), the output container and the position of `pktIt`.  `flashFirst` is
`flashPacketTimestampsIndex[0]`. -/
def intervalWalk (flashPacketTimestampsIndex : List Int) (flashFirst : Int) (fuel : Nat) :
    List interval_t → List PacketDescriptor → Nat →
    Exec (List interval_t × List PacketDescriptor × Nat)
  | [], output, pkt => .done ([], output, pkt)
  | iv :: rest, output, pkt =>
    if iv.2 < flashFirst then
      intervalWalk flashPacketTimestampsIndex flashFirst fuel rest output pkt
    else
      match output[pkt]? with
      | none => .invalidRead
      | some cur =>
        if ¬ (iv.1 < cur.packetTimestamp) then .assertFailed
        else if iv.2 < cur.packetTimestamp ∧ wrap32 (iv.2 - iv.1) > gapTreshold then
          intervalWalk flashPacketTimestampsIndex flashFirst fuel rest
            (findPacketsInFlash flashPacketTimestampsIndex iv output) pkt
        else
          let output1 :=
            if wrap32 (cur.packetTimestamp - iv.1) > gapTreshold then
              findPacketsInFlash flashPacketTimestampsIndex (iv.1, cur.packetTimestamp) output
            else output
          let walked : Exec (List PacketDescriptor × Nat) :=
            if pkt + 1 ≠ output1.length then
              gapWalk flashPacketTimestampsIndex iv.2 fuel output1 pkt
            else .done (output1, pkt)
          match walked with
          | .done (output2, pkt2) =>
            match output2[pkt2]? with
            | none => .invalidRead
            | some last =>
              let output3 :=
                if wrap32 (iv.2 - last.packetTimestamp) > gapTreshold then
                  findPacketsInFlash flashPacketTimestampsIndex (last.packetTimestamp, iv.2)
                    output2
                else output2
              if pkt2 + 1 = output3.length then .done (rest, output3, pkt2 + 1)
              else intervalWalk flashPacketTimestampsIndex flashFirst fuel rest output3
                (pkt2 + 1)
          | .assertFailed => .assertFailed
          | .invalidRead => .invalidRead
          | .hang => .hang
          | .outOfFuel => .outOfFuel
          | .capacityExceeded => .capacityExceeded

/-- The last loop of `findPackets`: every interval left is searched in the flash in full. -/
def remainingIntervals (flashPacketTimestampsIndex : List Int) :
    List interval_t → List PacketDescriptor → List PacketDescriptor
  | [], output => output
  | iv :: rest, output =>
    remainingIntervals flashPacketTimestampsIndex rest
      (findPacketsInFlash flashPacketTimestampsIndex iv output)

/-- Phase B of `findPackets` (lines 217-302), run on the output of the archive search.
Returns the success flag, the caller's interval container and the output container. -/
def flashGapFill (fuel : Nat) (flashPacketTimestampsIndex : List Int) (flashFirst : Int)
    (intervals : List interval_t) (output : List PacketDescriptor) :
    Exec (Bool × List interval_t × List PacketDescriptor) :=
  let sortedOutput := sortDescriptors output
  let sortedIntervals := sortIntervals intervals
  let walked : Exec (List interval_t × List PacketDescriptor × Nat) :=
    if sortedOutput.isEmpty then .done (sortedIntervals, sortedOutput, 0)
    else intervalWalk flashPacketTimestampsIndex flashFirst fuel sortedIntervals sortedOutput 0
  match walked with
  | .done (left, output1, pkt) =>
    if pkt = output1.length then
      .done (true, sortedIntervals, remainingIntervals flashPacketTimestampsIndex left output1)
    else .assertFailed
  | .assertFailed => .assertFailed
  | .invalidRead => .invalidRead
  | .hang => .hang
  | .outOfFuel => .outOfFuel
  | .capacityExceeded => .capacityExceeded

/-- The function `PacketStorageManager::findPackets`.  `fuel` bounds the number of steps of
each run of the gap loop (`gapWalk`).  Returns the success flag, the caller's interval
container (passed by reference) and the output container. -/
def findPackets (fuel : Nat) (subFolderTimestampsIndex : List Int) (sd : SdView)
    (flashPacketTimestampsIndex : List Int) (flashActive : Bool)
    (intervals : List interval_t) (output : List PacketDescriptor) :
    Exec (Bool × List interval_t × List PacketDescriptor) :=
  match findPacketsOnSDCard subFolderTimestampsIndex sd intervals output with
  | .done (true, output1) =>
    match flashPacketTimestampsIndex with
    | [] => .done (true, intervals, output1)
    | flashFirst :: _ =>
      if flashActive then
        flashGapFill fuel flashPacketTimestampsIndex flashFirst intervals output1
      else .done (true, intervals, output1)
  | .done (false, output1) => .done (false, intervals, output1)
  | .assertFailed => .assertFailed
  | .invalidRead => .invalidRead
  | .hang => .hang
  | .outOfFuel => .outOfFuel
  | .capacityExceeded => .capacityExceeded

/-! ## Packets (`Packets/Packet.cpp`) -/

/-- The class `Packet`: the event name (`eventNamePrivate`) and the binary data. -/
structure Packet where
  /-- name of the Particle event, "dp" for a data point packet -/
  eventName : List Char
  /-- not encoded (binary) data of the packet -/
  data : Bytes
deriving DecidableEq

/-- Constant `DataPointPacket::eventName`. -/
def DataPointPacket.eventName : List Char := ['d', 'p']

/-- The function `Packet::getTimestamp` once its `assert(data.size() >= 4)` has passed: the
first four bytes read as a little-endian signed 32-bit integer. -/
def Packet.getTimestamp (packet : Packet) : Int :=
  wrap32 (((packet.data.getD 0 0 % 256 + 256 * (packet.data.getD 1 0 % 256)
    + 65536 * (packet.data.getD 2 0 % 256) + 16777216 * (packet.data.getD 3 0 % 256) : Nat) : Int))

/-- The function `Packet::makeFilename` (after the assertion of `getTimestamp`). -/
def Packet.makeFilename (packet : Packet) : f_string :=
  printInt packet.getTimestamp ++ ".pkt".toList

/-! ## Files -/

/-- A directory as a list of (name or path, content) pairs, in directory order. -/
abbrev Files := List (f_string × Bytes)

/-- Content of the file called `path`, if it exists. -/
def Files.read (fs : Files) (path : f_string) : Option Bytes := List.lookup path fs

/-- Directory without the file called `path`. -/
def Files.remove (fs : Files) (path : f_string) : Files := fs.filter (fun e => e.1 != path)

/-- Directory after `open(path, O_RDWR | O_CREAT)`: an absent file is created empty. -/
def Files.create (fs : Files) (path : f_string) : Files :=
  if (fs.read path).isSome then fs else fs ++ [(path, [])]

/-- Content of a file after `data` was written at offset 0 (the file is opened without
truncation, so bytes of a longer old content stay behind the new ones). -/
def overwrite (old data : Bytes) : Bytes := data ++ old.drop data.length

/-- Directory after `data` was written at offset 0 of the existing file `path`. -/
def Files.write (fs : Files) (path : f_string) (data : Bytes) : Files :=
  fs.map (fun e => if e.1 == path then (e.1, overwrite e.2 data) else e)

/-! ## Flash tier: `savePacketToFlash` -/

/-- Path `/Packets/<timestamp>.pkt` that `savePacketToFlash` builds with `snprintf`. -/
def flashPath (timestamp : Int) : f_string :=
  "/Packets/".toList ++ printInt timestamp ++ ".pkt".toList

/-- Flash tier: the index vector and the files of the file system. -/
structure FlashStore where
  /-- timestamps of all packets in the flash -/
  flashPacketTimestampsIndex : List Int
  /-- files of the flash file system, by path -/
  files : Files
deriving DecidableEq

/-- Which of the file-system calls of `savePacketToFlash` fail with an I/O error. -/
structure FlashFaults where
  /-- the call `unlink` fails -/
  unlinkFails : Bool
  /-- the call `open` fails -/
  openFails : Bool
  /-- the call `write` fails -/
  writeFails : Bool
  /-- the call `close` fails -/
  closeFails : Bool

/-- Lines 219-228 of `savePacketToFlash`: eviction of the oldest entry when the index is
full.  The flag is false when the function leaves through `FLASH_ERROR()`.  The call
`unlink` also fails when the file does not exist. -/
def evictOldest (maxPackets : Nat) (io : FlashFaults) (s : FlashStore) :
    Exec (Bool × FlashStore) :=
  if s.flashPacketTimestampsIndex.length = maxPackets then
    match s.flashPacketTimestampsIndex with
    | [] => .invalidRead
    | oldest :: rest =>
      if io.unlinkFails || (s.files.read (flashPath oldest)).isNone then .done (false, s)
      else .done (true, FlashStore.mk rest (s.files.remove (flashPath oldest)))
  else if s.flashPacketTimestampsIndex.length > maxPackets then .done (false, s)
  else .done (true, s)

/-- Lines 230-243 of `savePacketToFlash`: the packet file is written and its timestamp is
appended to the index. -/
def writeNewPacket (io : FlashFaults) (s : FlashStore) (packet : Packet) :
    Exec (Bool × FlashStore) :=
  if packet.data.length < 4 then .assertFailed
  else
    let path := "/Packets/".toList ++ packet.makeFilename
    if io.openFails then .done (false, s)
    else if io.writeFails then
      .done (false, FlashStore.mk s.flashPacketTimestampsIndex (s.files.create path))
    else
      let written := (s.files.create path).write path packet.data
      if io.closeFails then .done (false, FlashStore.mk s.flashPacketTimestampsIndex written)
      else .done (true, FlashStore.mk (s.flashPacketTimestampsIndex ++ [packet.getTimestamp])
        written)

/-- The function `PacketStorageManager::savePacketToFlash`, with `maxPackets` for
`sysconfig.FLASH_MAX_PACKETS`.  Returns the success flag and the flash tier after the
call. -/
def savePacketToFlash (maxPackets : Nat) (io : FlashFaults) (s : FlashStore)
    (packet : Packet) : Exec (Bool × FlashStore) :=
  if packet.eventName ≠ DataPointPacket.eventName then .assertFailed
  else
    match evictOldest maxPackets io s with
    | .done (true, s1) => writeNewPacket io s1 packet
    | other => other

/-- A sequence of `savePacketToFlash` calls, each with its own I/O faults; stops at the
first call that does not return. -/
def savePacketsToFlash (maxPackets : Nat) :
    List (FlashFaults × Packet) → FlashStore → Exec FlashStore
  | [], s => .done s
  | (io, packet) :: rest, s =>
    match savePacketToFlash maxPackets io s packet with
    | .done (_, s1) => savePacketsToFlash maxPackets rest s1
    | .assertFailed => .assertFailed
    | .invalidRead => .invalidRead
    | .hang => .hang
    | .outOfFuel => .outOfFuel
    | .capacityExceeded => .capacityExceeded

/-! ## Archive tier: `savePacketToSD` -/

/-- Archive tier: the bucket index and the sub-folders of `/<deviceId>` on the card, by
folder timestamp. -/
structure SdStore where
  /-- timestamps of sub-folders on the sd card -/
  subFolderTimestampsIndex : List Int
  /-- sub-folders `/<deviceId>/<timestamp>` with their files -/
  folders : List (Int × Files)
deriving DecidableEq

/-- Which of the SD calls of `savePacketToSD` fail with an I/O error. -/
structure SdFaults where
  /-- the call `sd.mkdir(subfolderPath)` fails -/
  mkdirFails : Bool
  /-- the call `sd.chdir(subfolderPath)` fails -/
  chdirFails : Bool
  /-- the call `file.open` fails -/
  openFails : Bool
  /-- the call `file.write` fails -/
  writeFails : Bool
  /-- the call `file.close` fails -/
  closeFails : Bool
  /-- the final call `sd.chdir("/")` fails -/
  chdirRootFails : Bool

/-- The clock-skew loop of `savePacketToSD` (lines 173-180): the first `t1` of the index
with `t1 <= pt <= t2` for its successor `t2`; 0 (the initial `usedSubFolderTimestamp`) when
there is none. -/
def bracketScan (pt : Int) : List Int → Int
  | t1 :: t2 :: rest => if t1 ≤ pt ∧ pt ≤ t2 then t1 else bracketScan pt (t2 :: rest)
  | _ => 0

/-- Lines 167-197 of `savePacketToSD`: the pair (`usedSubFolderTimestamp`, bucket index
after the selection), for the current time `now` (`Time.now()`) and the packet timestamp
`pt`. -/
def selectSubFolder (timespan now : Int) (subFolderTimestampsIndex : List Int) (pt : Int) :
    Int × List Int :=
  match subFolderTimestampsIndex.getLast? with
  | none => (pt, subFolderTimestampsIndex ++ [pt])
  | some back =>
    if wrap32 (now - back) < 0 then (bracketScan pt subFolderTimestampsIndex,
      subFolderTimestampsIndex)
    else if wrap32 (now - back) < timespan then (back, subFolderTimestampsIndex)
    else (pt, subFolderTimestampsIndex ++ [pt])

/-- Files of the sub-folder `folder`; `none` when the folder does not exist. -/
def folderFiles (folders : List (Int × Files)) (folder : Int) : Option Files :=
  List.lookup folder folders

/-- Folders after the files of the existing sub-folder `folder` were replaced. -/
def setFolderFiles (folders : List (Int × Files)) (folder : Int) (files : Files) :
    List (Int × Files) :=
  folders.map (fun e => if e.1 == folder then (e.1, files) else e)

/-- Lines 199-212 of `savePacketToSD`: the file `filename` with content `data` is written
into the sub-folder `used`, which is created when absent.  Returns the success flag and the
folders of the card. -/
def writeToSubFolder (io : SdFaults) (folders : List (Int × Files)) (used : Int)
    (filename : f_string) (data : Bytes) : Bool × List (Int × Files) :=
  if (folderFiles folders used).isNone && io.mkdirFails then (false, folders)
  else
    let made := if (folderFiles folders used).isNone then folders ++ [(used, [])] else folders
    if io.chdirFails then (false, made)
    else if io.openFails then (false, made)
    else
      let files := (folderFiles made used).getD []
      if io.writeFails then (false, setFolderFiles made used (files.create filename))
      else
        let written := setFolderFiles made used ((files.create filename).write filename data)
        if io.closeFails then (false, written)
        else if io.chdirRootFails then (false, written)
        else (true, written)

/-- The function `PacketStorageManager::savePacketToSD`, with `timespan` for
`sysconfig.SD_CARD_SUBFOLDER_TIMESPAN` and `now` for `Time.now()`.  Returns the success flag
and the archive tier after the call. -/
def savePacketToSD (timespan now : Int) (io : SdFaults) (s : SdStore) (packet : Packet) :
    Exec (Bool × SdStore) :=
  if packet.data.length < 4 then .assertFailed
  else
    let sel := selectSubFolder timespan now s.subFolderTimestampsIndex packet.getTimestamp
    let w := writeToSubFolder io s.folders sel.1 packet.makeFilename packet.data
    .done (w.1, SdStore.mk sel.2 w.2)

/-- A sequence of `savePacketToSD` calls, each with its own current time and I/O faults;
stops at the first call that does not return. -/
def savePacketsToSD (timespan : Int) :
    List (Int × SdFaults × Packet) → SdStore → Exec SdStore
  | [], s => .done s
  | (now, io, packet) :: rest, s =>
    match savePacketToSD timespan now io s packet with
    | .done (_, s1) => savePacketsToSD timespan rest s1
    | .assertFailed => .assertFailed
    | .invalidRead => .invalidRead
    | .hang => .hang
    | .outOfFuel => .outOfFuel
    | .capacityExceeded => .capacityExceeded

/-! ## Specification-side notions and concrete inputs -/

/-- Two intervals overlap: some timestamp lies strictly inside both. -/
def intervalsOverlap (i j : interval_t) : Bool :=
  decide (max i.1 j.1 + 1 < min i.2 j.2)

/-- The requested intervals are pairwise non-overlapping (shared borders permitted). -/
def nonOverlapping (intervals : List interval_t) : Prop :=
  intervals.Pairwise (fun i j => intervalsOverlap i j = false)

/-- An SD card on which no folder can be opened. -/
def noCard : SdView := fun _ => none

/-- An SD card with the single bucket 1700000000, which holds the packet 1700000005. -/
def singleBucketCard : SdView := fun folder =>
  if folder = 1700000000 then some (SdDir.mk ["1700000005.pkt".toList] true) else none

/-- An SD card with the buckets 1700000000 and 1700003600, one packet in each. -/
def twoBucketCard : SdView := fun folder =>
  if folder = 1700000000 then some (SdDir.mk ["1700000000.pkt".toList] true)
  else if folder = 1700003600 then
    some (SdDir.mk ["1700003600.pkt".toList, "1700003605.pkt".toList] true)
  else none

/-- The archive of the gap-fill scenario: bucket 50 holds the packets 100 and 200, the
later bucket 300 holds the packet 300. -/
def gapFillCard : SdView := fun folder =>
  if folder = 50 then some (SdDir.mk ["100.pkt".toList, "200.pkt".toList] true)
  else if folder = 300 then some (SdDir.mk ["300.pkt".toList] true)
  else none

/-- Path of the file that `savePacketToFlash` writes for `packet`. -/
def newPacketPath (packet : Packet) : f_string := "/Packets/".toList ++ packet.makeFilename

/-- A data point packet whose first four bytes hold `timestamp` (little-endian), followed
by `payload`. -/
def dataPointPacket (timestamp : Nat) (payload : Bytes) : Packet :=
  Packet.mk DataPointPacket.eventName
    ([timestamp % 256, timestamp / 256 % 256, timestamp / 65536 % 256,
      timestamp / 16777216 % 256] ++ payload)

/-- No file-system call of `savePacketToFlash` fails. -/
def noFlashFaults : FlashFaults := FlashFaults.mk false false false false

/-- Only the call `open` of `savePacketToFlash` fails. -/
def openFault : FlashFaults := FlashFaults.mk false true false false

/-- No SD call of `savePacketToSD` fails. -/
def noSdFaults : SdFaults := SdFaults.mk false false false false false false

/-- A flash index at capacity: 1024 timestamps, 6 seconds apart, from 1700000000 on. -/
def fullFlashIndex : List Int := (List.range 1024).map (fun i => (1700000000 + 6 * i : Int))

/-- A flash tier at capacity (only the file of the oldest entry is listed). -/
def fullFlash : FlashStore :=
  FlashStore.mk fullFlashIndex [(flashPath 1700000000, [0, 241, 83, 101, 7, 7])]

/-! ## Read-back: `getPacket` -/

/-- Path `/Packets/ <timestamp>.pkt` that `getPacket` builds for a flash descriptor: the
format string of the source, `"/Packets/ %d.pkt"`, has a blank before `%d`. -/
def flashReadPath (timestamp : Int) : f_string :=
  "/Packets/ ".toList ++ printInt timestamp ++ ".pkt".toList

/-- Path that `getPacket` builds for an archive descriptor, `"/%s/%d/%d.pkt"` with the
device id, the location and the packet timestamp. -/
def sdReadPath (deviceId : f_string) (d : PacketDescriptor) : f_string :=
  '/' :: deviceId ++ '/' :: printInt d.location ++ '/' :: printInt d.packetTimestamp
    ++ ".pkt".toList

/-- Path of the file that `savePacketToSD` writes: the sub-folder `"/%s/%d"` it changes
into, and the file name it opens there. -/
def sdWritePath (deviceId : f_string) (usedSubFolderTimestamp : Int) (filename : f_string) :
    f_string :=
  '/' :: deviceId ++ '/' :: printInt usedSubFolderTimestamp ++ '/' :: filename

/-- Content of the file `name` in the sub-folder `folder` of the card, if both exist. -/
def readSdFile (folders : List (Int × Files)) (folder : Int) (name : f_string) :
    Option Bytes :=
  (folderFiles folders folder).bind (fun files => files.read name)

/-- Which of the file-system calls of `getPacket` fail with an I/O error. -/
structure ReadFaults where
  /-- the call `open` (flash) or `packetFile.open` (SD) fails -/
  openFails : Bool
  /-- the call `read` (flash) or `packetFile.read` (SD) fails -/
  readFails : Bool

/-- The function `PacketStorageManager::getPacket`, on the files of the flash and the
sub-folders of the card.  Returns the success flag and the output container.  Flash: at most
`sizeof(buf)` = 1024 bytes are read, and a result of `read` that is not positive (also after
a failed `open`) gives failure.  SD: the whole file is read into the 1024-byte buffer and
the result of `packetFile.read` is not checked, so a longer file or a failed read makes the
copy use bytes outside what was read; this is reported as `invalidRead`. -/
def getPacket (io : ReadFaults) (flashFiles : Files) (folders : List (Int × Files))
    (d : PacketDescriptor) (output : Bytes) : Exec (Bool × Bytes) :=
  if d.location = PacketDescriptor.FLASH_LOCATION then
    match (if io.openFails then none else flashFiles.read (flashReadPath d.packetTimestamp)) with
    | none => .done (false, output)
    | some content =>
      if io.readFails then .done (false, output)
      else if 0 < (content.take 1024).length then .done (true, output ++ content.take 1024)
      else .done (false, output)
  else
    match (if io.openFails then none
      else readSdFile folders d.location (printInt d.packetTimestamp ++ ".pkt".toList)) with
    | none => .done (false, output)
    | some content =>
      if io.readFails || decide (1024 < content.length) then .invalidRead
      else .done (true, output ++ content)

/-! ## Startup indexing: `initFlashStorage`, `initSDCardStorage` -/

/-- The literal 1600000000 that both startup scans compare a parsed timestamp with. -/
def sanityThreshold : Int := 1600000000

/-- Which of the calls of `initFlashStorage` fail. -/
structure FlashInitFaults where
  /-- the call `mkdir` fails with an error other than `EEXIST` -/
  mkdirFails : Bool
  /-- the call `opendir` returns a null pointer -/
  opendirFails : Bool
  /-- the variable `errno` is not zero after the scan (the source never resets it, so an
  error code left by an earlier call counts as well) -/
  errnoSet : Bool
  /-- the call `closedir` fails -/
  closedirFails : Bool

/-- The `readdir` loop of `initFlashStorage` over the entries not yet read, appending to the
index.  For an entry with a packet name whose timestamp does not exceed the threshold the
source calls `readdir` in the `else` branch and again at the end of the loop body, so the
entry after it is passed over unread. -/
def flashScan : List f_string → List Int → List Int
  | [], index => index
  | name :: rest, index =>
    if checkPacketName name then
      if atoi name > sanityThreshold then flashScan rest (index ++ [atoi name])
      else
        match rest with
        | [] => index
        | _ :: rest1 => flashScan rest1 index
    else flashScan rest index

/-- The function `PacketStorageManager::initFlashStorage`, on the names that `readdir`
returns for `/Packets` and the flash index before the call.  Returns the success flag and
the flash index. -/
def initFlashStorage (maxPackets : Nat) (io : FlashInitFaults) (listing : List f_string)
    (flashPacketTimestampsIndex : List Int) : Bool × List Int :=
  if io.mkdirFails then (false, flashPacketTimestampsIndex)
  else if io.opendirFails then (false, flashPacketTimestampsIndex)
  else
    let scanned := flashScan listing flashPacketTimestampsIndex
    if io.errnoSet then (false, scanned)
    else if io.closedirFails then (false, scanned)
    else if scanned.length > maxPackets then (false, scanned)
    else (true, sortTimestamps scanned)

/-- Which of the calls of `initSDCardStorage` fail. -/
structure SdInitFaults where
  /-- the call `sd.begin` fails -/
  beginFails : Bool
  /-- the call `sd.chdir("/")` fails -/
  chdirFails : Bool
  /-- the call `sd.mkdir` for the device folder fails -/
  mkdirFails : Bool
  /-- the call `dir.open` fails -/
  openFails : Bool
  /-- the call `dir.close` fails -/
  closeFails : Bool

/-- The `openNextFile` loop of `initSDCardStorage`; each entry comes with the result of its
`file.close()`.  Returns false when a `file.close()` failed, and the index so far. -/
def sdScan : List (f_string × Bool) → List Int → Bool × List Int
  | [], index => (true, index)
  | (name, closeOk) :: rest, index =>
    let index1 := if atoi name > sanityThreshold then index ++ [atoi name] else index
    if closeOk then sdScan rest index1 else (false, index1)

/-- The function `PacketStorageManager::initSDCardStorage`, on the entries of the device
folder (`deviceFolderExists`: the folder is there before the call).  The bucket index is
cleared first.  Returns the success flag and the bucket index. -/
def initSDCardStorage (io : SdInitFaults) (deviceFolderExists : Bool)
    (listing : List (f_string × Bool)) : Bool × List Int :=
  if io.beginFails then (false, [])
  else if io.chdirFails then (false, [])
  else if !deviceFolderExists && io.mkdirFails then (false, [])
  else if io.openFails then (false, [])
  else
    let scanned := sdScan listing []
    if !scanned.1 then (false, scanned.2)
    else if io.closeFails then (false, scanned.2)
    else (true, sortTimestamps scanned.2)

/-- No call of `getPacket` fails. -/
def noReadFaults : ReadFaults := ReadFaults.mk false false

/-- No call of `initFlashStorage` fails. -/
def noFlashInitFaults : FlashInitFaults := FlashInitFaults.mk false false false false

/-- No call of `initSDCardStorage` fails. -/
def noSdInitFaults : SdInitFaults := SdInitFaults.mk false false false false false

/-- Only the call `sd.mkdir(subfolderPath)` of `savePacketToSD` fails. -/
def mkdirFault : SdFaults := SdFaults.mk true false false false false false

/-- Constant `SystemConfig::PACKET_MAX_SIZE_BYTES` (150 / 5 * 4), the capacity of
`Packet::data`. -/
def PACKET_MAX_SIZE_BYTES : Nat := 120

/-! ## System state, error handler and the ingestion step (`main.h`, `ErrorHandler.cpp`,
`PacketStorageManager::initStorage`, `PacketStorageManager::run`) -/

/-- The tier flags of the struct `SystemState`. -/
structure SystemState where
  /-- the SD card is in use -/
  sdActive : Bool
  /-- the flash is in use -/
  flashActive : Bool
deriving DecidableEq

/-- The messages that `ErrorHandler` passes to `sendErrorMessages` for the two tiers. -/
inductive ErrorMessage where
  /-- the text "SD card error." -/
  | sdCardError
  /-- the text "Flash error." -/
  | flashError
deriving DecidableEq

/-- The storage manager together with the shared state it works on: the system state, the
two tiers, the messages handed to `ErrorHandler::sendErrorMessages` so far, and the number
of times `run` logged "received invalid packet". -/
structure Manager where
  /-- shared `SystemState` -/
  sysstate : SystemState
  /-- flash index and flash files -/
  flash : FlashStore
  /-- bucket index and the sub-folders of the card -/
  sd : SdStore
  /-- messages passed to `sendErrorMessages`, oldest first -/
  sentErrorMessages : List ErrorMessage
  /-- number of "invalid packet" log lines of `run` -/
  invalidPacketReports : Nat
deriving DecidableEq

/-- The function `ErrorHandler::sdError`. -/
def sdError (m : Manager) : Manager :=
  if m.sysstate.sdActive then
    { m with
      sysstate := SystemState.mk false m.sysstate.flashActive
      sentErrorMessages := m.sentErrorMessages ++ [ErrorMessage.sdCardError] }
  else m

/-- The function `ErrorHandler::flashError`. -/
def flashError (m : Manager) : Manager :=
  if m.sysstate.flashActive then
    { m with
      sysstate := SystemState.mk m.sysstate.sdActive false
      sentErrorMessages := m.sentErrorMessages ++ [ErrorMessage.flashError] }
  else m

/-- The function `PacketStorageManager::initStorage`, on the directory listings that the two
startup scans read. -/
def initStorage (maxPackets : Nat) (flashIo : FlashInitFaults) (flashListing : List f_string)
    (sdIo : SdInitFaults) (deviceFolderExists : Bool) (sdListing : List (f_string × Bool))
    (m : Manager) : Manager :=
  let m1 :=
    if m.sysstate.flashActive then
      let r := initFlashStorage maxPackets flashIo flashListing
        m.flash.flashPacketTimestampsIndex
      let m0 := { m with flash := FlashStore.mk r.2 m.flash.files }
      if r.1 then m0 else flashError m0
    else m
  if m1.sysstate.sdActive then
    let r := initSDCardStorage sdIo deviceFolderExists sdListing
    let m2 := { m1 with sd := SdStore.mk r.2 m1.sd.folders }
    if r.1 then m2 else sdError m2
  else m1

/-- The flash part of one pass of the loop of `run` (lines 136-142). -/
def ingestFlash (maxPackets : Nat) (flashIo : FlashFaults) (m : Manager) (packet : Packet) :
    Exec Manager :=
  if m.sysstate.flashActive then
    match savePacketToFlash maxPackets flashIo m.flash packet with
    | .done (ok, flash1) =>
      if ok then .done { m with flash := flash1 }
      else .done (flashError { m with flash := flash1 })
    | .assertFailed => .assertFailed
    | .invalidRead => .invalidRead
    | .hang => .hang
    | .outOfFuel => .outOfFuel
    | .capacityExceeded => .capacityExceeded
  else .done m

/-- The SD part of one pass of the loop of `run` (lines 143-150). -/
def ingestSD (timespan now : Int) (sdIo : SdFaults) (m : Manager) (packet : Packet) :
    Exec Manager :=
  if m.sysstate.sdActive then
    match savePacketToSD timespan now sdIo m.sd packet with
    | .done (ok, sd1) =>
      if ok then .done { m with sd := sd1 }
      else .done (sdError { m with sd := sd1 })
    | .assertFailed => .assertFailed
    | .invalidRead => .invalidRead
    | .hang => .hang
    | .outOfFuel => .outOfFuel
    | .capacityExceeded => .capacityExceeded
  else .done m

/-- One pass of the loop of `PacketStorageManager::run` for the packet taken from the
storage queue (lines 131-150): the event name is compared with `DataPointPacket::eventName`
and a mismatch is logged; then the packet is offered to the flash and to the SD card. -/
def ingest (maxPackets : Nat) (timespan now : Int) (flashIo : FlashFaults) (sdIo : SdFaults)
    (m : Manager) (packet : Packet) : Exec Manager :=
  let m0 :=
    if packet.eventName ≠ DataPointPacket.eventName then
      { m with invalidPacketReports := m.invalidPacketReports + 1 }
    else m
  match ingestFlash maxPackets flashIo m0 packet with
  | .done m1 => ingestSD timespan now sdIo m1 packet
  | other => other

/-! ## The query path as member functions of the manager

`findPackets`, `findPacketsInFlash` and `getPacket` are not `const`: they could assign to a
member.  Here they take the manager and return it, together with the outcome, as the body
leaves it; every read of a member goes to the manager as it is at that point of the run.
`findPacketsOnSDCard` and `findPacketsInFolder` are declared `const`. -/

/-- What a read of the output container at position `i` yields.  Before `size()` it is the
element.  At or after `size()` the read is outside the container: `pastEnd i` is `none` when
such a read is trapped, and `some d` when it goes through and finds the descriptor `d` in
the storage behind the container. -/
def readDescriptor (pastEnd : Nat → Option PacketDescriptor) (output : List PacketDescriptor)
    (i : Nat) : Option PacketDescriptor :=
  match output[i]? with
  | some d => some d
  | none => pastEnd i

/-- The member function `findPacketsInFlash` (lines 416-423) on the manager: the index is
read through `begin()` and `end()`. -/
def Manager.findPacketsInFlash (m : Manager) (interval : interval_t)
    (output : List PacketDescriptor) : Manager × List PacketDescriptor :=
  (m, AirQuality.findPacketsInFlash m.flash.flashPacketTimestampsIndex interval output)

/-- The gap loop of `findPackets` (lines 263-275, see `gapWalk`) on the manager. -/
def Manager.gapWalk (pastEnd : Nat → Option PacketDescriptor) (intervalEnd : Int) :
    Nat → Manager → List PacketDescriptor → Nat →
    Manager × Exec (List PacketDescriptor × Nat)
  | 0, m, _, _ => (m, .outOfFuel)
  | fuel + 1, m, output, pkt =>
    match readDescriptor pastEnd output pkt, readDescriptor pastEnd output (pkt + 1) with
    | some cur, some next =>
      if next.packetTimestamp < intervalEnd then
        let gap := wrap32 (next.packetTimestamp - cur.packetTimestamp)
        let filled : Manager × List PacketDescriptor :=
          if gap > gapTreshold then
            m.findPacketsInFlash (cur.packetTimestamp, next.packetTimestamp) output
          else (m, output)
        if pkt + 1 = filled.2.length then (filled.1, .done (filled.2, pkt))
        else Manager.gapWalk pastEnd intervalEnd fuel filled.1 filled.2 (pkt + 1)
      else (m, .done (output, pkt))
    | _, _ => (m, .invalidRead)

/-- The first `for` loop of `findPackets` (lines 231-292, see `intervalWalk`) on the
manager; `flashPacketTimestampsIndex[0]` is read in every pass. -/
def Manager.intervalWalk (pastEnd : Nat → Option PacketDescriptor) (fuel : Nat) :
    Manager → List interval_t → List PacketDescriptor → Nat →
    Manager × Exec (List interval_t × List PacketDescriptor × Nat)
  | m, [], output, pkt => (m, .done ([], output, pkt))
  | m, iv :: rest, output, pkt =>
    match m.flash.flashPacketTimestampsIndex with
    | [] => (m, .invalidRead)
    | flashFirst :: _ =>
      if iv.2 < flashFirst then Manager.intervalWalk pastEnd fuel m rest output pkt
      else
        match readDescriptor pastEnd output pkt with
        | none => (m, .invalidRead)
        | some cur =>
          if ¬ (iv.1 < cur.packetTimestamp) then (m, .assertFailed)
          else if iv.2 < cur.packetTimestamp ∧ wrap32 (iv.2 - iv.1) > gapTreshold then
            Manager.intervalWalk pastEnd fuel (m.findPacketsInFlash iv output).1 rest
              (m.findPacketsInFlash iv output).2 pkt
          else
            let started : Manager × List PacketDescriptor :=
              if wrap32 (cur.packetTimestamp - iv.1) > gapTreshold then
                m.findPacketsInFlash (iv.1, cur.packetTimestamp) output
              else (m, output)
            let walked : Manager × Exec (List PacketDescriptor × Nat) :=
              if pkt + 1 ≠ started.2.length then
                Manager.gapWalk pastEnd iv.2 fuel started.1 started.2 pkt
              else (started.1, .done (started.2, pkt))
            match walked with
            | (m2, .done (output2, pkt2)) =>
              match readDescriptor pastEnd output2 pkt2 with
              | none => (m2, .invalidRead)
              | some last =>
                let ended : Manager × List PacketDescriptor :=
                  if wrap32 (iv.2 - last.packetTimestamp) > gapTreshold then
                    m2.findPacketsInFlash (last.packetTimestamp, iv.2) output2
                  else (m2, output2)
                if pkt2 + 1 = ended.2.length then (ended.1, .done (rest, ended.2, pkt2 + 1))
                else Manager.intervalWalk pastEnd fuel ended.1 rest ended.2 (pkt2 + 1)
            | (m2, .assertFailed) => (m2, .assertFailed)
            | (m2, .invalidRead) => (m2, .invalidRead)
            | (m2, .hang) => (m2, .hang)
            | (m2, .outOfFuel) => (m2, .outOfFuel)
            | (m2, .capacityExceeded) => (m2, .capacityExceeded)

/-- The last loop of `findPackets` (lines 298-300) on the manager. -/
def Manager.remainingIntervals :
    Manager → List interval_t → List PacketDescriptor → Manager × List PacketDescriptor
  | m, [], output => (m, output)
  | m, iv :: rest, output =>
    Manager.remainingIntervals (m.findPacketsInFlash iv output).1 rest
      (m.findPacketsInFlash iv output).2

/-- The member function `findPackets` (lines 199-303) on the manager.  Returns the manager
as the run leaves it and the outcome: the success flag, the caller's interval container and
the output container.  `findPacketsOnSDCard` is `const`. -/
def Manager.findPackets (pastEnd : Nat → Option PacketDescriptor) (fuel : Nat) (sd : SdView)
    (m : Manager) (intervals : List interval_t) (output : List PacketDescriptor) :
    Manager × Exec (Bool × List interval_t × List PacketDescriptor) :=
  match findPacketsOnSDCard m.sd.subFolderTimestampsIndex sd intervals output with
  | .done (true, output1) =>
    if m.flash.flashPacketTimestampsIndex.isEmpty || !m.sysstate.flashActive then
      (m, .done (true, intervals, output1))
    else
      let sortedOutput := sortDescriptors output1
      let sortedIntervals := sortIntervals intervals
      let walked : Manager × Exec (List interval_t × List PacketDescriptor × Nat) :=
        if sortedOutput.isEmpty then (m, .done (sortedIntervals, sortedOutput, 0))
        else Manager.intervalWalk pastEnd fuel m sortedIntervals sortedOutput 0
      match walked with
      | (m1, .done (left, output2, pkt)) =>
        if pkt = output2.length then
          ((Manager.remainingIntervals m1 left output2).1,
            .done (true, sortedIntervals, (Manager.remainingIntervals m1 left output2).2))
        else (m1, .assertFailed)
      | (m1, .assertFailed) => (m1, .assertFailed)
      | (m1, .invalidRead) => (m1, .invalidRead)
      | (m1, .hang) => (m1, .hang)
      | (m1, .outOfFuel) => (m1, .outOfFuel)
      | (m1, .capacityExceeded) => (m1, .capacityExceeded)
  | .done (false, output1) => (m, .done (false, intervals, output1))
  | .assertFailed => (m, .assertFailed)
  | .invalidRead => (m, .invalidRead)
  | .hang => (m, .hang)
  | .outOfFuel => (m, .outOfFuel)
  | .capacityExceeded => (m, .capacityExceeded)

/-- The member function `getPacket` (lines 436-473) on the manager, whose flash files and
SD sub-folders it reads (see `getPacket`). -/
def Manager.getPacket (io : ReadFaults) (m : Manager) (d : PacketDescriptor)
    (output : Bytes) : Manager × Exec (Bool × Bytes) :=
  if d.location = PacketDescriptor.FLASH_LOCATION then
    match (if io.openFails then none
      else m.flash.files.read (flashReadPath d.packetTimestamp)) with
    | none => (m, .done (false, output))
    | some content =>
      if io.readFails then (m, .done (false, output))
      else if 0 < (content.take 1024).length then
        (m, .done (true, output ++ content.take 1024))
      else (m, .done (false, output))
  else
    match (if io.openFails then none
      else readSdFile m.sd.folders d.location
        (printInt d.packetTimestamp ++ ".pkt".toList)) with
    | none => (m, .done (false, output))
    | some content =>
      if io.readFails || decide (1024 < content.length) then (m, .invalidRead)
      else (m, .done (true, output ++ content))

/-- The call `findPackets` as its caller sees it, with reads outside the output container
trapped: the manager after the call together with the results, when the call returns.  The
flag `sdActive` is not read. -/
def managerFindPackets (fuel : Nat) (sd : SdView) (m : Manager)
    (intervals : List interval_t) (output : List PacketDescriptor) :
    Exec (Manager × Bool × List interval_t × List PacketDescriptor) :=
  match Manager.findPackets (fun _ => none) fuel sd m intervals output with
  | (m1, .done r) => .done (m1, r)
  | (_, .assertFailed) => .assertFailed
  | (_, .invalidRead) => .invalidRead
  | (_, .hang) => .hang
  | (_, .outOfFuel) => .outOfFuel
  | (_, .capacityExceeded) => .capacityExceeded

/-- The call `getPacket` as its caller sees it: the manager after the call together with
the results, when the call returns. -/
def managerGetPacket (io : ReadFaults) (m : Manager) (d : PacketDescriptor)
    (output : Bytes) : Exec (Manager × Bool × Bytes) :=
  match Manager.getPacket io m d output with
  | (m1, .done r) => .done (m1, r)
  | (_, .assertFailed) => .assertFailed
  | (_, .invalidRead) => .invalidRead
  | (_, .hang) => .hang
  | (_, .outOfFuel) => .outOfFuel
  | (_, .capacityExceeded) => .capacityExceeded

/-- One operation of the storage manager or of the error handler, with its inputs. -/
inductive Operation where
  /-- the call `ErrorHandler::sdError` -/
  | sdError
  /-- the call `ErrorHandler::flashError` -/
  | flashError
  /-- the call `initStorage` -/
  | initStorage (flashIo : FlashInitFaults) (flashListing : List f_string)
      (sdIo : SdInitFaults) (deviceFolderExists : Bool) (sdListing : List (f_string × Bool))
  /-- one pass of the loop of `run` -/
  | ingest (now : Int) (flashIo : FlashFaults) (sdIo : SdFaults) (packet : Packet)
  /-- the call `findPackets` -/
  | findPackets (fuel : Nat) (sd : SdView) (intervals : List interval_t)
      (output : List PacketDescriptor)
  /-- the call `getPacket` -/
  | getPacket (io : ReadFaults) (d : PacketDescriptor) (output : Bytes)

/-- The manager after one operation. -/
def applyOperation (maxPackets : Nat) (timespan : Int) (m : Manager) :
    Operation → Exec Manager
  | .sdError => .done (sdError m)
  | .flashError => .done (flashError m)
  | .initStorage flashIo flashListing sdIo deviceFolderExists sdListing =>
    .done (initStorage maxPackets flashIo flashListing sdIo deviceFolderExists sdListing m)
  | .ingest now flashIo sdIo packet => ingest maxPackets timespan now flashIo sdIo m packet
  | .findPackets fuel sd intervals output =>
    match managerFindPackets fuel sd m intervals output with
    | .done r => .done r.1
    | .assertFailed => .assertFailed
    | .invalidRead => .invalidRead
    | .hang => .hang
    | .outOfFuel => .outOfFuel
    | .capacityExceeded => .capacityExceeded
  | .getPacket io d output =>
    match managerGetPacket io m d output with
    | .done r => .done r.1
    | .assertFailed => .assertFailed
    | .invalidRead => .invalidRead
    | .hang => .hang
    | .outOfFuel => .outOfFuel
    | .capacityExceeded => .capacityExceeded

/-- The manager after a sequence of operations; stops at the first one that does not
return. -/
def applyOperations (maxPackets : Nat) (timespan : Int) :
    List Operation → Manager → Exec Manager
  | [], m => .done m
  | op :: rest, m =>
    match applyOperation maxPackets timespan m op with
    | .done m1 => applyOperations maxPackets timespan rest m1
    | .assertFailed => .assertFailed
    | .invalidRead => .invalidRead
    | .hang => .hang
    | .outOfFuel => .outOfFuel
    | .capacityExceeded => .capacityExceeded

/-! ## The scan loop of `findPacketsInFolder`, step by step -/

/-- State of the scan loop of `findPacketsInFolder` (lines 377-394): the entries that
`openNextFile` has not returned yet, headed by the one `file` stands for, and the
`packetTimestamps` pushed so far. -/
structure FolderScanState where
  /-- the current file and the files after it -/
  remaining : List f_string
  /-- the vector `packetTimestamps` -/
  packetTimestamps : List Int
deriving DecidableEq

/-- One evaluation of the loop condition `while(file)` and, when it holds, one pass of the
loop body.  `none`: the loop has ended.  For a name that passes `checkPacketName` and parses
to 0 the body ends with `continue`, before `file = dir.openNextFile(...)`: the current file
stays the current file. -/
def folderScanStep (s : FolderScanState) : Option FolderScanState :=
  match s.remaining with
  | [] => none
  | name :: rest =>
    if checkPacketName name then
      if atoi name ≠ 0 then some (FolderScanState.mk rest (s.packetTimestamps ++ [atoi name]))
      else some s
    else some (FolderScanState.mk rest s.packetTimestamps)

/-- The scan loop run for at most `fuel` passes: the `packetTimestamps` when the loop has
ended within them, `none` when it is still running. -/
def folderScanRun : Nat → FolderScanState → Option (List Int)
  | 0, _ => none
  | fuel + 1, s =>
    match folderScanStep s with
    | none => some s.packetTimestamps
    | some s1 => folderScanRun fuel s1

/-! ## Concrete inputs for the manager, the gap walk and the folder scan -/

/-- The archive of the fall-through scenario: bucket 50 holds the packet 150, the later
bucket 300 holds the packet 300. -/
def fallThroughCard : SdView := fun folder =>
  if folder = 50 then some (SdDir.mk ["150.pkt".toList] true)
  else if folder = 300 then some (SdDir.mk ["300.pkt".toList] true)
  else none

/-- An error packet (event name `error`) stamped 1700000005 with the text `E`. -/
def errorPacket : Packet := Packet.mk "error".toList [5, 241, 83, 101, 69]

/-- A manager with both tiers active and empty. -/
def freshManager : Manager :=
  Manager.mk (SystemState.mk true true) (FlashStore.mk [] []) (SdStore.mk [] []) [] 0

/-- A manager whose flash tier is disabled and whose SD tier is active and empty. -/
def flashDisabledManager : Manager :=
  Manager.mk (SystemState.mk true false) (FlashStore.mk [] []) (SdStore.mk [] []) [] 0

/-- A manager whose SD tier is disabled, with the buckets 50 and 300 in the bucket index and
the timestamp 5 in the flash index. -/
def sdDisabledManager : Manager :=
  Manager.mk (SystemState.mk false true) (FlashStore.mk [5] []) (SdStore.mk [50, 300] [])
    [ErrorMessage.sdCardError] 0

/-- The manager of the gap-fill scenario: buckets 50 and 300, flash index [150], both tiers
active. -/
def gapFillManager : Manager :=
  Manager.mk (SystemState.mk true true) (FlashStore.mk [150] []) (SdStore.mk [50, 300] [])
    [] 0

/-- An SD card whose bucket 50 holds, between two packets, a file with the packet extension
whose name does not start with a number. -/
def strayFileCard : SdView := fun folder =>
  if folder = 50 then
    some (SdDir.mk ["100.pkt".toList, "x.pkt".toList, "200.pkt".toList] true)
  else none

/-- The 602 file names 1000.pkt to 1601.pkt. -/
def crowdedFolder : List f_string :=
  (List.range 602).map (fun (i : Nat) => printInt ((1000 + i : Nat) : Int) ++ ".pkt".toList)

/-- An SD card whose bucket 1000 holds the 602 packet files 1000.pkt to 1601.pkt and whose
bucket 5000 is empty. -/
def crowdedCard : SdView := fun folder =>
  if folder = 1000 then some (SdDir.mk crowdedFolder true)
  else if folder = 5000 then some (SdDir.mk [] true)
  else none

/-- A startup at which `sd.begin` fails, a further `sdError`, the ingestion of the data
point packet stamped 1700000005 at time 1700000006, and a second `initStorage`. -/
def startupFailureOperations : List Operation :=
  [Operation.initStorage noFlashInitFaults [] (SdInitFaults.mk true false false false false)
      true [],
    Operation.sdError,
    Operation.ingest 1700000006 noFlashFaults noSdFaults (dataPointPacket 1700000005 [7]),
    Operation.initStorage noFlashInitFaults [] noSdInitFaults true []]

/-- The manager that `startupFailureOperations` leads to from `freshManager`. -/
def afterStartupFailure : Manager :=
  Manager.mk (SystemState.mk false true)
    (FlashStore.mk [1700000005] [("/Packets/1700000005.pkt".toList, [5, 241, 83, 101, 7])])
    (SdStore.mk [] []) [ErrorMessage.sdCardError] 0

/-! ## Theorems -/

set_option maxRecDepth 100000

/-! ### The range search -/

/-- In a sorted list whose elements all exceed `a`, the elements before the first one that
reaches `b` are those strictly inside `(a, b)`. -/
theorem take_find_if_of_all_gt (a b : Int) (ts : List Int)
    (hs : ts.Sorted (· ≤ ·)) (ha : ∀ t ∈ ts, a < t) :
    ts.take (find_if (fun t => decide (b ≤ t)) ts) = strictlyInside (a, b) ts := by
  induction ts with
  | nil => simp [find_if, strictlyInside]
  | cons t ts ih =>
    have hs' := List.sorted_cons.mp hs
    have hat : a < t := ha t (by simp)
    have ih' := ih hs'.2 (fun x hx => ha x (by simp [hx]))
    unfold find_if
    by_cases hb : b ≤ t
    · have hnone : ∀ x ∈ ts, ¬ (a < x ∧ x < b) := by
        intro x hx hh
        have := hs'.1 x hx
        omega
      simp only [hb, decide_True, if_true, List.take_zero, strictlyInside]
      symm
      rw [List.filter_eq_nil_iff]
      intro x hx
      rcases List.mem_cons.mp hx with rfl | hx
      · simp; omega
      · simpa using hnone x hx
    · have htb : t < b := by omega
      simp only [hb, decide_False, Bool.false_eq_true, if_false, List.take_succ_cons]
      rw [ih']
      simp [strictlyInside, hat, htb]

theorem findInterval_range_eq (a b : Int) (ts : List Int)
    (hs : ts.Sorted (· ≤ ·)) :
    iterRange ts (findInterval (a, b) ts) = strictlyInside (a, b) ts := by
  induction ts with
  | nil => simp [iterRange, findInterval, find_if, strictlyInside]
  | cons t ts ih =>
    have hs' := List.sorted_cons.mp hs
    have ih' := ih hs'.2
    by_cases hat : a < t
    · -- the range starts at the head
      have hall : ∀ x ∈ t :: ts, a < x := by
        intro x hx
        rcases List.mem_cons.mp hx with rfl | hx
        · exact hat
        · have := hs'.1 x hx
          omega
      have h0 : find_if (fun x => decide (a < x)) (t :: ts) = 0 := by
        simp [find_if, hat]
      have := take_find_if_of_all_gt a b (t :: ts) hs hall
      simpa [iterRange, findInterval, h0] using this
    · by_cases hb : b ≤ t
      · have hnone : strictlyInside (a, b) (t :: ts) = [] := by
          unfold strictlyInside
          rw [List.filter_eq_nil_iff]
          intro x hx
          rcases List.mem_cons.mp hx with rfl | hx
          · simp; omega
          · have := hs'.1 x hx
            simp; omega
        rw [hnone]
        simp [iterRange, findInterval, find_if, hat, hb]
      · have hcons : strictlyInside (a, b) (t :: ts) = strictlyInside (a, b) ts := by
          simp [strictlyInside, hat]
        rw [hcons, ← ih']
        simp [iterRange, findInterval, find_if, hat, hb]

/-- C1: for every ascending-sorted list of timestamps and every interval (a, b), the range
that `findInterval` returns holds exactly the list elements t with a < t < b (same elements,
same order, same multiplicity); so an element equal to a or to b is never in the range and
every element from a+1 through b-1 is. -/
theorem findInterval_exact (a b : Int) (ts : List Int)
    (hs : ts.Sorted (· ≤ ·)) :
    iterRange ts (findInterval (a, b) ts) = ts.filter (fun t => decide (a < t ∧ t < b)) ∧
    (∀ t, t ∈ iterRange ts (findInterval (a, b) ts) ↔ t ∈ ts ∧ a < t ∧ t < b) ∧
    a ∉ iterRange ts (findInterval (a, b) ts) ∧
    b ∉ iterRange ts (findInterval (a, b) ts) ∧
    (∀ t ∈ ts, a + 1 ≤ t → t ≤ b - 1 → t ∈ iterRange ts (findInterval (a, b) ts)) := by
  have h := findInterval_range_eq a b ts hs
  have hmem : ∀ t, t ∈ iterRange ts (findInterval (a, b) ts) ↔ t ∈ ts ∧ a < t ∧ t < b := by
    intro t
    rw [h]
    simp [strictlyInside]
  refine ⟨h, hmem, ?_, ?_, ?_⟩
  · intro hin
    have := (hmem a).mp hin
    omega
  · intro hin
    have := (hmem b).mp hin
    omega
  · intro t ht h1 h2
    exact (hmem t).mpr ⟨ht, by omega, by omega⟩

/-- Instance of `findInterval_exact`: the interval (10, 20) in a list that holds both borders. -/
theorem findInterval_exact_witness :
    iterRange [10, 11, 15, 19, 20, 25] (findInterval (10, 20) [10, 11, 15, 19, 20, 25])
      = [11, 15, 19] :=
  (findInterval_exact 10 20 [10, 11, 15, 19, 20, 25] (by decide)).1.trans (by decide)

/-! ### Phase A: the last bucket -/

/-- C2 (the code departs from the claim): with the single bucket 1700000000 holding the
packet 1700000005 and the request (1700000000, 1700000010), and with two buckets and the
request (1700003600, 1700003700) that starts at the last bucket, the packet of the last
bucket lies strictly inside the interval, yet `findPacketsOnSDCard` returns success with no
descriptor: the last bucket is searched only inside an iteration of the pair loop that found
an interval relevant to the previous bucket.  With a single bucket the loop body never runs:
whatever the card and the intervals, the output is returned as it was passed. -/
theorem findPacketsOnSDCard_last_bucket_not_searched :
    (∀ (bucket : Int) (sd : SdView) (intervals : List interval_t)
        (output : List PacketDescriptor),
      findPacketsOnSDCard [bucket] sd intervals output = .done (true, output)) ∧
    (scanFolder ["1700000005.pkt".toList] = some [1700000005] ∧
      1700000005 ∈ strictlyInside (1700000000, 1700000010) [1700000005] ∧
      findPacketsOnSDCard [1700000000] singleBucketCard [(1700000000, 1700000010)] []
        = .done (true, [])) ∧
    (scanFolder ["1700003600.pkt".toList, "1700003605.pkt".toList]
        = some [1700003600, 1700003605] ∧
      1700003605 ∈ strictlyInside (1700003600, 1700003700) [1700003600, 1700003605] ∧
      findPacketsOnSDCard [1700000000, 1700003600] twoBucketCard
        [(1700003600, 1700003700)] [] = .done (true, [])) := by
  refine ⟨fun _ _ _ _ => rfl, ?_, ?_⟩ <;> decide

/-! ### Phase B: gap-fill -/

/-- In the gap-fill scenario (archive matches 100 and 200 in bucket 50, flash index [150],
request (90, 210)) the archive search returns the two matches, and the gap walk of
`findPackets` then appends the flash descriptor 150, steps onto it and evaluates
`std::next(pktIt)->packetTimestamp` with `std::next(pktIt)` equal to `output.end()`.  With
such reads trapped the call ends there for every step budget that lets the walk get there,
and under no step budget does it return a result. -/
theorem findPackets_gap_scenario_reads_past_end :
    findPacketsOnSDCard [50, 300] gapFillCard [(90, 210)] []
      = .done (true, [PacketDescriptor.mk 50 100, PacketDescriptor.mk 50 200]) ∧
    (∀ fuel, findPackets (fuel + 3) [50, 300] gapFillCard [150] true [(90, 210)] []
      = .invalidRead) ∧
    (∀ fuel r, findPackets fuel [50, 300] gapFillCard [150] true [(90, 210)] []
      ≠ .done r) := by
  have h3 : ∀ fuel, findPackets (fuel + 3) [50, 300] gapFillCard [150] true [(90, 210)] []
      = .invalidRead := by
    intro fuel
    rfl
  refine ⟨by decide, h3, ?_⟩
  intro fuel r
  match fuel with
  | 0 =>
    have h : findPackets 0 [50, 300] gapFillCard [150] true [(90, 210)] [] = .outOfFuel := by
      decide
    rw [h]; exact fun h => Exec.noConfusion h
  | 1 =>
    have h : findPackets 1 [50, 300] gapFillCard [150] true [(90, 210)] [] = .outOfFuel := by
      decide
    rw [h]; exact fun h => Exec.noConfusion h
  | 2 =>
    have h : findPackets 2 [50, 300] gapFillCard [150] true [(90, 210)] [] = .outOfFuel := by
      decide
    rw [h]; exact fun h => Exec.noConfusion h
  | n + 3 => rw [h3 n]; exact fun h => Exec.noConfusion h

theorem remainingIntervals_eq (flash : List Int) (left : List interval_t)
    (output : List PacketDescriptor) :
    remainingIntervals flash left output
      = output ++ left.flatMap (fun iv =>
          (iterRange flash (findInterval iv flash)).map flashDescriptor) := by
  induction left generalizing output with
  | nil => simp [remainingIntervals]
  | cons iv rest ih =>
    simp [remainingIntervals, ih, findPacketsInFlash, List.flatMap_cons, List.append_assoc]

theorem flashDescriptor_injective : Function.Injective flashDescriptor := by
  intro a b h
  simpa [flashDescriptor] using h

theorem intervalsOverlap_eq_false (i j : interval_t) (t : Int)
    (h : intervalsOverlap i j = false) (hi : i.1 < t ∧ t < i.2) : ¬ (j.1 < t ∧ t < j.2) := by
  intro hj
  simp only [intervalsOverlap, decide_eq_false_iff_not, not_lt] at h
  rcases le_total i.1 j.1 with h1 | h1 <;> rcases le_total i.2 j.2 with h2 | h2 <;>
    simp only [max_eq_right, max_eq_left, min_eq_left, min_eq_right, h1, h2] at h <;> omega

theorem count_strictlyInside (iv : interval_t) (flash : List Int) (t : Int) :
    (strictlyInside iv flash).count t
      = if iv.1 < t ∧ t < iv.2 then flash.count t else 0 := by
  unfold strictlyInside
  split
  · next h => exact List.count_filter (by simpa using h)
  · next h =>
    rw [List.count_eq_zero]
    intro hmem
    exact h (by simpa using (List.mem_filter.mp hmem).2)

/-- Number of flash descriptors of `t` produced by searching every interval in full. -/
theorem count_flatMap_strictlyInside (flash : List Int) (t : Int) :
    ∀ intervals : List interval_t, nonOverlapping intervals →
      (intervals.flatMap (fun iv => (strictlyInside iv flash).map flashDescriptor)).count
          (flashDescriptor t)
        = if ∃ iv ∈ intervals, iv.1 < t ∧ t < iv.2 then flash.count t else 0
  | [], _ => by simp
  | iv :: rest, h => by
    have hp := List.pairwise_cons.mp h
    have ih := count_flatMap_strictlyInside flash t rest hp.2
    rw [List.flatMap_cons, List.count_append,
      List.count_map_of_injective _ _ flashDescriptor_injective, count_strictlyInside, ih]
    by_cases hin : iv.1 < t ∧ t < iv.2
    · have hrest : ¬ ∃ j ∈ rest, j.1 < t ∧ t < j.2 := by
        rintro ⟨j, hj, hjt⟩
        exact intervalsOverlap_eq_false iv j t (hp.1 j hj) hin hjt
      have hex : ∃ j ∈ iv :: rest, j.1 < t ∧ t < j.2 := ⟨iv, by simp, hin⟩
      simp [hin, hrest, hex]
    · by_cases hrest : ∃ j ∈ rest, j.1 < t ∧ t < j.2
      · have hex : ∃ j ∈ iv :: rest, j.1 < t ∧ t < j.2 := by
          obtain ⟨j, hj, hjt⟩ := hrest
          exact ⟨j, by simp [hj], hjt⟩
        simp [hin, hrest, hex]
      · have hex : ¬ ∃ j ∈ iv :: rest, j.1 < t ∧ t < j.2 := by
          rintro ⟨j, hj, hjt⟩
          rcases List.mem_cons.mp hj with rfl | hj
          · exact hin hjt
          · exact hrest ⟨j, hj, hjt⟩
        simp [hin, hrest, hex]

theorem nonOverlapping_sortIntervals (intervals : List interval_t)
    (h : nonOverlapping intervals) : nonOverlapping (sortIntervals intervals) := by
  unfold nonOverlapping at *
  refine (List.Perm.pairwise_iff ?_ (List.perm_insertionSort _ intervals).symm).mp h
  intro i j hij
  simp only [intervalsOverlap, decide_eq_false_iff_not] at *
  rwa [max_comm, min_comm]

/-- C4 as stated fails when two requested intervals overlap: with the intervals (500, 700)
and (550, 650), no archive, and the flash index [600], the archive search yields nothing
and `findPackets` returns two flash descriptors for the one flash-index timestamp 600. -/
theorem findPackets_overlapping_intervals_duplicate :
    findPacketsOnSDCard [] noCard [(500, 700), (550, 650)] [] = .done (true, []) ∧
    findPackets 0 [] noCard [600] true [(500, 700), (550, 650)] []
      = .done (true, [(500, 700), (550, 650)], [flashDescriptor 600, flashDescriptor 600]) := by
  decide

/-- C4 (amended): when the requested intervals are pairwise non-overlapping, the archive
search yields no descriptors, the flash tier is active and the flash index is non-empty and
sorted ascending, `findPackets` called with an empty output succeeds (for every step
budget); its output is, interval after interval in order of their begins, one flash
descriptor for each flash-index entry strictly inside the interval: every descriptor in it
is flash-tagged, a timestamp inside some requested interval has as many descriptors as it
has entries in the flash index, and a timestamp inside no requested interval has none. -/
theorem findPackets_flash_only (fuel : Nat) (subFolderTimestampsIndex : List Int)
    (sd : SdView) (flash : List Int) (intervals : List interval_t)
    (hne : flash ≠ []) (hsorted : flash.Sorted (· ≤ ·))
    (harchive : findPacketsOnSDCard subFolderTimestampsIndex sd intervals [] = .done (true, []))
    (hdisjoint : nonOverlapping intervals) :
    ∃ output, findPackets fuel subFolderTimestampsIndex sd flash true intervals []
        = .done (true, sortIntervals intervals, output) ∧
      output = (sortIntervals intervals).flatMap
        (fun iv => (flash.filter (fun t => decide (iv.1 < t ∧ t < iv.2))).map flashDescriptor) ∧
      (∀ d ∈ output, d.location = PacketDescriptor.FLASH_LOCATION) ∧
      (∀ t, (∃ iv ∈ intervals, iv.1 < t ∧ t < iv.2) →
        output.count (flashDescriptor t) = flash.count t) ∧
      (∀ t, (¬ ∃ iv ∈ intervals, iv.1 < t ∧ t < iv.2) → flashDescriptor t ∉ output) := by
  have hrange : ∀ iv : interval_t,
      iterRange flash (findInterval iv flash) = strictlyInside iv flash :=
    fun iv => findInterval_range_eq iv.1 iv.2 flash hsorted
  have hmemsort : ∀ iv, iv ∈ sortIntervals intervals ↔ iv ∈ intervals :=
    fun iv => (List.perm_insertionSort _ intervals).mem_iff
  have hex : ∀ t, (∃ iv ∈ sortIntervals intervals, iv.1 < t ∧ t < iv.2) ↔
      ∃ iv ∈ intervals, iv.1 < t ∧ t < iv.2 := by
    intro t
    constructor
    · rintro ⟨iv, h1, h2⟩; exact ⟨iv, (hmemsort iv).mp h1, h2⟩
    · rintro ⟨iv, h1, h2⟩; exact ⟨iv, (hmemsort iv).mpr h1, h2⟩
  have hcount := fun t => count_flatMap_strictlyInside flash t (sortIntervals intervals)
    (nonOverlapping_sortIntervals intervals hdisjoint)
  refine ⟨_, ?_, rfl, ?_, ?_, ?_⟩
  · cases flash with
    | nil => exact absurd rfl hne
    | cons flashFirst tail =>
      simp only [findPackets, harchive, flashGapFill, sortDescriptors, List.insertionSort,
        List.isEmpty_nil, if_true, remainingIntervals_eq, List.nil_append, hrange]
      rfl
  · intro d hd
    obtain ⟨iv, _, hd⟩ := List.mem_flatMap.mp hd
    obtain ⟨t, _, rfl⟩ := List.mem_map.mp hd
    rfl
  · intro t ht
    have := hcount t
    rw [if_pos ((hex t).mpr ht)] at this
    exact this
  · intro t ht
    have := hcount t
    rw [if_neg (fun h => ht ((hex t).mp h))] at this
    exact List.count_eq_zero.mp this

/-- Instance of `findPackets_flash_only`: the interval (500, 700), no archive, flash index [600]. -/
theorem findPackets_flash_only_witness :
    ∃ output, findPackets 0 [] noCard [600] true [(500, 700)] []
        = .done (true, sortIntervals [(500, 700)], output) ∧
      output = (sortIntervals [(500, 700)]).flatMap
        (fun iv => (([600] : List Int).filter
          (fun t => decide (iv.1 < t ∧ t < iv.2))).map flashDescriptor) ∧
      (∀ d ∈ output, d.location = PacketDescriptor.FLASH_LOCATION) ∧
      (∀ t, (∃ iv ∈ [((500, 700) : interval_t)], iv.1 < t ∧ t < iv.2) →
        output.count (flashDescriptor t) = ([600] : List Int).count t) ∧
      (∀ t, (¬ ∃ iv ∈ [((500, 700) : interval_t)], iv.1 < t ∧ t < iv.2) →
        flashDescriptor t ∉ output) :=
  findPackets_flash_only 0 [] noCard [600] [(500, 700)] (by decide) (by decide) (by decide)
    (by simp [nonOverlapping])

/-- C5: if the flash tier is inactive or the flash index is empty, and the archive search
succeeds with output `archiveOutput`, then `findPackets` returns success, the output
container is exactly `archiveOutput` (the archive descriptors in the order the archive
search produced them), and the caller's interval container is unchanged. -/
theorem findPackets_without_flash (fuel : Nat) (subFolderTimestampsIndex : List Int)
    (sd : SdView) (flash : List Int) (flashActive : Bool) (intervals : List interval_t)
    (output archiveOutput : List PacketDescriptor)
    (hflash : flashActive = false ∨ flash = [])
    (harchive : findPacketsOnSDCard subFolderTimestampsIndex sd intervals output
      = .done (true, archiveOutput)) :
    findPackets fuel subFolderTimestampsIndex sd flash flashActive intervals output
      = .done (true, intervals, archiveOutput) := by
  unfold findPackets
  rw [harchive]
  rcases hflash with h | h
  · subst h
    cases flash <;> simp
  · subst h
    rfl

/-- Instance of `findPackets_without_flash`: flash tier inactive, three archive matches. -/
theorem findPackets_without_flash_witness :
    findPackets 0 [50, 300] gapFillCard [150] false [(210, 400), (90, 210)] []
      = .done (true, [(210, 400), (90, 210)],
          [PacketDescriptor.mk 50 100, PacketDescriptor.mk 50 200, PacketDescriptor.mk 300 300]) :=
  findPackets_without_flash 0 [50, 300] gapFillCard [150] false [(210, 400), (90, 210)] []
    [PacketDescriptor.mk 50 100, PacketDescriptor.mk 50 200, PacketDescriptor.mk 300 300]
    (Or.inl rfl) (by decide)

/-! ### Flash tier writes -/

theorem writeNewPacket_cases (io : FlashFaults) (s : FlashStore) (packet : Packet)
    (ok : Bool) (s' : FlashStore) (h : writeNewPacket io s packet = .done (ok, s')) :
    4 ≤ packet.data.length ∧
    ((ok = false ∧ s'.flashPacketTimestampsIndex = s.flashPacketTimestampsIndex ∧
        (io.openFails = true ∨ io.writeFails = true ∨ io.closeFails = true)) ∨
     (ok = true ∧ io.openFails = false ∧ io.writeFails = false ∧ io.closeFails = false ∧
        s'.flashPacketTimestampsIndex = s.flashPacketTimestampsIndex ++ [packet.getTimestamp] ∧
        s'.files = (s.files.create (newPacketPath packet)).write (newPacketPath packet)
          packet.data)) := by
  unfold writeNewPacket at h
  by_cases hlen : packet.data.length < 4
  · simp [hlen] at h
  · refine ⟨by omega, ?_⟩
    simp only [hlen, if_false] at h
    cases hopen : io.openFails <;> cases hwrite : io.writeFails <;>
      cases hclose : io.closeFails <;>
      simp [hopen, hwrite, hclose] at h <;>
      obtain ⟨rfl, rfl⟩ := h <;> simp [newPacketPath]

theorem evictOldest_cases (maxPackets : Nat) (io : FlashFaults) (s : FlashStore)
    (go : Bool) (s1 : FlashStore) (h : evictOldest maxPackets io s = .done (go, s1)) :
    (s.flashPacketTimestampsIndex.length ≠ maxPackets ∧ s1 = s ∧
      (go = true ↔ s.flashPacketTimestampsIndex.length < maxPackets)) ∨
    (∃ oldest rest, s.flashPacketTimestampsIndex = oldest :: rest ∧
      s.flashPacketTimestampsIndex.length = maxPackets ∧
      ((go = false ∧ s1 = s ∧
          (io.unlinkFails = true ∨ s.files.read (flashPath oldest) = none)) ∨
       (go = true ∧ io.unlinkFails = false ∧ s1.flashPacketTimestampsIndex = rest ∧
          s1.files = s.files.remove (flashPath oldest)))) := by
  unfold evictOldest at h
  by_cases hfull : s.flashPacketTimestampsIndex.length = maxPackets
  · right
    rw [if_pos hfull] at h
    cases hidx : s.flashPacketTimestampsIndex with
    | nil => rw [hidx] at h; simp at h
    | cons oldest rest =>
      refine ⟨oldest, rest, rfl, by rw [← hidx]; exact hfull, ?_⟩
      rw [hidx] at h
      by_cases hfail : (io.unlinkFails || (s.files.read (flashPath oldest)).isNone) = true
      · left
        simp only [hfail, if_true, Exec.done.injEq, Prod.mk.injEq] at h
        refine ⟨h.1.symm, h.2.symm, ?_⟩
        simpa [Option.isNone_iff_eq_none] using hfail
      · right
        simp only [hfail, Exec.done.injEq, Prod.mk.injEq] at h
        obtain ⟨rfl, rfl⟩ := h
        simp at hfail
        exact ⟨rfl, hfail.1, rfl, rfl⟩
  · left
    rw [if_neg hfull] at h
    by_cases hgt : s.flashPacketTimestampsIndex.length > maxPackets
    · simp only [hgt, if_true, Exec.done.injEq, Prod.mk.injEq] at h
      obtain ⟨rfl, rfl⟩ := h
      exact ⟨hfull, rfl, by simp; omega⟩
    · simp only [hgt, if_false, Exec.done.injEq, Prod.mk.injEq] at h
      obtain ⟨rfl, rfl⟩ := h
      exact ⟨hfull, rfl, by simp; omega⟩

theorem savePacketToFlash_cases (maxPackets : Nat) (io : FlashFaults) (s : FlashStore)
    (packet : Packet) (ok : Bool) (s' : FlashStore)
    (h : savePacketToFlash maxPackets io s packet = .done (ok, s')) :
    packet.eventName = DataPointPacket.eventName ∧
    ∃ go s1, evictOldest maxPackets io s = .done (go, s1) ∧
      ((go = false ∧ ok = false ∧ s' = s1) ∨
       (go = true ∧ writeNewPacket io s1 packet = .done (ok, s'))) := by
  unfold savePacketToFlash at h
  by_cases hname : packet.eventName ≠ DataPointPacket.eventName
  · simp [hname] at h
  · rw [if_neg hname] at h
    refine ⟨not_not.mp hname, ?_⟩
    cases hev : evictOldest maxPackets io s with
    | done r =>
      obtain ⟨go, s1⟩ := r
      rw [hev] at h
      cases go with
      | true => exact ⟨true, s1, rfl, Or.inr ⟨rfl, h⟩⟩
      | false =>
        simp only [Exec.done.injEq, Prod.mk.injEq] at h
        exact ⟨false, s1, rfl, Or.inl ⟨rfl, h.1.symm, h.2.symm⟩⟩
    | assertFailed => rw [hev] at h; simp at h
    | invalidRead => rw [hev] at h; simp at h
    | hang => rw [hev] at h; simp at h
    | outOfFuel => rw [hev] at h; simp at h
    | capacityExceeded => rw [hev] at h; simp at h

/-- One call keeps the index within the capacity. -/
theorem savePacketToFlash_length_le (maxPackets : Nat) (io : FlashFaults) (s : FlashStore)
    (packet : Packet) (ok : Bool) (s' : FlashStore)
    (hle : s.flashPacketTimestampsIndex.length ≤ maxPackets)
    (h : savePacketToFlash maxPackets io s packet = .done (ok, s')) :
    s'.flashPacketTimestampsIndex.length ≤ maxPackets := by
  obtain ⟨_, go, s1, hev, hrest⟩ := savePacketToFlash_cases maxPackets io s packet ok s' h
  have hs1 : s1.flashPacketTimestampsIndex.length ≤ maxPackets ∧
      (go = true → s1.flashPacketTimestampsIndex.length < maxPackets) := by
    rcases evictOldest_cases maxPackets io s go s1 hev with ⟨hne, rfl, hgo⟩ |
      ⟨oldest, rest, hidx, hfull, hcase⟩
    · exact ⟨hle, fun hg => hgo.mp hg⟩
    · rcases hcase with ⟨hgo, rfl, _⟩ | ⟨_, _, hi, _⟩
      · exact ⟨hle, fun hg => by rw [hgo] at hg; cases hg⟩
      · rw [hidx] at hfull
        simp only [List.length_cons] at hfull
        rw [hi]
        exact ⟨by omega, fun _ => by omega⟩
  rcases hrest with ⟨_, _, rfl⟩ | ⟨hgo, hw⟩
  · exact hs1.1
  · rcases (writeNewPacket_cases io s1 packet ok s' hw).2 with ⟨_, hi, _⟩ | ⟨_, _, _, _, hi, _⟩
    · rw [hi]; exact hs1.1
    · rw [hi, List.length_append, List.length_singleton]
      exact hs1.2 hgo

/-- A call with a data point packet of at least four bytes returns. -/
theorem savePacketToFlash_returns (maxPackets : Nat) (io : FlashFaults) (s : FlashStore)
    (packet : Packet) (hpos : 0 < maxPackets)
    (hname : packet.eventName = DataPointPacket.eventName) (hlen : 4 ≤ packet.data.length) :
    ∃ ok s', savePacketToFlash maxPackets io s packet = .done (ok, s') := by
  have hw : ∀ s1, ∃ ok s', writeNewPacket io s1 packet = .done (ok, s') := by
    intro s1
    unfold writeNewPacket
    rw [if_neg (by omega)]
    cases io.openFails <;> cases io.writeFails <;> cases io.closeFails <;> simp
  unfold savePacketToFlash evictOldest
  rw [if_neg (not_not.mpr hname)]
  by_cases hfull : s.flashPacketTimestampsIndex.length = maxPackets
  · rw [if_pos hfull]
    cases hidx : s.flashPacketTimestampsIndex with
    | nil => rw [hidx] at hfull; simp at hfull; omega
    | cons oldest rest =>
      by_cases hfail : (io.unlinkFails || (s.files.read (flashPath oldest)).isNone) = true
      · simp only [hfail, if_true]
        exact ⟨false, s, rfl⟩
      · simp only [hfail]
        exact hw _
  · rw [if_neg hfull]
    by_cases hgt : s.flashPacketTimestampsIndex.length > maxPackets
    · simp only [hgt, if_true]
      exact ⟨false, s, rfl⟩
    · simp only [hgt, if_false]
      exact hw _

/-- C6: flash capacity invariant.  For every capacity, every flash index whose length is at
most the capacity and every packet, the index length after `savePacketToFlash` is at most
the capacity whenever the call returns, with success or with failure; the same holds after
every sequence of calls; and with a positive capacity (1024 in the source) every call, and
every sequence of calls, with data point packets of at least four bytes does return. -/
theorem flash_capacity_invariant (maxPackets : Nat) (s : FlashStore)
    (hle : s.flashPacketTimestampsIndex.length ≤ maxPackets) :
    (∀ io packet ok s', savePacketToFlash maxPackets io s packet = .done (ok, s') →
      s'.flashPacketTimestampsIndex.length ≤ maxPackets) ∧
    (∀ calls s', savePacketsToFlash maxPackets calls s = .done s' →
      s'.flashPacketTimestampsIndex.length ≤ maxPackets) ∧
    (0 < maxPackets → ∀ calls : List (FlashFaults × Packet),
      (∀ c ∈ calls, c.2.eventName = DataPointPacket.eventName ∧ 4 ≤ c.2.data.length) →
      ∃ s', savePacketsToFlash maxPackets calls s = .done s') := by
  refine ⟨fun io packet ok s' h => savePacketToFlash_length_le maxPackets io s packet ok s' hle h,
    ?_, ?_⟩
  · intro calls
    induction calls generalizing s with
    | nil =>
      intro s' h
      simp only [savePacketsToFlash, Exec.done.injEq] at h
      rw [← h]; exact hle
    | cons c rest ih =>
      intro s' h
      obtain ⟨io, packet⟩ := c
      unfold savePacketsToFlash at h
      cases hstep : savePacketToFlash maxPackets io s packet with
      | done r =>
        obtain ⟨ok, s1⟩ := r
        rw [hstep] at h
        exact ih s1 (savePacketToFlash_length_le maxPackets io s packet ok s1 hle hstep) s' h
      | assertFailed => rw [hstep] at h; simp at h
      | invalidRead => rw [hstep] at h; simp at h
      | hang => rw [hstep] at h; simp at h
      | outOfFuel => rw [hstep] at h; simp at h
      | capacityExceeded => rw [hstep] at h; simp at h
  · intro hpos calls
    induction calls generalizing s with
    | nil => intro _; exact ⟨s, rfl⟩
    | cons c rest ih =>
      intro hvalid
      obtain ⟨io, packet⟩ := c
      have hc := hvalid (io, packet) (by simp)
      obtain ⟨ok, s1, hstep⟩ := savePacketToFlash_returns maxPackets io s packet hpos hc.1 hc.2
      obtain ⟨s', hs'⟩ := ih s1
        (savePacketToFlash_length_le maxPackets io s packet ok s1 hle hstep)
        (fun c hcm => hvalid c (by simp [hcm]))
      refine ⟨s', ?_⟩
      unfold savePacketsToFlash
      rw [hstep]
      exact hs'

/-- Instance of `flash_capacity_invariant`: a full index of capacity 2 receives a third packet. -/
theorem flash_capacity_invariant_witness :
    savePacketToFlash 2 noFlashFaults (FlashStore.mk [10, 20]
        [(flashPath 10, [10, 0, 0, 0]), (flashPath 20, [20, 0, 0, 0])])
        (dataPointPacket 30 [1, 2])
      = .done (true, FlashStore.mk [20, 30] [(flashPath 20, [20, 0, 0, 0]),
          (flashPath 30, [30, 0, 0, 0, 1, 2])]) ∧
    ([20, 30] : List Int).length ≤ 2 :=
  ⟨by decide,
    (flash_capacity_invariant 2 (FlashStore.mk [10, 20]
      [(flashPath 10, [10, 0, 0, 0]), (flashPath 20, [20, 0, 0, 0])]) (by decide)).1
      noFlashFaults (dataPointPacket 30 [1, 2]) true
      (FlashStore.mk [20, 30] [(flashPath 20, [20, 0, 0, 0]),
        (flashPath 30, [30, 0, 0, 0, 1, 2])]) (by decide)⟩

theorem Files.read_remove_self (fs : Files) (p : f_string) :
    (fs.remove p).read p = none := by
  induction fs with
  | nil => rfl
  | cons e rest ih =>
    obtain ⟨k, v⟩ := e
    unfold Files.remove Files.read at *
    by_cases he : k = p
    · simpa [List.filter_cons, he] using ih
    · have hne : (p == k) = false := by simpa using fun h => he h.symm
      simpa [List.filter_cons, he, List.lookup_cons, hne] using ih

theorem Files.read_remove_of_ne (fs : Files) (p q : f_string) (h : q ≠ p) :
    (fs.remove p).read q = fs.read q := by
  induction fs with
  | nil => rfl
  | cons e rest ih =>
    obtain ⟨k, v⟩ := e
    unfold Files.remove Files.read at *
    by_cases he : k = p
    · subst he
      have hne : (q == k) = false := by simpa using h
      simpa [List.filter_cons, List.lookup_cons, hne] using ih
    · by_cases hq : q = k
      · simp [List.filter_cons, he, List.lookup_cons, hq]
      · have hne : (q == k) = false := by simpa using hq
        simpa [List.filter_cons, he, List.lookup_cons, hne] using ih

theorem Files.read_append_of_ne (fs : Files) (p q : f_string) (d : Bytes) (h : q ≠ p) :
    Files.read (fs ++ [(p, d)]) q = fs.read q := by
  induction fs with
  | nil =>
    have hne : (q == p) = false := by simpa using h
    simp [Files.read, List.lookup_cons, hne]
  | cons e rest ih =>
    obtain ⟨k, v⟩ := e
    unfold Files.read at *
    by_cases hq : q = k
    · simp [List.lookup_cons, hq]
    · have hne : (q == k) = false := by simpa using hq
      simpa [List.lookup_cons, hne] using ih

theorem Files.read_create_of_ne (fs : Files) (p q : f_string) (h : q ≠ p) :
    (fs.create p).read q = fs.read q := by
  unfold Files.create
  split
  · rfl
  · exact Files.read_append_of_ne fs p q [] h

theorem Files.read_write_of_ne (fs : Files) (p q : f_string) (d : Bytes) (h : q ≠ p) :
    (fs.write p d).read q = fs.read q := by
  induction fs with
  | nil => rfl
  | cons e rest ih =>
    obtain ⟨k, v⟩ := e
    unfold Files.write Files.read at *
    by_cases he : k = p
    · subst he
      have hne : (q == k) = false := by simpa using h
      simpa [List.lookup_cons, hne] using ih
    · by_cases hq : q = k
      · simp [he, List.lookup_cons, hq]
      · have hne : (q == k) = false := by simpa using hq
        simpa [he, List.lookup_cons, hne] using ih

/-- C7: eviction.  For every ascending-sorted flash index whose length equals the capacity,
a successful `savePacketToFlash` removes from the index its first entry, which is the
smallest timestamp, and no other entry, and appends the timestamp of the new packet, so the
length stays equal to the capacity; of the files it deletes the file of that oldest
timestamp and touches no other file than the one it writes for the new packet. -/
theorem savePacketToFlash_evicts_oldest (maxPackets : Nat) (io : FlashFaults)
    (s : FlashStore) (packet : Packet) (s' : FlashStore)
    (hsorted : s.flashPacketTimestampsIndex.Sorted (· ≤ ·))
    (hfull : s.flashPacketTimestampsIndex.length = maxPackets)
    (hok : savePacketToFlash maxPackets io s packet = .done (true, s')) :
    ∃ oldest rest, s.flashPacketTimestampsIndex = oldest :: rest ∧
      (∀ t ∈ s.flashPacketTimestampsIndex, oldest ≤ t) ∧
      s'.flashPacketTimestampsIndex = rest ++ [packet.getTimestamp] ∧
      s'.flashPacketTimestampsIndex.length = maxPackets ∧
      s'.files = ((s.files.remove (flashPath oldest)).create (newPacketPath packet)).write
        (newPacketPath packet) packet.data ∧
      (flashPath oldest ≠ newPacketPath packet → s'.files.read (flashPath oldest) = none) ∧
      (∀ q, q ≠ flashPath oldest → q ≠ newPacketPath packet →
        s'.files.read q = s.files.read q) := by
  obtain ⟨_, go, s1, hev, hrest⟩ := savePacketToFlash_cases maxPackets io s packet true s' hok
  rcases hrest with ⟨_, hfalse, _⟩ | ⟨hgoTrue, hw⟩
  · cases hfalse
  rcases (writeNewPacket_cases io s1 packet true s' hw).2 with ⟨hfalse, _⟩ |
    ⟨_, _, _, _, hidx', hfiles'⟩
  · cases hfalse
  rcases evictOldest_cases maxPackets io s go s1 hev with ⟨hne, _, _⟩ |
    ⟨oldest, rest, hidx, _, hcase⟩
  · exact absurd hfull hne
  rcases hcase with ⟨hgo, _, _⟩ | ⟨_, _, hi1, hf1⟩
  · rw [hgo] at hgoTrue; cases hgoTrue
  have hfilesEq : s'.files = ((s.files.remove (flashPath oldest)).create
      (newPacketPath packet)).write (newPacketPath packet) packet.data := by
    rw [hfiles', hf1]
  refine ⟨oldest, rest, hidx, ?_, ?_, ?_, hfilesEq, ?_, ?_⟩
  · intro t ht
    rw [hidx] at ht hsorted
    rcases List.mem_cons.mp ht with rfl | ht
    · exact le_refl _
    · exact (List.sorted_cons.mp hsorted).1 t ht
  · rw [hidx', hi1]
  · rw [hidx', hi1, List.length_append, List.length_singleton, ← hfull, hidx,
      List.length_cons]
  · intro hne
    rw [hfilesEq, Files.read_write_of_ne _ _ _ _ hne, Files.read_create_of_ne _ _ _ hne,
      Files.read_remove_self]
  · intro q hq1 hq2
    rw [hfilesEq, Files.read_write_of_ne _ _ _ _ hq2, Files.read_create_of_ne _ _ _ hq2,
      Files.read_remove_of_ne _ _ _ hq1]

/-- Instance of `savePacketToFlash_evicts_oldest`: capacity 2, index [10, 20], new packet 30. -/
theorem savePacketToFlash_evicts_oldest_witness :
    ∃ oldest rest, ([10, 20] : List Int) = oldest :: rest ∧
      (∀ t ∈ ([10, 20] : List Int), oldest ≤ t) ∧
      ([20, 30] : List Int) = rest ++ [(dataPointPacket 30 [1, 2]).getTimestamp] ∧
      ([20, 30] : List Int).length = 2 ∧
      [(flashPath 20, [20, 0, 0, 0]), (flashPath 30, [30, 0, 0, 0, 1, 2])]
        = ((Files.remove [(flashPath 10, [10, 0, 0, 0]), (flashPath 20, [20, 0, 0, 0])]
            (flashPath oldest)).create (newPacketPath (dataPointPacket 30 [1, 2]))).write
          (newPacketPath (dataPointPacket 30 [1, 2])) (dataPointPacket 30 [1, 2]).data ∧
      (flashPath oldest ≠ newPacketPath (dataPointPacket 30 [1, 2]) →
        Files.read [(flashPath 20, [20, 0, 0, 0]), (flashPath 30, [30, 0, 0, 0, 1, 2])]
          (flashPath oldest) = none) ∧
      (∀ q, q ≠ flashPath oldest → q ≠ newPacketPath (dataPointPacket 30 [1, 2]) →
        Files.read [(flashPath 20, [20, 0, 0, 0]), (flashPath 30, [30, 0, 0, 0, 1, 2])] q
          = Files.read [(flashPath 10, [10, 0, 0, 0]), (flashPath 20, [20, 0, 0, 0])] q) :=
  savePacketToFlash_evicts_oldest 2 noFlashFaults
    (FlashStore.mk [10, 20] [(flashPath 10, [10, 0, 0, 0]), (flashPath 20, [20, 0, 0, 0])])
    (dataPointPacket 30 [1, 2])
    (FlashStore.mk [20, 30] [(flashPath 20, [20, 0, 0, 0]), (flashPath 30, [30, 0, 0, 0, 1, 2])])
    (by decide) (by decide) (by decide)

/-- C8 (the code departs from the claim): from the sorted flash index [1700000010], far
below the capacity 1024, a successful `savePacketToFlash` of a data point packet stamped
1700000005 appends the timestamp at the end: the index becomes [1700000010, 1700000005],
which is not sorted ascending. -/
theorem savePacketToFlash_breaks_sortedness :
    List.Sorted (· ≤ ·) ([1700000010] : List Int) ∧
    savePacketToFlash FLASH_MAX_PACKETS noFlashFaults
        (FlashStore.mk [1700000010] [(flashPath 1700000010, [10, 241, 83, 101, 7])])
        (dataPointPacket 1700000005 [7])
      = .done (true, FlashStore.mk [1700000010, 1700000005]
          [(flashPath 1700000010, [10, 241, 83, 101, 7]),
           (flashPath 1700000005, [5, 241, 83, 101, 7])]) ∧
    ¬ List.Sorted (· ≤ ·) ([1700000010, 1700000005] : List Int) := by
  decide

/-- C9 (the code departs from the claim): with the strictly increasing bucket index
[1700000000], the bucket timespan 3600, the current time 1700003600 and a packet stamped
1699999990, `savePacketToSD` finds the latest bucket too old, creates a bucket named by the
packet timestamp and appends it: the bucket index becomes [1700000000, 1699999990], which is
not increasing. -/
theorem savePacketToSD_breaks_bucket_order :
    List.Sorted (· < ·) ([1700000000] : List Int) ∧
    savePacketToSD SD_CARD_SUBFOLDER_TIMESPAN 1700003600 noSdFaults
        (SdStore.mk [1700000000] [(1700000000, [("1700000000.pkt".toList, [0, 241, 83, 101, 7])])])
        (dataPointPacket 1699999990 [7])
      = .done (true, SdStore.mk [1700000000, 1699999990]
          [(1700000000, [("1700000000.pkt".toList, [0, 241, 83, 101, 7])]),
           (1699999990, [("1699999990.pkt".toList, [246, 240, 83, 101, 7])])]) ∧
    ¬ List.Sorted (· < ·) ([1700000000, 1699999990] : List Int) := by
  decide

/-- C10 as stated fails: with the flash index at its capacity of 1024 entries, the call
`unlink` for the oldest entry succeeds and that entry is erased from the index before the
call `open` for the new file fails; `savePacketToFlash` then returns failure with the index
one entry shorter than before the call. -/
theorem savePacketToFlash_failure_after_eviction :
    fullFlashIndex.length = FLASH_MAX_PACKETS ∧
    savePacketToFlash FLASH_MAX_PACKETS openFault fullFlash (dataPointPacket 1700006144 [7])
      = .done (false, FlashStore.mk fullFlashIndex.tail []) ∧
    fullFlashIndex.tail ≠ fullFlashIndex := by
  decide

/-- With the index at capacity, the oldest file present and `unlink` not failing, the
eviction is carried out. -/
theorem evictOldest_full (maxPackets : Nat) (io : FlashFaults) (s : FlashStore)
    (oldest : Int) (rest : List Int)
    (hidx : s.flashPacketTimestampsIndex = oldest :: rest)
    (hfull : s.flashPacketTimestampsIndex.length = maxPackets)
    (hunlink : io.unlinkFails = false)
    (hfile : (s.files.read (flashPath oldest)).isSome = true) :
    evictOldest maxPackets io s
      = .done (true, FlashStore.mk rest (s.files.remove (flashPath oldest))) := by
  unfold evictOldest
  rw [if_pos hfull, hidx]
  have hnone : (s.files.read (flashPath oldest)).isNone = false := by
    cases hread : s.files.read (flashPath oldest) with
    | none => rw [hread] at hfile; cases hfile
    | some content => rfl
  simp only [hunlink, hnone, Bool.or_self, Bool.false_eq_true, if_false]

/-- With the index at capacity and the oldest file missing or `unlink` failing, the
function leaves through `FLASH_ERROR()` with the tier as it was. -/
theorem evictOldest_stops (maxPackets : Nat) (io : FlashFaults) (s : FlashStore)
    (oldest : Int) (rest : List Int)
    (hidx : s.flashPacketTimestampsIndex = oldest :: rest)
    (hfull : s.flashPacketTimestampsIndex.length = maxPackets)
    (hstop : io.unlinkFails = true ∨ s.files.read (flashPath oldest) = none) :
    evictOldest maxPackets io s = .done (false, s) := by
  unfold evictOldest
  rw [if_pos hfull, hidx]
  have hcond : (io.unlinkFails || (s.files.read (flashPath oldest)).isNone) = true := by
    rcases hstop with h | h
    · rw [h]; rfl
    · rw [h]; simp
  simp only [hcond, if_true]

/-- C10 (amended): let `savePacketToFlash` return failure.  If the index was at capacity,
the file of its first entry was present and `unlink` did not fail, then the eviction has
been carried out and is not undone: the failing call is `open`, `write` or `close`, the
oldest file is removed, and the index after the call is the index before it without its
first entry (one entry shorter).  In every other case (index not at capacity, `unlink`
failing, or the oldest file missing) the index after the call equals the index before it.
In no case is the timestamp of the new packet appended. -/
theorem savePacketToFlash_failure_index (maxPackets : Nat) (io : FlashFaults)
    (s : FlashStore) (packet : Packet) (s' : FlashStore)
    (hfail : savePacketToFlash maxPackets io s packet = .done (false, s')) :
    (∀ oldest rest, s.flashPacketTimestampsIndex = oldest :: rest →
      s.flashPacketTimestampsIndex.length = maxPackets → io.unlinkFails = false →
      (s.files.read (flashPath oldest)).isSome = true →
        s'.flashPacketTimestampsIndex = rest ∧
        s'.flashPacketTimestampsIndex.length + 1 = s.flashPacketTimestampsIndex.length ∧
        (io.openFails = true ∨ io.writeFails = true ∨ io.closeFails = true) ∧
        writeNewPacket io (FlashStore.mk rest (s.files.remove (flashPath oldest))) packet
          = .done (false, s')) ∧
    (s.flashPacketTimestampsIndex.length ≠ maxPackets →
      s'.flashPacketTimestampsIndex = s.flashPacketTimestampsIndex) ∧
    (io.unlinkFails = true → s'.flashPacketTimestampsIndex = s.flashPacketTimestampsIndex) ∧
    (∀ oldest rest, s.flashPacketTimestampsIndex = oldest :: rest →
      s.files.read (flashPath oldest) = none →
        s'.flashPacketTimestampsIndex = s.flashPacketTimestampsIndex) ∧
    (s'.flashPacketTimestampsIndex = s.flashPacketTimestampsIndex ∨
      s'.flashPacketTimestampsIndex = s.flashPacketTimestampsIndex.tail) := by
  obtain ⟨hname, go, s1, hev, hrest⟩ :=
    savePacketToFlash_cases maxPackets io s packet false s' hfail
  have hw : go = true → s'.flashPacketTimestampsIndex = s1.flashPacketTimestampsIndex ∧
      (io.openFails = true ∨ io.writeFails = true ∨ io.closeFails = true) ∧
      writeNewPacket io s1 packet = .done (false, s') := by
    intro hgo
    rcases hrest with ⟨hgo', _, _⟩ | ⟨_, hw⟩
    · rw [hgo] at hgo'; cases hgo'
    · rcases (writeNewPacket_cases io s1 packet false s' hw).2 with ⟨_, hi, hio⟩ | ⟨hfalse, _⟩
      · exact ⟨hi, hio, hw⟩
      · cases hfalse
  have hstop : go = false → s' = s1 := by
    intro hgo
    rcases hrest with ⟨_, _, h⟩ | ⟨hgo', _⟩
    · exact h
    · rw [hgo] at hgo'; cases hgo'
  have hnotfull : s.flashPacketTimestampsIndex.length ≠ maxPackets →
      s'.flashPacketTimestampsIndex = s.flashPacketTimestampsIndex := by
    intro hne
    rcases evictOldest_cases maxPackets io s go s1 hev with ⟨_, hs1, _⟩ |
      ⟨_, _, _, hfull, _⟩
    · cases go with
      | true => rw [(hw rfl).1, hs1]
      | false => rw [hstop rfl, hs1]
    · exact absurd hfull hne
  have hstopped : ∀ oldest rest, s.flashPacketTimestampsIndex = oldest :: rest →
      (io.unlinkFails = true ∨ s.files.read (flashPath oldest) = none) →
      s'.flashPacketTimestampsIndex = s.flashPacketTimestampsIndex := by
    intro oldest rest hidx hcause
    by_cases hfull : s.flashPacketTimestampsIndex.length = maxPackets
    · have hev2 := evictOldest_stops maxPackets io s oldest rest hidx hfull hcause
      rw [hev2] at hev
      simp only [Exec.done.injEq, Prod.mk.injEq] at hev
      rw [hstop hev.1.symm, ← hev.2]
    · exact hnotfull hfull
  have hevicted : ∀ oldest rest, s.flashPacketTimestampsIndex = oldest :: rest →
      s.flashPacketTimestampsIndex.length = maxPackets → io.unlinkFails = false →
      (s.files.read (flashPath oldest)).isSome = true →
        s'.flashPacketTimestampsIndex = rest ∧
        s'.flashPacketTimestampsIndex.length + 1 = s.flashPacketTimestampsIndex.length ∧
        (io.openFails = true ∨ io.writeFails = true ∨ io.closeFails = true) ∧
        writeNewPacket io (FlashStore.mk rest (s.files.remove (flashPath oldest))) packet
          = .done (false, s') := by
    intro oldest rest hidx hfull hunlink hfile
    have hev2 := evictOldest_full maxPackets io s oldest rest hidx hfull hunlink hfile
    rw [hev2] at hev
    simp only [Exec.done.injEq, Prod.mk.injEq] at hev
    obtain ⟨hgo, hs1⟩ := hev
    obtain ⟨hi, hio, hwrite⟩ := hw hgo.symm
    rw [← hs1] at hi hwrite
    exact ⟨hi, by rw [hi, hidx]; rfl, hio, hwrite⟩
  refine ⟨hevicted, hnotfull, ?_, ?_, ?_⟩
  · intro hu
    cases hidx : s.flashPacketTimestampsIndex with
    | nil =>
      rcases evictOldest_cases maxPackets io s go s1 hev with ⟨hne, _, _⟩ |
        ⟨_, _, hcons, _, _⟩
      · rw [← hidx]; exact hnotfull hne
      · rw [hidx] at hcons; cases hcons
    | cons oldest rest => rw [← hidx]; exact hstopped oldest rest hidx (Or.inl hu)
  · intro oldest rest hidx hmissing
    exact hstopped oldest rest hidx (Or.inr hmissing)
  · cases hidx : s.flashPacketTimestampsIndex with
    | nil =>
      left
      rcases evictOldest_cases maxPackets io s go s1 hev with ⟨hne, _, _⟩ |
        ⟨_, _, hcons, _, _⟩
      · rw [← hidx]; exact hnotfull hne
      · rw [hidx] at hcons; cases hcons
    | cons oldest rest =>
      by_cases hfull : s.flashPacketTimestampsIndex.length = maxPackets
      · by_cases hcause : io.unlinkFails = true ∨ s.files.read (flashPath oldest) = none
        · left; rw [← hidx]; exact hstopped oldest rest hidx hcause
        · right
          have hunlink : io.unlinkFails = false := by
            cases hu : io.unlinkFails with
            | false => rfl
            | true => exact absurd (Or.inl hu) hcause
          have hfile : (s.files.read (flashPath oldest)).isSome = true := by
            cases hread : s.files.read (flashPath oldest) with
            | none => exact absurd (Or.inr hread) hcause
            | some content => rfl
          rw [(hevicted oldest rest hidx hfull hunlink hfile).1, List.tail_cons]
      · left; rw [← hidx]; exact hnotfull hfull

/-- Instance of `savePacketToFlash_failure_index`: capacity 2, index [10, 20] with both
files present, `open` fails: the index after the call is [20]. -/
theorem savePacketToFlash_failure_index_witness :
    savePacketToFlash 2 openFault
        (FlashStore.mk [10, 20] [(flashPath 10, [10, 0, 0, 0]), (flashPath 20, [20, 0, 0, 0])])
        (dataPointPacket 30 [1, 2])
      = .done (false, FlashStore.mk [20] [(flashPath 20, [20, 0, 0, 0])]) ∧
    (([20] : List Int) = [20] ∧
      ([20] : List Int).length + 1 = ([10, 20] : List Int).length ∧
      (openFault.openFails = true ∨ openFault.writeFails = true ∨
        openFault.closeFails = true) ∧
      writeNewPacket openFault
          (FlashStore.mk [20]
            (Files.remove [(flashPath 10, [10, 0, 0, 0]), (flashPath 20, [20, 0, 0, 0])]
              (flashPath 10)))
          (dataPointPacket 30 [1, 2])
        = .done (false, FlashStore.mk [20] [(flashPath 20, [20, 0, 0, 0])])) :=
  ⟨by decide,
    (savePacketToFlash_failure_index 2 openFault
      (FlashStore.mk [10, 20] [(flashPath 10, [10, 0, 0, 0]), (flashPath 20, [20, 0, 0, 0])])
      (dataPointPacket 30 [1, 2])
      (FlashStore.mk [20] [(flashPath 20, [20, 0, 0, 0])]) (by decide)).1
      10 [20] rfl rfl rfl (by decide)⟩

/-! ### File names -/

theorem checkPacketName_cons_dot (cs : f_string) :
    checkPacketName ('.' :: cs) = (cs == ['p', 'k', 't']) := by
  simp [checkPacketName, List.dropWhile]

theorem checkPacketName_cons_ne (c : Char) (cs : f_string) (h : c ≠ '.') :
    checkPacketName (c :: cs) = checkPacketName cs := by
  have hb : (c != '.') = true := by simpa using h
  simp only [checkPacketName, List.dropWhile_cons, hb, if_true]

/-- A name is accepted exactly when it is a dot-free text followed by `.pkt`. -/
theorem checkPacketName_iff_append (name : f_string) :
    checkPacketName name = true ↔ ∃ pre, '.' ∉ pre ∧ name = pre ++ ['.', 'p', 'k', 't'] := by
  induction name with
  | nil =>
    constructor
    · intro h; simp [checkPacketName] at h
    · rintro ⟨pre, _, h⟩; simp at h
  | cons c cs ih =>
    by_cases hc : c = '.'
    · subst hc
      rw [checkPacketName_cons_dot]
      constructor
      · intro h
        exact ⟨[], by simp, by simpa using h⟩
      · rintro ⟨pre, hpre, h⟩
        cases pre with
        | nil => simpa using h
        | cons x xs =>
          simp only [List.cons_append, List.cons.injEq] at h
          exact absurd (by simp [← h.1]) hpre
    · rw [checkPacketName_cons_ne c cs hc, ih]
      constructor
      · rintro ⟨pre, hpre, h⟩
        exact ⟨c :: pre, by simp [hpre, Ne.symm hc], by simp [h]⟩
      · rintro ⟨pre, hpre, h⟩
        cases pre with
        | nil =>
          simp only [List.nil_append, List.cons.injEq] at h
          exact absurd h.1 hc
        | cons x xs =>
          simp only [List.cons_append, List.cons.injEq] at h
          exact ⟨xs, fun hx => hpre (List.mem_cons_of_mem _ hx), h.2⟩

/-- C19: for every name, `checkPacketName` is true if and only if the name contains exactly
one `.` character and the text after it is `pkt`. -/
theorem checkPacketName_iff (name : f_string) :
    checkPacketName name = true ↔
      name.count '.' = 1 ∧ ∃ pre, name = pre ++ '.' :: ['p', 'k', 't'] := by
  rw [checkPacketName_iff_append]
  constructor
  · rintro ⟨pre, hpre, rfl⟩
    refine ⟨?_, pre, rfl⟩
    rw [List.count_append, List.count_eq_zero.mpr hpre]
    decide
  · rintro ⟨hcount, pre, rfl⟩
    refine ⟨pre, ?_, rfl⟩
    rw [List.count_append] at hcount
    have h1 : List.count '.' ['.', 'p', 'k', 't'] = 1 := by decide
    rw [h1] at hcount
    exact List.count_eq_zero.mp (by omega)


theorem digitChar_toNat (k : Nat) (h : k < 10) : (Nat.digitChar k).toNat = 48 + k := by
  interval_cases k <;> rfl

theorem digitsValue_append (ds : List Char) (c : Char) (rest : List Char) (acc : Nat)
    (hds : ∀ d ∈ ds, 48 ≤ d.toNat ∧ d.toNat ≤ 57) (hc : ¬ (48 ≤ c.toNat ∧ c.toNat ≤ 57)) :
    digitsValue (ds ++ c :: rest) acc
      = ds.foldl (fun a d => a * 10 + (d.toNat - 48)) acc := by
  induction ds generalizing acc with
  | nil =>
    simp only [List.nil_append, digitsValue, List.foldl_nil]
    rw [if_neg (by simpa using hc)]
  | cons d ds ih =>
    have hd := hds d (by simp)
    simp only [List.cons_append, digitsValue, List.foldl_cons]
    rw [if_pos (by simpa using hd)]
    exact ih _ (fun x hx => hds x (by simp [hx]))

/-- The digits that `toDigitsCore` puts in front of `ds` are decimal digit characters whose
value is `n`. -/
theorem toDigitsCore_spec (fuel : Nat) : ∀ (n : Nat) (ds : List Char), n < fuel →
    ∃ pre, Nat.toDigitsCore 10 fuel n ds = pre ++ ds ∧ pre ≠ [] ∧
      (∀ d ∈ pre, 48 ≤ d.toNat ∧ d.toNat ≤ 57) ∧
      ∀ acc, pre.foldl (fun a d => a * 10 + (d.toNat - 48)) acc = acc * 10 ^ pre.length + n := by
  induction fuel with
  | zero => intro n ds h; omega
  | succ fuel ih =>
    intro n ds hn
    have hmod : n % 10 < 10 := Nat.mod_lt _ (by decide)
    have hdig := digitChar_toNat (n % 10) hmod
    unfold Nat.toDigitsCore
    by_cases h0 : n / 10 = 0
    · simp only [h0, if_true]
      refine ⟨[Nat.digitChar (n % 10)], rfl, by simp, ?_, ?_⟩
      · intro d hd
        simp only [List.mem_singleton] at hd
        subst hd
        omega
      · intro acc
        simp only [List.foldl_cons, List.foldl_nil, List.length_singleton, pow_one, hdig]
        omega
    · simp only [h0, if_false]
      obtain ⟨pre, hpre, _, hdigits, hval⟩ := ih (n / 10) (Nat.digitChar (n % 10) :: ds)
        (by omega)
      refine ⟨pre ++ [Nat.digitChar (n % 10)], by simp [hpre], by simp, ?_, ?_⟩
      · intro d hd
        rcases List.mem_append.mp hd with hd | hd
        · exact hdigits d hd
        · simp only [List.mem_singleton] at hd
          subst hd
          omega
      · intro acc
        simp only [List.foldl_append, List.foldl_cons, List.foldl_nil, hval,
          List.length_append, List.length_singleton, hdig, pow_succ]
        have := Nat.div_add_mod n 10
        rw [Nat.add_sub_cancel_left]
        nlinarith [Nat.div_add_mod n 10]

theorem toDigits_spec (n : Nat) :
    Nat.toDigits 10 n ≠ [] ∧ (∀ d ∈ Nat.toDigits 10 n, 48 ≤ d.toNat ∧ d.toNat ≤ 57) ∧
      (Nat.toDigits 10 n).foldl (fun a d => a * 10 + (d.toNat - 48)) 0 = n := by
  obtain ⟨pre, hpre, hne, hdigits, hval⟩ := toDigitsCore_spec (n + 1) n [] (by omega)
  rw [List.append_nil] at hpre
  unfold Nat.toDigits
  rw [hpre]
  exact ⟨hne, hdigits, by simpa using hval 0⟩

theorem digitsValue_toDigits (n : Nat) (rest : List Char) :
    digitsValue (Nat.toDigits 10 n ++ '.' :: rest) 0 = n := by
  obtain ⟨_, hdigits, hval⟩ := toDigits_spec n
  rw [digitsValue_append _ _ _ _ hdigits (by decide), hval]

theorem toDigits_no_dot (n : Nat) : '.' ∉ Nat.toDigits 10 n := by
  intro h
  have := (toDigits_spec n).2.1 '.' h
  revert this
  decide

theorem toDigits_head_not_special (n : Nat) :
    ∃ c cs, Nat.toDigits 10 n = c :: cs ∧ isspace c = false ∧ c ≠ '-' ∧ c ≠ '+' := by
  obtain ⟨hne, hdigits, _⟩ := toDigits_spec n
  cases h : Nat.toDigits 10 n with
  | nil => exact absurd h hne
  | cons c cs =>
    have hc := hdigits c (by rw [h]; simp)
    refine ⟨c, cs, rfl, ?_, ?_, ?_⟩
    · simp only [isspace, Bool.or_eq_false_iff, beq_eq_false_iff_ne, Bool.and_eq_false_imp,
        decide_eq_true_eq, decide_eq_false_iff_not]
      omega
    · rintro rfl; revert hc; decide
    · rintro rfl; revert hc; decide

theorem atoi_printInt (t : Int) (rest : List Char) :
    atoi (printInt t ++ '.' :: rest) = t := by
  unfold printInt
  by_cases ht : t < 0
  · rw [if_pos ht]
    have hsp : isspace '-' = false := by decide
    simp only [atoi, List.cons_append, List.dropWhile_cons, hsp, Bool.false_eq_true, if_false,
      if_true, digitsValue_toDigits]
    omega
  · rw [if_neg ht]
    obtain ⟨c, cs, hcs, hsp, hminus, hplus⟩ := toDigits_head_not_special t.toNat
    have hval := digitsValue_toDigits t.toNat rest
    rw [hcs] at hval ⊢
    simp only [atoi, List.cons_append, List.dropWhile_cons, hsp, Bool.false_eq_true, if_false,
      hminus, hplus]
    rw [List.cons_append] at hval
    rw [hval]
    omega

theorem printInt_no_dot (t : Int) : '.' ∉ printInt t := by
  unfold printInt
  split
  · intro h
    rcases List.mem_cons.mp h with h | h
    · revert h; decide
    · exact toDigits_no_dot _ h
  · exact toDigits_no_dot _

/-- C20: for every timestamp `t` (so for every 32-bit one), the file name that
`Packet::makeFilename` builds (decimal `t` followed by `.pkt`) is accepted by
`checkPacketName`, and `atoi`, by which the startup scans parse the name, returns exactly
`t`; stated for the printed name and for the name of every packet. -/
theorem makeFilename_roundtrip :
    (∀ t : Int, checkPacketName (printInt t ++ ".pkt".toList) = true ∧
      atoi (printInt t ++ ".pkt".toList) = t) ∧
    (∀ packet : Packet, packet.makeFilename = printInt packet.getTimestamp ++ ".pkt".toList ∧
      checkPacketName packet.makeFilename = true ∧
      atoi packet.makeFilename = packet.getTimestamp) := by
  have h : ∀ t : Int, checkPacketName (printInt t ++ ".pkt".toList) = true ∧
      atoi (printInt t ++ ".pkt".toList) = t := by
    intro t
    refine ⟨(checkPacketName_iff_append _).mpr ⟨printInt t, printInt_no_dot t, rfl⟩, ?_⟩
    exact atoi_printInt t ['p', 'k', 't']
  exact ⟨h, fun packet => ⟨rfl, h packet.getTimestamp⟩⟩

/-! ### Archive tier writes -/

theorem wrap32_eq_self (x : Int) (h1 : -2147483648 ≤ x) (h2 : x < 2147483648) :
    wrap32 x = x := by
  unfold wrap32
  omega

theorem lookup_map_update {α β : Type} [BEq α] [LawfulBEq α] (k : α) (f : β → β)
    (l : List (α × β)) :
    List.lookup k (l.map (fun e => if e.1 == k then (e.1, f e.2) else e))
      = (List.lookup k l).map f := by
  induction l with
  | nil => rfl
  | cons e rest ih =>
    obtain ⟨a, b⟩ := e
    by_cases h : a = k
    · subst h
      simp [List.lookup_cons]
    · have h1 : (a == k) = false := by simpa using h
      have h2 : (k == a) = false := by simpa using fun h' => h h'.symm
      simp only [List.map_cons, h1, Bool.false_eq_true, if_false, List.lookup_cons, h2]
      exact ih

theorem lookup_append_singleton_self {α β : Type} [BEq α] [LawfulBEq α] (k : α) (v : β)
    (l : List (α × β)) (h : List.lookup k l = none) :
    List.lookup k (l ++ [(k, v)]) = some v := by
  induction l with
  | nil => simp [List.lookup_cons]
  | cons e rest ih =>
    obtain ⟨a, b⟩ := e
    by_cases hk : k = a
    · subst hk
      simp [List.lookup_cons] at h
    · have h2 : (k == a) = false := by simpa using hk
      simp only [List.lookup_cons, h2] at h
      simp only [List.cons_append, List.lookup_cons, h2]
      exact ih h

/-- Reading back the file just written: the new data, followed by what a longer old content
had beyond them. -/
theorem Files.read_write_create_self (fs : Files) (p : f_string) (d : Bytes) :
    ((fs.create p).write p d).read p = some (overwrite ((fs.read p).getD []) d) := by
  unfold Files.write Files.read
  rw [lookup_map_update p (fun old => overwrite old d)]
  unfold Files.create Files.read
  cases h : List.lookup p fs with
  | none => simp [lookup_append_singleton_self p [] fs h]
  | some old => simp [h]

theorem folderFiles_setFolderFiles_self (folders : List (Int × Files)) (folder : Int)
    (files : Files) :
    folderFiles (setFolderFiles folders folder files) folder
      = (folderFiles folders folder).map (fun _ => files) := by
  unfold folderFiles setFolderFiles
  exact lookup_map_update folder (fun _ => files) folders

/-- A successful `writeToSubFolder` leaves the file in the sub-folder `used` with the new
data, followed by what a longer old file of that name had beyond them. -/
theorem writeToSubFolder_success (io : SdFaults) (folders : List (Int × Files)) (used : Int)
    (filename : f_string) (data : Bytes)
    (h : (writeToSubFolder io folders used filename data).1 = true) :
    readSdFile (writeToSubFolder io folders used filename data).2 used filename
      = some (overwrite ((readSdFile folders used filename).getD []) data) := by
  unfold writeToSubFolder at h ⊢
  cases hf : folderFiles folders used with
  | none =>
    have hmade : folderFiles (folders ++ [(used, ([] : Files))]) used = some [] :=
      lookup_append_singleton_self used [] folders hf
    cases hm : io.mkdirFails <;> cases hc : io.chdirFails <;> cases ho : io.openFails <;>
      cases hw : io.writeFails <;> cases hcl : io.closeFails <;>
      cases hr : io.chdirRootFails <;>
      simp [hf, hm, hc, ho, hw, hcl, hr] at h ⊢
    simp only [readSdFile, folderFiles_setFolderFiles_self, hmade, hf, Option.map_some',
      Option.bind_some, Option.getD_some, Option.bind_none, Option.getD_none]
    exact Files.read_write_create_self [] filename data
  | some files =>
    cases hc : io.chdirFails <;> cases ho : io.openFails <;>
      cases hw : io.writeFails <;> cases hcl : io.closeFails <;>
      cases hr : io.chdirRootFails <;>
      simp [hf, hc, ho, hw, hcl, hr] at h ⊢
    simp only [readSdFile, folderFiles_setFolderFiles_self, hf, Option.map_some',
      Option.bind_some, Option.getD_some]
    exact Files.read_write_create_self files filename data

theorem writeToSubFolder_noFaults (folders : List (Int × Files)) (used : Int)
    (filename : f_string) (data : Bytes) :
    (writeToSubFolder noSdFaults folders used filename data).1 = true := by
  unfold writeToSubFolder
  simp [noSdFaults]

theorem savePacketToSD_eq (timespan now : Int) (io : SdFaults) (s : SdStore)
    (packet : Packet) (hlen : 4 ≤ packet.data.length) :
    savePacketToSD timespan now io s packet
      = .done ((writeToSubFolder io s.folders
            (selectSubFolder timespan now s.subFolderTimestampsIndex packet.getTimestamp).1
            packet.makeFilename packet.data).1,
          SdStore.mk
            (selectSubFolder timespan now s.subFolderTimestampsIndex packet.getTimestamp).2
            (writeToSubFolder io s.folders
              (selectSubFolder timespan now s.subFolderTimestampsIndex packet.getTimestamp).1
              packet.makeFilename packet.data).2) := by
  unfold savePacketToSD
  rw [if_neg (by omega)]

/-- C11 as stated fails: with an empty bucket index, and with a latest bucket that is too
old, `savePacketToSD` appends the new bucket to the index before any SD call; when
`sd.mkdir` for the new sub-folder then fails, the call returns failure and the bucket index
is one entry longer than before the call. -/
theorem savePacketToSD_failure_keeps_new_bucket :
    savePacketToSD SD_CARD_SUBFOLDER_TIMESPAN 1700000006 mkdirFault (SdStore.mk [] [])
        (dataPointPacket 1700000000 [7])
      = .done (false, SdStore.mk [1700000000] []) ∧
    savePacketToSD SD_CARD_SUBFOLDER_TIMESPAN 1700003606 mkdirFault
        (SdStore.mk [1700000000] [(1700000000, [])]) (dataPointPacket 1700003600 [7])
      = .done (false, SdStore.mk [1700000000, 1700003600] [(1700000000, [])]) := by
  decide

theorem selectSubFolder_nil (timespan now pt : Int) :
    selectSubFolder timespan now [] pt = (pt, [pt]) := rfl

theorem selectSubFolder_reuse (timespan now L pt : Int) (index : List Int)
    (hlast : index.getLast? = some L) (h0 : 0 ≤ wrap32 (now - L))
    (h1 : wrap32 (now - L) < timespan) :
    selectSubFolder timespan now index pt = (L, index) := by
  unfold selectSubFolder
  simp only [hlast]
  rw [if_neg (by omega), if_pos h1]

theorem selectSubFolder_new (timespan now L pt : Int) (index : List Int)
    (hlast : index.getLast? = some L) (h0 : 0 ≤ wrap32 (now - L))
    (h1 : timespan ≤ wrap32 (now - L)) :
    selectSubFolder timespan now index pt = (pt, index ++ [pt]) := by
  unfold selectSubFolder
  simp only [hlast]
  rw [if_neg (by omega), if_neg (by omega)]

theorem selectSubFolder_skew (timespan now L pt : Int) (index : List Int)
    (hlast : index.getLast? = some L) (h0 : wrap32 (now - L) < 0) :
    selectSubFolder timespan now index pt = (bracketScan pt index, index) := by
  unfold selectSubFolder
  simp only [hlast]
  rw [if_pos h0]

/-- A write without I/O faults succeeds, takes the index that `selectSubFolder` gives, and
leaves the packet file in the selected sub-folder. -/
theorem savePacketToSD_noFaults (timespan now : Int) (s : SdStore) (packet : Packet)
    (hlen : 4 ≤ packet.data.length) (used : Int) (index1 : List Int)
    (hsel : selectSubFolder timespan now s.subFolderTimestampsIndex packet.getTimestamp
      = (used, index1)) :
    ∃ folders1, savePacketToSD timespan now noSdFaults s packet
        = .done (true, SdStore.mk index1 folders1) ∧
      readSdFile folders1 used packet.makeFilename
        = some (overwrite ((readSdFile s.folders used packet.makeFilename).getD [])
            packet.data) := by
  have hw := writeToSubFolder_noFaults s.folders used packet.makeFilename packet.data
  refine ⟨(writeToSubFolder noSdFaults s.folders used packet.makeFilename packet.data).2,
    ?_, writeToSubFolder_success _ _ _ _ _ hw⟩
  rw [savePacketToSD_eq timespan now noSdFaults s packet hlen, hsel]
  simp only [hw]

/-- C12: bucket selection scenario, for every T.  With the bucket timespan 3600, an empty
bucket index (whatever is on the card), no I/O error and the current time equal to each
packet timestamp: the write of a packet stamped T succeeds, goes to the new bucket T and
makes the index [T]; the following write of a packet stamped T+1800 succeeds, goes to the
bucket T and leaves the index [T]; the following write of a packet stamped T+4000 succeeds,
goes to the new bucket T+4000 and makes the index [T, T+4000]. -/
theorem bucket_selection_scenario (T : Int) (folders : List (Int × Files))
    (p1 p2 p3 : Packet)
    (hlen1 : 4 ≤ p1.data.length) (hlen2 : 4 ≤ p2.data.length) (hlen3 : 4 ≤ p3.data.length)
    (ht1 : p1.getTimestamp = T) (ht2 : p2.getTimestamp = T + 1800)
    (ht3 : p3.getTimestamp = T + 4000) :
    ∃ f1 f2 f3,
      savePacketToSD SD_CARD_SUBFOLDER_TIMESPAN T noSdFaults (SdStore.mk [] folders) p1
        = .done (true, SdStore.mk [T] f1) ∧
      (readSdFile f1 T (printInt T ++ ".pkt".toList)).isSome = true ∧
      savePacketToSD SD_CARD_SUBFOLDER_TIMESPAN (T + 1800) noSdFaults (SdStore.mk [T] f1) p2
        = .done (true, SdStore.mk [T] f2) ∧
      (readSdFile f2 T (printInt (T + 1800) ++ ".pkt".toList)).isSome = true ∧
      savePacketToSD SD_CARD_SUBFOLDER_TIMESPAN (T + 4000) noSdFaults (SdStore.mk [T] f2) p3
        = .done (true, SdStore.mk [T, T + 4000] f3) ∧
      (readSdFile f3 (T + 4000) (printInt (T + 4000) ++ ".pkt".toList)).isSome = true := by
  have hw1 : wrap32 (T + 1800 - T) = 1800 := by
    rw [show T + 1800 - T = 1800 by ring]; decide
  have hw2 : wrap32 (T + 4000 - T) = 4000 := by
    rw [show T + 4000 - T = 4000 by ring]; decide
  have hn1 : p1.makeFilename = printInt T ++ ".pkt".toList := by
    rw [Packet.makeFilename, ht1]
  have hn2 : p2.makeFilename = printInt (T + 1800) ++ ".pkt".toList := by
    rw [Packet.makeFilename, ht2]
  have hn3 : p3.makeFilename = printInt (T + 4000) ++ ".pkt".toList := by
    rw [Packet.makeFilename, ht3]
  obtain ⟨f1, hs1, hr1⟩ := savePacketToSD_noFaults SD_CARD_SUBFOLDER_TIMESPAN T
    (SdStore.mk [] folders) p1 hlen1 T [T] (by rw [ht1]; rfl)
  obtain ⟨f2, hs2, hr2⟩ := savePacketToSD_noFaults SD_CARD_SUBFOLDER_TIMESPAN (T + 1800)
    (SdStore.mk [T] f1) p2 hlen2 T [T]
    (selectSubFolder_reuse _ _ T _ [T] rfl (by rw [hw1]; decide)
      (by rw [hw1]; decide))
  obtain ⟨f3, hs3, hr3⟩ := savePacketToSD_noFaults SD_CARD_SUBFOLDER_TIMESPAN (T + 4000)
    (SdStore.mk [T] f2) p3 hlen3 (T + 4000) [T, T + 4000]
    (by
      rw [selectSubFolder_new _ _ T _ [T] rfl (by rw [hw2]; decide) (by rw [hw2]; decide),
        ht3]
      rfl)
  rw [hn1] at hr1
  rw [hn2] at hr2
  rw [hn3] at hr3
  exact ⟨f1, f2, f3, hs1, by rw [hr1]; rfl, hs2, by rw [hr2]; rfl, hs3, by rw [hr3]; rfl⟩

/-- Instance of `bucket_selection_scenario` with T = 1700000000 on an empty card. -/
theorem bucket_selection_scenario_witness :
    ∃ f1 f2 f3,
      savePacketToSD SD_CARD_SUBFOLDER_TIMESPAN 1700000000 noSdFaults (SdStore.mk [] [])
          (dataPointPacket 1700000000 [1])
        = .done (true, SdStore.mk [1700000000] f1) ∧
      (readSdFile f1 1700000000 (printInt 1700000000 ++ ".pkt".toList)).isSome = true ∧
      savePacketToSD SD_CARD_SUBFOLDER_TIMESPAN (1700000000 + 1800) noSdFaults
          (SdStore.mk [1700000000] f1) (dataPointPacket 1700001800 [2])
        = .done (true, SdStore.mk [1700000000] f2) ∧
      (readSdFile f2 1700000000 (printInt (1700000000 + 1800) ++ ".pkt".toList)).isSome
        = true ∧
      savePacketToSD SD_CARD_SUBFOLDER_TIMESPAN (1700000000 + 4000) noSdFaults
          (SdStore.mk [1700000000] f2) (dataPointPacket 1700004000 [3])
        = .done (true, SdStore.mk [1700000000, 1700000000 + 4000] f3) ∧
      (readSdFile f3 (1700000000 + 4000)
        (printInt (1700000000 + 4000) ++ ".pkt".toList)).isSome = true :=
  bucket_selection_scenario 1700000000 [] (dataPointPacket 1700000000 [1])
    (dataPointPacket 1700001800 [2]) (dataPointPacket 1700004000 [3])
    (by decide) (by decide) (by decide) (by decide) (by decide) (by decide)

/-- C11 (amended): if `savePacketToSD` fails, the bucket index after the call is the index
that the bucket selection left: equal to the index before the call whenever an existing
bucket was selected (the latest bucket reused, or the clock-skew fallback), and the index
before the call followed by the packet timestamp whenever a new bucket was selected (empty
index, or latest bucket too old), whichever SD call failed. -/
theorem savePacketToSD_failure_index (timespan now : Int) (io : SdFaults) (s s1 : SdStore)
    (packet : Packet)
    (hfail : savePacketToSD timespan now io s packet = .done (false, s1)) :
    (s1.subFolderTimestampsIndex = s.subFolderTimestampsIndex ∨
      s1.subFolderTimestampsIndex = s.subFolderTimestampsIndex ++ [packet.getTimestamp]) ∧
    (s.subFolderTimestampsIndex = [] →
      s1.subFolderTimestampsIndex = [packet.getTimestamp]) ∧
    (∀ L, s.subFolderTimestampsIndex.getLast? = some L →
      (wrap32 (now - L) < timespan →
        s1.subFolderTimestampsIndex = s.subFolderTimestampsIndex) ∧
      (0 ≤ wrap32 (now - L) → timespan ≤ wrap32 (now - L) →
        s1.subFolderTimestampsIndex
          = s.subFolderTimestampsIndex ++ [packet.getTimestamp])) := by
  have hlen : 4 ≤ packet.data.length := by
    by_contra hlt
    unfold savePacketToSD at hfail
    rw [if_pos (by omega)] at hfail
    cases hfail
  rw [savePacketToSD_eq timespan now io s packet hlen] at hfail
  simp only [Exec.done.injEq, Prod.mk.injEq] at hfail
  have hidx : s1.subFolderTimestampsIndex
      = (selectSubFolder timespan now s.subFolderTimestampsIndex packet.getTimestamp).2 := by
    rw [← hfail.2]
  have hlastCases : ∀ L, s.subFolderTimestampsIndex.getLast? = some L →
      (wrap32 (now - L) < timespan →
        s1.subFolderTimestampsIndex = s.subFolderTimestampsIndex) ∧
      (0 ≤ wrap32 (now - L) → timespan ≤ wrap32 (now - L) →
        s1.subFolderTimestampsIndex
          = s.subFolderTimestampsIndex ++ [packet.getTimestamp]) := by
    intro L hlast
    constructor
    · intro hlt
      by_cases hneg : wrap32 (now - L) < 0
      · rw [hidx, selectSubFolder_skew timespan now L _ _ hlast hneg]
      · rw [hidx, selectSubFolder_reuse timespan now L _ _ hlast (by omega) hlt]
    · intro h0 hge
      rw [hidx, selectSubFolder_new timespan now L _ _ hlast h0 hge]
  refine ⟨?_, ?_, hlastCases⟩
  · cases hlast : s.subFolderTimestampsIndex.getLast? with
    | none =>
      rw [List.getLast?_eq_none_iff] at hlast
      right
      rw [hidx, hlast]
      rfl
    | some L =>
      by_cases hlt : wrap32 (now - L) < timespan
      · exact Or.inl ((hlastCases L hlast).1 hlt)
      · by_cases hneg : wrap32 (now - L) < 0
        · left
          rw [hidx, selectSubFolder_skew timespan now L _ _ hlast hneg]
        · exact Or.inr ((hlastCases L hlast).2 (by omega) (by omega))
  · intro hnil
    rw [hidx, hnil]
    rfl

/-- Instance of `savePacketToSD_failure_index`: the latest bucket is reused and `sd.chdir`
fails. -/
theorem savePacketToSD_failure_index_witness :
    (([1700000000] : List Int) = [1700000000] ∨
      ([1700000000] : List Int)
        = [1700000000] ++ [(dataPointPacket 1700000006 [7]).getTimestamp]) ∧
    (([1700000000] : List Int) = [] →
      ([1700000000] : List Int) = [(dataPointPacket 1700000006 [7]).getTimestamp]) ∧
    (∀ L, ([1700000000] : List Int).getLast? = some L →
      (wrap32 (1700000010 - L) < SD_CARD_SUBFOLDER_TIMESPAN →
        ([1700000000] : List Int) = [1700000000]) ∧
      (0 ≤ wrap32 (1700000010 - L) → SD_CARD_SUBFOLDER_TIMESPAN ≤ wrap32 (1700000010 - L) →
        ([1700000000] : List Int)
          = [1700000000] ++ [(dataPointPacket 1700000006 [7]).getTimestamp])) :=
  savePacketToSD_failure_index SD_CARD_SUBFOLDER_TIMESPAN 1700000010
    (SdFaults.mk false true false false false false)
    (SdStore.mk [1700000000] [(1700000000, [])])
    (SdStore.mk [1700000000] [(1700000000, [])]) (dataPointPacket 1700000006 [7])
    (by decide)

/-- C13 as stated fails at the boundary: with the latest bucket 1700000000 and the current
time 1700003600, the difference equals the bucket timespan 3600, and `savePacketToSD` (which
tests `d < SD_CARD_SUBFOLDER_TIMESPAN`) creates the new bucket 1700003594 instead of writing
into the latest one. -/
theorem savePacketToSD_new_bucket_at_timespan :
    (0 : Int) ≤ 1700003600 - 1700000000 ∧
    (1700003600 : Int) - 1700000000 ≤ SD_CARD_SUBFOLDER_TIMESPAN ∧
    savePacketToSD SD_CARD_SUBFOLDER_TIMESPAN 1700003600 noSdFaults
        (SdStore.mk [1700000000] [(1700000000, [])]) (dataPointPacket 1700003594 [7])
      = .done (true, SdStore.mk [1700000000, 1700003594]
          [(1700000000, []), (1700003594, [("1700003594.pkt".toList, [10, 255, 83, 101, 7])])]) := by
  decide

/-- C13 (amended): for every non-empty bucket index with latest bucket L and every current
time with 0 <= now - L < bucket timespan, `savePacketToSD` selects the bucket L and leaves
the bucket index unchanged, whatever I/O error occurs, and without I/O error it succeeds
and the packet file is in the sub-folder L; a new bucket is appended to the index only when
the 32-bit difference now - L is at least the bucket timespan. -/
theorem savePacketToSD_reuses_latest (timespan now L : Int) (s : SdStore) (packet : Packet)
    (hlast : s.subFolderTimestampsIndex.getLast? = some L)
    (hlen : 4 ≤ packet.data.length) :
    (0 ≤ now - L → now - L < timespan → timespan ≤ 2147483648 →
      selectSubFolder timespan now s.subFolderTimestampsIndex packet.getTimestamp
        = (L, s.subFolderTimestampsIndex) ∧
      (∀ io, ∃ ok folders1, savePacketToSD timespan now io s packet
        = .done (ok, SdStore.mk s.subFolderTimestampsIndex folders1)) ∧
      (∃ folders1, savePacketToSD timespan now noSdFaults s packet
          = .done (true, SdStore.mk s.subFolderTimestampsIndex folders1) ∧
        readSdFile folders1 L packet.makeFilename
          = some (overwrite ((readSdFile s.folders L packet.makeFilename).getD [])
              packet.data))) ∧
    (∀ io ok s1, savePacketToSD timespan now io s packet = .done (ok, s1) →
      s1.subFolderTimestampsIndex ≠ s.subFolderTimestampsIndex →
      timespan ≤ wrap32 (now - L) ∧
      s1.subFolderTimestampsIndex = s.subFolderTimestampsIndex ++ [packet.getTimestamp]) := by
  constructor
  · intro h0 h1 hts
    have hw : wrap32 (now - L) = now - L := wrap32_eq_self _ (by omega) (by omega)
    have hsel := selectSubFolder_reuse timespan now L packet.getTimestamp
      s.subFolderTimestampsIndex hlast (by rw [hw]; exact h0) (by rw [hw]; exact h1)
    refine ⟨hsel, ?_, savePacketToSD_noFaults timespan now s packet hlen L _ hsel⟩
    intro io
    rw [savePacketToSD_eq timespan now io s packet hlen, hsel]
    exact ⟨_, _, rfl⟩
  · intro io ok s1 hsave hne
    rw [savePacketToSD_eq timespan now io s packet hlen] at hsave
    simp only [Exec.done.injEq, Prod.mk.injEq] at hsave
    have hidx : s1.subFolderTimestampsIndex
        = (selectSubFolder timespan now s.subFolderTimestampsIndex packet.getTimestamp).2 := by
      rw [← hsave.2]
    by_cases hneg : wrap32 (now - L) < 0
    · rw [selectSubFolder_skew timespan now L _ _ hlast hneg] at hidx
      exact absurd hidx hne
    · by_cases hlt : wrap32 (now - L) < timespan
      · rw [selectSubFolder_reuse timespan now L _ _ hlast (by omega) hlt] at hidx
        exact absurd hidx hne
      · rw [selectSubFolder_new timespan now L _ _ hlast (by omega) (by omega)] at hidx
        exact ⟨by omega, hidx⟩

/-- Instance of `savePacketToSD_reuses_latest`: latest bucket 1700000000, current time
1700003599, the last second of the bucket. -/
theorem savePacketToSD_reuses_latest_witness :
    selectSubFolder SD_CARD_SUBFOLDER_TIMESPAN 1700003599 [1699990000, 1700000000]
        (dataPointPacket 1700003594 [7]).getTimestamp
      = (1700000000, [1699990000, 1700000000]) :=
  ((savePacketToSD_reuses_latest SD_CARD_SUBFOLDER_TIMESPAN 1700003599 1700000000
    (SdStore.mk [1699990000, 1700000000] []) (dataPointPacket 1700003594 [7])
    (by decide) (by decide)).1 (by decide) (by decide) (by decide)).1

/-! ### Clock-skew fallback -/

theorem bracketScan_spec (pt : Int) : ∀ (pre : List Int) (b n : Int) (post : List Int),
    b ≤ pt → pt ≤ n →
    ∃ pre1 n1 post1, pre ++ b :: n :: post
        = pre1 ++ bracketScan pt (pre ++ b :: n :: post) :: n1 :: post1 ∧
      bracketScan pt (pre ++ b :: n :: post) ≤ pt ∧ pt ≤ n1
  | [], b, n, post, hb, hn => by
    refine ⟨[], n, post, ?_, ?_, hn⟩
    · simp [bracketScan, hb, hn]
    · simp [bracketScan, hb, hn]
  | x :: pre, b, n, post, hb, hn => by
    obtain ⟨y, rest, hrest⟩ : ∃ y rest, pre ++ b :: n :: post = y :: rest := by
      cases pre with
      | nil => exact ⟨b, n :: post, rfl⟩
      | cons z zs => exact ⟨z, zs ++ b :: n :: post, rfl⟩
    obtain ⟨pre1, n1, post1, heq, h1, h2⟩ := bracketScan_spec pt pre b n post hb hn
    rw [List.cons_append, hrest] at *
    by_cases hx : x ≤ pt ∧ pt ≤ y
    · refine ⟨[], y, rest, ?_, ?_, hx.2⟩
      · simp [bracketScan, hx]
      · simp [bracketScan, hx]
    · have hscan : bracketScan pt (x :: y :: rest) = bracketScan pt (y :: rest) := by
        simp only [bracketScan]
        rw [if_neg hx]
      rw [hscan]
      refine ⟨x :: pre1, n1, post1, ?_, h1, h2⟩
      rw [List.cons_append, ← heq]

/-- C14 as stated fails when no pair of consecutive buckets brackets the packet timestamp:
with the buckets 1700000000 and 1700003600, the current time 1700000100 before the latest
bucket, and a packet stamped 1700003700, `savePacketToSD` writes the packet into the
sub-folder 0, which is not in the bucket index.  It also fails when the difference between
the current time and the latest bucket overflows 32 bits: with the latest bucket
2147483647 and the current time -2 the difference wraps to 2147483647, the latest bucket
counts as too old, and a new bucket is appended to the index. -/
theorem savePacketToSD_clock_skew_no_bracket :
    ((1700000100 : Int) < 1700003600 ∧
      selectSubFolder SD_CARD_SUBFOLDER_TIMESPAN 1700000100 [1700000000, 1700003600]
          (dataPointPacket 1700003700 [7]).getTimestamp = (0, [1700000000, 1700003600]) ∧
      (0 : Int) ∉ [(1700000000 : Int), 1700003600] ∧
      savePacketToSD SD_CARD_SUBFOLDER_TIMESPAN 1700000100 noSdFaults
          (SdStore.mk [1700000000, 1700003600] [(1700000000, []), (1700003600, [])])
          (dataPointPacket 1700003700 [7])
        = .done (true, SdStore.mk [1700000000, 1700003600]
            [(1700000000, []), (1700003600, []),
             (0, [("1700003700.pkt".toList, [116, 255, 83, 101, 7])])])) ∧
    ((-2 : Int) < 2147483647 ∧
      selectSubFolder SD_CARD_SUBFOLDER_TIMESPAN (-2) [1700000000, 2147483647]
          (dataPointPacket 1700003700 [7]).getTimestamp
        = (1700003700, [1700000000, 2147483647, 1700003700])) := by
  decide

/-- The bucket that the clock-skew loop selects is the first one that, with its successor,
brackets the packet timestamp: no pair of consecutive buckets before it does. -/
theorem bracketScan_first (pt : Int) : ∀ (pre : List Int) (b n : Int) (post : List Int),
    b ≤ pt → pt ≤ n →
    ∃ pre1 n1 post1, pre ++ b :: n :: post
        = pre1 ++ bracketScan pt (pre ++ b :: n :: post) :: n1 :: post1 ∧
      bracketScan pt (pre ++ b :: n :: post) ≤ pt ∧ pt ≤ n1 ∧
      ∀ l p q r, pre1 ++ [bracketScan pt (pre ++ b :: n :: post)] = l ++ p :: q :: r →
        ¬ (p ≤ pt ∧ pt ≤ q)
  | [], b, n, post, hb, hn => by
    have hscan : bracketScan pt ([] ++ b :: n :: post) = b := by
      simp [bracketScan, hb, hn]
    rw [hscan]
    refine ⟨[], n, post, rfl, hb, hn, ?_⟩
    intro l p q r hsplit
    have hlen := congrArg List.length hsplit
    simp at hlen
    omega
  | x :: pre, b, n, post, hb, hn => by
    obtain ⟨y, rest, hrest⟩ : ∃ y rest, pre ++ b :: n :: post = y :: rest := by
      cases pre with
      | nil => exact ⟨b, n :: post, rfl⟩
      | cons z zs => exact ⟨z, zs ++ b :: n :: post, rfl⟩
    obtain ⟨pre1, n1, post1, heq, h1, h2, hfirst⟩ := bracketScan_first pt pre b n post hb hn
    rw [List.cons_append, hrest] at *
    by_cases hx : x ≤ pt ∧ pt ≤ y
    · have hscan : bracketScan pt (x :: y :: rest) = x := by
        simp [bracketScan, hx]
      rw [hscan]
      refine ⟨[], y, rest, rfl, hx.1, hx.2, ?_⟩
      intro l p q r hsplit
      have hlen := congrArg List.length hsplit
      simp at hlen
      omega
    · have hscan : bracketScan pt (x :: y :: rest) = bracketScan pt (y :: rest) := by
        simp only [bracketScan]
        rw [if_neg hx]
      rw [hscan]
      refine ⟨x :: pre1, n1, post1, ?_, h1, h2, ?_⟩
      · rw [List.cons_append, ← heq]
      · intro l p q r hsplit
        cases l with
        | nil =>
          simp only [List.cons_append, List.nil_append, List.cons.injEq] at hsplit
          obtain ⟨hp, hq⟩ := hsplit
          have hy : q = y := by
            cases pre1 with
            | nil =>
              simp only [List.nil_append, List.cons.injEq] at hq heq
              rw [← hq.1, ← heq.1]
            | cons z zs =>
              simp only [List.cons_append, List.cons.injEq] at hq heq
              rw [← hq.1, ← heq.1]
          rw [← hp, hy]
          exact hx
        | cons z l1 =>
          simp only [List.cons_append, List.cons.injEq] at hsplit
          exact hfirst l1 p q r hsplit.2

/-- C14 (amended): for every non-empty bucket index whose latest bucket timestamp is greater
than the current time (their 32-bit difference not overflowing), and every packet timestamp
pt that some pair of consecutive buckets brackets, `savePacketToSD` leaves the bucket index
unchanged, whatever I/O error occurs, and selects the first bucket b_i of the index with
b_i <= pt <= b_(i+1) for its successor b_(i+1): the index splits into the buckets before
b_i, then b_i and b_(i+1), and no pair of consecutive buckets up to b_i brackets pt; without
I/O error the call succeeds and the packet file is in that sub-folder. -/
theorem savePacketToSD_clock_skew (timespan now L : Int) (s : SdStore) (packet : Packet)
    (pre : List Int) (b n : Int) (post : List Int)
    (hlast : s.subFolderTimestampsIndex.getLast? = some L)
    (hskew : now < L) (hrange : -2147483648 ≤ now - L)
    (hlen : 4 ≤ packet.data.length)
    (hindex : s.subFolderTimestampsIndex = pre ++ b :: n :: post)
    (hb : b ≤ packet.getTimestamp) (hn : packet.getTimestamp ≤ n) :
    ∃ used pre1 n1 post1,
      selectSubFolder timespan now s.subFolderTimestampsIndex packet.getTimestamp
        = (used, s.subFolderTimestampsIndex) ∧
      s.subFolderTimestampsIndex = pre1 ++ used :: n1 :: post1 ∧
      used ∈ s.subFolderTimestampsIndex ∧
      used ≤ packet.getTimestamp ∧ packet.getTimestamp ≤ n1 ∧
      (∀ l p q r, pre1 ++ [used] = l ++ p :: q :: r →
        ¬ (p ≤ packet.getTimestamp ∧ packet.getTimestamp ≤ q)) ∧
      (∀ io, ∃ ok folders1, savePacketToSD timespan now io s packet
        = .done (ok, SdStore.mk s.subFolderTimestampsIndex folders1)) ∧
      (∃ folders1, savePacketToSD timespan now noSdFaults s packet
          = .done (true, SdStore.mk s.subFolderTimestampsIndex folders1) ∧
        readSdFile folders1 used packet.makeFilename
          = some (overwrite ((readSdFile s.folders used packet.makeFilename).getD [])
              packet.data)) := by
  have hw : wrap32 (now - L) < 0 := by
    rw [wrap32_eq_self _ hrange (by omega)]
    omega
  have hsel := selectSubFolder_skew timespan now L packet.getTimestamp
    s.subFolderTimestampsIndex hlast hw
  obtain ⟨pre1, n1, post1, heq, h1, h2, hfirst⟩ :=
    bracketScan_first packet.getTimestamp pre b n post hb hn
  rw [← hindex] at heq h1 hfirst
  refine ⟨bracketScan packet.getTimestamp s.subFolderTimestampsIndex, pre1, n1, post1, hsel,
    heq, ?_, h1, h2, hfirst, ?_, savePacketToSD_noFaults timespan now s packet hlen _ _ hsel⟩
  · have hmem : ∀ (l : List Int) (u : Int), l = pre1 ++ u :: n1 :: post1 → u ∈ l := by
      intro l u h
      rw [h]
      simp
    exact hmem _ _ heq
  · intro io
    rw [savePacketToSD_eq timespan now io s packet hlen, hsel]
    exact ⟨_, _, rfl⟩

/-- Instance of `savePacketToSD_clock_skew`: buckets 10, 20 and 30, current time 15, packet
stamped 20.  Both 10 (with successor 20) and 20 (with successor 30) bracket the packet; the
bucket selected is the first of them, 10. -/
theorem savePacketToSD_clock_skew_witness :
    selectSubFolder SD_CARD_SUBFOLDER_TIMESPAN 15 [10, 20, 30]
        (dataPointPacket 20 [7]).getTimestamp = (10, [10, 20, 30]) ∧
    ∃ used pre1 n1 post1,
      selectSubFolder SD_CARD_SUBFOLDER_TIMESPAN 15 [10, 20, 30]
          (dataPointPacket 20 [7]).getTimestamp = (used, [10, 20, 30]) ∧
      [10, 20, 30] = pre1 ++ used :: n1 :: post1 ∧
      used ∈ [(10 : Int), 20, 30] ∧
      used ≤ (dataPointPacket 20 [7]).getTimestamp ∧
      (dataPointPacket 20 [7]).getTimestamp ≤ n1 ∧
      (∀ l p q r, pre1 ++ [used] = l ++ p :: q :: r →
        ¬ (p ≤ (dataPointPacket 20 [7]).getTimestamp ∧
          (dataPointPacket 20 [7]).getTimestamp ≤ q)) ∧
      (∀ io, ∃ ok folders1, savePacketToSD SD_CARD_SUBFOLDER_TIMESPAN 15 io
          (SdStore.mk [10, 20, 30] []) (dataPointPacket 20 [7])
        = .done (ok, SdStore.mk [10, 20, 30] folders1)) ∧
      (∃ folders1, savePacketToSD SD_CARD_SUBFOLDER_TIMESPAN 15 noSdFaults
            (SdStore.mk [10, 20, 30] []) (dataPointPacket 20 [7])
          = .done (true, SdStore.mk [10, 20, 30] folders1) ∧
        readSdFile folders1 used (dataPointPacket 20 [7]).makeFilename
          = some (overwrite ((readSdFile [] used
              (dataPointPacket 20 [7]).makeFilename).getD [])
              (dataPointPacket 20 [7]).data)) :=
  ⟨by decide,
    savePacketToSD_clock_skew SD_CARD_SUBFOLDER_TIMESPAN 15 30
      (SdStore.mk [10, 20, 30] []) (dataPointPacket 20 [7])
      [10] 20 30 [] (by decide) (by decide) (by decide) (by decide) rfl (by decide)
      (by decide)⟩

/-! ### Read-back -/

theorem printInt_head (t : Int) :
    ∃ c cs, printInt t = c :: cs ∧ c ≠ ' ' := by
  unfold printInt
  split
  · exact ⟨'-', _, rfl, by decide⟩
  · obtain ⟨c, cs, hcs, hsp, _, _⟩ := toDigits_head_not_special t.toNat
    refine ⟨c, cs, hcs, ?_⟩
    rintro rfl
    revert hsp
    decide

/-- The path that `getPacket` opens for a flash descriptor is never a path that
`savePacketToFlash` writes. -/
theorem flashReadPath_ne_flashPath (t u : Int) : flashReadPath t ≠ flashPath u := by
  obtain ⟨c, cs, hcs, hc⟩ := printInt_head u
  intro h
  unfold flashReadPath flashPath at h
  rw [hcs] at h
  simp only [String.toList, List.cons_append, List.nil_append, List.cons.injEq] at h
  have h9 := h
  simp at h9
  exact hc h9.1.symm

theorem lookup_eq_none_of_keys {β : Type} (k : f_string) (l : List (f_string × β))
    (h : ∀ e ∈ l, e.1 ≠ k) : List.lookup k l = none := by
  induction l with
  | nil => rfl
  | cons e rest ih =>
    obtain ⟨a, b⟩ := e
    have ha : (k == a) = false := by simpa using fun h' => h (a, b) (by simp) h'.symm
    simp only [List.lookup_cons, ha]
    exact ih (fun e he => h e (by simp [he]))

/-- C15 (the code departs from the claim): `getPacket` builds the flash path with the format
`"/Packets/ %d.pkt"`, `savePacketToFlash` with `"/Packets/%d.pkt"`; the two paths differ for
every pair of timestamps.  So on every flash tier whose files were all written by
`savePacketToFlash`, `getPacket` with a flash descriptor fails and outputs nothing; for
instance right after the packet stamped 1700000005 was stored successfully. -/
theorem getPacket_flash_opens_other_path :
    (∀ t u : Int, flashReadPath t ≠ flashPath u) ∧
    (∀ (io : ReadFaults) (flashFiles : Files) (folders : List (Int × Files)) (t : Int)
        (output : Bytes), (∀ e ∈ flashFiles, ∃ u, e.1 = flashPath u) →
      getPacket io flashFiles folders (flashDescriptor t) output = .done (false, output)) ∧
    savePacketToFlash FLASH_MAX_PACKETS noFlashFaults (FlashStore.mk [] [])
        (dataPointPacket 1700000005 [7])
      = .done (true, FlashStore.mk [1700000005]
          [(flashPath 1700000005, [5, 241, 83, 101, 7])]) ∧
    getPacket noReadFaults [(flashPath 1700000005, [5, 241, 83, 101, 7])] []
        (flashDescriptor 1700000005) [] = .done (false, []) := by
  refine ⟨flashReadPath_ne_flashPath, ?_, by decide, by decide⟩
  intro io flashFiles folders t output hfiles
  have hnone : flashFiles.read (flashReadPath t) = none := by
    apply lookup_eq_none_of_keys
    intro e he
    obtain ⟨u, hu⟩ := hfiles e he
    rw [hu]
    exact fun h => flashReadPath_ne_flashPath t u h.symm
  unfold getPacket
  simp only [flashDescriptor, if_true, hnone]
  cases io.openFails <;> rfl

theorem sdReadPath_eq_sdWritePath (deviceId : f_string) (b t : Int) :
    sdReadPath deviceId (PacketDescriptor.mk b t)
      = sdWritePath deviceId b (printInt t ++ ".pkt".toList) := by
  simp [sdReadPath, sdWritePath]

/-- C16 as stated fails in two cases.  A packet stamped -1 written to an empty archive goes
to the bucket -1, and `getPacket` takes the location -1 for the flash tag: it looks for the
file in the flash and fails.  And a packet written over a longer file of the same name
(the file is opened without truncation) is read back followed by the bytes of the old file
that lay beyond it. -/
theorem getPacket_archive_roundtrip_exceptions :
    (savePacketToSD SD_CARD_SUBFOLDER_TIMESPAN 1700000000 noSdFaults (SdStore.mk [] [])
        (dataPointPacket 4294967295 [9])
      = .done (true, SdStore.mk [-1] [(-1, [("-1.pkt".toList, [255, 255, 255, 255, 9])])]) ∧
    getPacket noReadFaults [] [(-1, [("-1.pkt".toList, [255, 255, 255, 255, 9])])]
        (PacketDescriptor.mk (-1) (-1)) [] = .done (false, [])) ∧
    (savePacketToSD SD_CARD_SUBFOLDER_TIMESPAN 1700000010 noSdFaults
        (SdStore.mk [1700000000]
          [(1700000000, [("1700000006.pkt".toList, [1, 2, 3, 4, 5, 6, 7, 8])])])
        (dataPointPacket 1700000006 [9])
      = .done (true, SdStore.mk [1700000000]
          [(1700000000, [("1700000006.pkt".toList, [6, 241, 83, 101, 9, 6, 7, 8])])]) ∧
    getPacket noReadFaults []
        [(1700000000, [("1700000006.pkt".toList, [6, 241, 83, 101, 9, 6, 7, 8])])]
        (PacketDescriptor.mk 1700000000 1700000006) []
      = .done (true, [6, 241, 83, 101, 9, 6, 7, 8]) ∧
    (dataPointPacket 1700000006 [9]).data = [6, 241, 83, 101, 9]) := by
  decide

/-- C16 (amended): for every packet (of at most `PACKET_MAX_SIZE_BYTES` bytes, the capacity
of `Packet::data`) that `savePacketToSD` stored successfully with timestamp t into a bucket
b other than -1, the flash tag, where no longer file named `<t>.pkt` was in the bucket
before the write, `getPacket` with the descriptor {b, t} opens the path
`/<device id>/<b>/<t>.pkt` that the write used, succeeds, and appends exactly the stored
bytes to its output. -/
theorem getPacket_archive_roundtrip (timespan now : Int) (io : SdFaults) (s s1 : SdStore)
    (packet : Packet) (deviceId : f_string) (flashFiles : Files) (output : Bytes)
    (hsave : savePacketToSD timespan now io s packet = .done (true, s1))
    (hsize : packet.data.length ≤ PACKET_MAX_SIZE_BYTES)
    (hbucket : (selectSubFolder timespan now s.subFolderTimestampsIndex
      packet.getTimestamp).1 ≠ PacketDescriptor.FLASH_LOCATION)
    (hold : ((readSdFile s.folders (selectSubFolder timespan now s.subFolderTimestampsIndex
      packet.getTimestamp).1 packet.makeFilename).getD []).length ≤ packet.data.length) :
    sdReadPath deviceId (PacketDescriptor.mk
        (selectSubFolder timespan now s.subFolderTimestampsIndex packet.getTimestamp).1
        packet.getTimestamp)
      = sdWritePath deviceId
        (selectSubFolder timespan now s.subFolderTimestampsIndex packet.getTimestamp).1
        packet.makeFilename ∧
    getPacket noReadFaults flashFiles s1.folders (PacketDescriptor.mk
        (selectSubFolder timespan now s.subFolderTimestampsIndex packet.getTimestamp).1
        packet.getTimestamp) output
      = .done (true, output ++ packet.data) := by
  refine ⟨sdReadPath_eq_sdWritePath deviceId _ _, ?_⟩
  have hlen : 4 ≤ packet.data.length := by
    by_contra hlt
    unfold savePacketToSD at hsave
    rw [if_pos (by omega)] at hsave
    cases hsave
  rw [savePacketToSD_eq timespan now io s packet hlen] at hsave
  simp only [Exec.done.injEq, Prod.mk.injEq] at hsave
  obtain ⟨hok, hs1⟩ := hsave
  have hread := writeToSubFolder_success io s.folders _ packet.makeFilename packet.data hok
  have hfolders : s1.folders = (writeToSubFolder io s.folders
      (selectSubFolder timespan now s.subFolderTimestampsIndex packet.getTimestamp).1
      packet.makeFilename packet.data).2 := by
    rw [← hs1]
  have hover : overwrite ((readSdFile s.folders (selectSubFolder timespan now
      s.subFolderTimestampsIndex packet.getTimestamp).1 packet.makeFilename).getD [])
      packet.data = packet.data := by
    unfold overwrite
    rw [List.drop_eq_nil_of_le hold, List.append_nil]
  rw [hover, ← hfolders] at hread
  have hname : printInt packet.getTimestamp ++ ".pkt".toList = packet.makeFilename := rfl
  have hbig : ¬ (1024 < packet.data.length) := by
    unfold PACKET_MAX_SIZE_BYTES at hsize
    omega
  unfold getPacket
  simp only [hbucket, if_false, noReadFaults, Bool.false_eq_true, hname, hread,
    Bool.false_or, decide_eq_true_eq, hbig]

/-- Instance of `getPacket_archive_roundtrip`: the packet stamped 1700000006 is written to
the bucket 1700000000 and read back. -/
theorem getPacket_archive_roundtrip_witness :
    sdReadPath "e00fce68".toList (PacketDescriptor.mk
        (selectSubFolder SD_CARD_SUBFOLDER_TIMESPAN 1700000010 [1700000000]
          (dataPointPacket 1700000006 [9]).getTimestamp).1
        (dataPointPacket 1700000006 [9]).getTimestamp)
      = sdWritePath "e00fce68".toList
        (selectSubFolder SD_CARD_SUBFOLDER_TIMESPAN 1700000010 [1700000000]
          (dataPointPacket 1700000006 [9]).getTimestamp).1
        (dataPointPacket 1700000006 [9]).makeFilename ∧
    getPacket noReadFaults []
        [(1700000000, [("1700000006.pkt".toList, [6, 241, 83, 101, 9])])]
        (PacketDescriptor.mk
          (selectSubFolder SD_CARD_SUBFOLDER_TIMESPAN 1700000010 [1700000000]
            (dataPointPacket 1700000006 [9]).getTimestamp).1
          (dataPointPacket 1700000006 [9]).getTimestamp) [3]
      = .done (true, [3] ++ (dataPointPacket 1700000006 [9]).data) :=
  getPacket_archive_roundtrip SD_CARD_SUBFOLDER_TIMESPAN 1700000010 noSdFaults
    (SdStore.mk [1700000000] [(1700000000, [])])
    (SdStore.mk [1700000000] [(1700000000, [("1700000006.pkt".toList, [6, 241, 83, 101, 9])])])
    (dataPointPacket 1700000006 [9]) "e00fce68".toList [] [3]
    (by decide) (by decide) (by decide) (by decide)

/-! ### Startup indexing -/

/-- C17 (the code departs from the claim): in the scan loop of `initFlashStorage` an entry
with a packet name whose timestamp fails the sanity threshold makes the loop call `readdir`
twice, so the entry listed after it is never examined.  With the listing `946684800.pkt`,
`1700000005.pkt` and no I/O error the call succeeds with an empty flash index, although
`1700000005.pkt` is a valid packet file name above the threshold, which is indexed when it
is listed alone or before the rejected entry. -/
theorem initFlashStorage_rejected_entry_hides_next :
    checkPacketName "1700000005.pkt".toList = true ∧
    atoi "1700000005.pkt".toList = 1700000005 ∧
    sanityThreshold < 1700000005 ∧
    initFlashStorage FLASH_MAX_PACKETS noFlashInitFaults
        ["946684800.pkt".toList, "1700000005.pkt".toList] [] = (true, []) ∧
    initFlashStorage FLASH_MAX_PACKETS noFlashInitFaults ["1700000005.pkt".toList] []
      = (true, [1700000005]) ∧
    initFlashStorage FLASH_MAX_PACKETS noFlashInitFaults
        ["1700000005.pkt".toList, "946684800.pkt".toList] [] = (true, [1700000005]) := by
  decide

/-- Every entry of the index after the flash scan was in the index before, or is the
timestamp, above the threshold, parsed from a listed packet name. -/
theorem flashScan_mem : ∀ (n : Nat) (listing : List f_string) (index : List Int) (t : Int),
    listing.length ≤ n → t ∈ flashScan listing index →
      t ∈ index ∨ (sanityThreshold < t ∧
        ∃ name ∈ listing, checkPacketName name = true ∧ atoi name = t)
  | _, [], index, t, _, h => Or.inl (by simpa [flashScan] using h)
  | 0, _ :: _, _, _, hn, _ => by simp at hn
  | n + 1, name :: rest, index, t, hn, h => by
    have hn1 : rest.length ≤ n := by simpa using hn
    unfold flashScan at h
    by_cases hname : checkPacketName name = true
    · rw [if_pos hname] at h
      by_cases hthr : atoi name > sanityThreshold
      · rw [if_pos hthr] at h
        rcases flashScan_mem n rest _ t hn1 h with hin | ⟨ht, e, he, hc, ha⟩
        · rcases List.mem_append.mp hin with hin | hin
          · exact Or.inl hin
          · simp only [List.mem_singleton] at hin
            subst hin
            exact Or.inr ⟨hthr, name, by simp, hname, rfl⟩
        · exact Or.inr ⟨ht, e, by simp [he], hc, ha⟩
      · rw [if_neg hthr] at h
        cases rest with
        | nil => exact Or.inl h
        | cons skipped rest1 =>
          simp only at h
          have hn2 : rest1.length ≤ n := by
            simp only [List.length_cons] at hn1
            omega
          rcases flashScan_mem n rest1 _ t hn2 h with hin | ⟨ht, e, he, hc, ha⟩
          · exact Or.inl hin
          · exact Or.inr ⟨ht, e, by simp [he], hc, ha⟩
    · rw [if_neg hname] at h
      rcases flashScan_mem n rest _ t hn1 h with hin | ⟨ht, e, he, hc, ha⟩
      · exact Or.inl hin
      · exact Or.inr ⟨ht, e, by simp [he], hc, ha⟩

/-- Every entry of the index after the SD scan was in the index before, or is the
timestamp, above the threshold, parsed from a listed entry name. -/
theorem sdScan_mem : ∀ (listing : List (f_string × Bool)) (index : List Int) (t : Int),
    t ∈ (sdScan listing index).2 →
      t ∈ index ∨ (sanityThreshold < t ∧ ∃ e ∈ listing, atoi e.1 = t)
  | [], index, t, h => Or.inl (by simpa [sdScan] using h)
  | (name, closeOk) :: rest, index, t, h => by
    have hstep : ∀ x, x ∈ (if atoi name > sanityThreshold then index ++ [atoi name]
        else index) → x ∈ index ∨ (sanityThreshold < x ∧ atoi name = x) := by
      intro x hx
      split at hx
      · next hthr =>
        rcases List.mem_append.mp hx with hx | hx
        · exact Or.inl hx
        · simp only [List.mem_singleton] at hx
          subst hx
          exact Or.inr ⟨hthr, rfl⟩
      · exact Or.inl hx
    unfold sdScan at h
    cases closeOk with
    | true =>
      simp only [if_true] at h
      rcases sdScan_mem rest _ t h with hin | ⟨ht, e, he, ha⟩
      · rcases hstep t hin with hin | ⟨ht, ha⟩
        · exact Or.inl hin
        · exact Or.inr ⟨ht, (name, true), by simp, ha⟩
      · exact Or.inr ⟨ht, e, by simp [he], ha⟩
    | false =>
      simp only [Bool.false_eq_true, if_false] at h
      rcases hstep t h with hin | ⟨ht, ha⟩
      · exact Or.inl hin
      · exact Or.inr ⟨ht, (name, false), by simp, ha⟩

theorem sortTimestamps_sorted (ts : List Int) : (sortTimestamps ts).Sorted (· ≤ ·) :=
  List.sorted_insertionSort _ ts

theorem mem_sortTimestamps (ts : List Int) (t : Int) : t ∈ sortTimestamps ts ↔ t ∈ ts :=
  (List.perm_insertionSort _ ts).mem_iff

/-- C18: startup index invariants.  After a successful `initSDCardStorage` the bucket index,
and after a successful `initFlashStorage` started from an empty index the flash index, is
sorted ascending and contains only values greater than the sanity threshold 1600000000,
each of which is the integer that `atoi` parses from the name of some listed entry (for the
flash: of a listed entry with a packet file name). -/
theorem startup_index_invariants :
    (∀ (io : SdInitFaults) (deviceFolderExists : Bool) (listing : List (f_string × Bool))
        (index : List Int),
      initSDCardStorage io deviceFolderExists listing = (true, index) →
        index.Sorted (· ≤ ·) ∧
        ∀ t ∈ index, 1600000000 < t ∧ ∃ e ∈ listing, atoi e.1 = t) ∧
    (∀ (maxPackets : Nat) (io : FlashInitFaults) (listing : List f_string)
        (index : List Int),
      initFlashStorage maxPackets io listing [] = (true, index) →
        index.Sorted (· ≤ ·) ∧
        ∀ t ∈ index, 1600000000 < t ∧
          ∃ name ∈ listing, checkPacketName name = true ∧ atoi name = t) := by
  constructor
  · intro io deviceFolderExists listing index h
    dsimp only [initSDCardStorage] at h
    split_ifs at h
    all_goals first | exact absurd (congrArg Prod.fst h) Bool.false_ne_true | skip
    have hidx : sortTimestamps (sdScan listing []).2 = index := congrArg Prod.snd h
    subst hidx
    refine ⟨sortTimestamps_sorted _, ?_⟩
    intro t ht
    rcases sdScan_mem listing [] t ((mem_sortTimestamps _ t).mp ht) with hin | hres
    · simp at hin
    · exact hres
  · intro maxPackets io listing index h
    dsimp only [initFlashStorage] at h
    split_ifs at h
    all_goals first | exact absurd (congrArg Prod.fst h) Bool.false_ne_true | skip
    have hidx : sortTimestamps (flashScan listing []) = index := congrArg Prod.snd h
    subst hidx
    refine ⟨sortTimestamps_sorted _, ?_⟩
    intro t ht
    rcases flashScan_mem listing.length listing [] t (le_refl _)
      ((mem_sortTimestamps _ t).mp ht) with hin | hres
    · simp at hin
    · exact hres

/-- Instance of `startup_index_invariants`: a device folder with two buckets and a stray
entry. -/
theorem startup_index_invariants_witness :
    List.Sorted (· ≤ ·) ([1700000000, 1700003600] : List Int) ∧
    ∀ t ∈ ([1700000000, 1700003600] : List Int), 1600000000 < t ∧
      ∃ e ∈ [("1700003600".toList, true), ("System Volume".toList, true),
        ("1700000000".toList, true)], atoi e.1 = t :=
  startup_index_invariants.1 noSdInitFaults true
    [("1700003600".toList, true), ("System Volume".toList, true), ("1700000000".toList, true)]
    [1700000000, 1700003600] (by decide)

/-! ### The query path on the manager -/

theorem readDescriptor_trapped (output : List PacketDescriptor) (i : Nat) :
    readDescriptor (fun _ => none) output i = output[i]? := by
  unfold readDescriptor
  cases output[i]? <;> rfl

/-- The gap loop hands the manager back as it received it. -/
theorem gapWalk_manager (pastEnd : Nat → Option PacketDescriptor) (intervalEnd : Int) :
    ∀ (fuel : Nat) (m : Manager) (output : List PacketDescriptor) (pkt : Nat),
    (Manager.gapWalk pastEnd intervalEnd fuel m output pkt).1 = m
  | 0, m, output, pkt => rfl
  | fuel + 1, m, output, pkt => by
    unfold Manager.gapWalk
    split
    · next cur nxt _ _ =>
      dsimp only
      by_cases hlt : nxt.packetTimestamp < intervalEnd
      · rw [if_pos hlt]
        generalize hf : (if wrap32 (nxt.packetTimestamp - cur.packetTimestamp) > gapTreshold
            then m.findPacketsInFlash (cur.packetTimestamp, nxt.packetTimestamp) output
            else (m, output)) = filled
        have h1 : filled.1 = m := by
          rw [← hf]
          split <;> rfl
        by_cases hend : pkt + 1 = filled.2.length
        · rw [if_pos hend]
          exact h1
        · rw [if_neg hend, gapWalk_manager pastEnd intervalEnd fuel]
          exact h1
      · rw [if_neg hlt]
    · rfl

/-- With reads outside the container trapped, the gap loop on the manager is `gapWalk` on
the flash index of the manager. -/
theorem gapWalk_trapped (intervalEnd : Int) :
    ∀ (fuel : Nat) (m : Manager) (output : List PacketDescriptor) (pkt : Nat),
    Manager.gapWalk (fun _ => none) intervalEnd fuel m output pkt
      = (m, gapWalk m.flash.flashPacketTimestampsIndex intervalEnd fuel output pkt)
  | 0, m, output, pkt => rfl
  | fuel + 1, m, output, pkt => by
    unfold Manager.gapWalk gapWalk
    simp only [readDescriptor_trapped]
    cases output[pkt]? with
    | none => rfl
    | some cur =>
      cases output[pkt + 1]? with
      | none => rfl
      | some nxt =>
        dsimp only
        by_cases hlt : nxt.packetTimestamp < intervalEnd
        · rw [if_pos hlt, if_pos hlt]
          by_cases hgap : wrap32 (nxt.packetTimestamp - cur.packetTimestamp) > gapTreshold
          · rw [if_pos hgap, if_pos hgap]
            simp only [Manager.findPacketsInFlash]
            split
            · rfl
            · exact gapWalk_trapped intervalEnd fuel m _ (pkt + 1)
          · rw [if_neg hgap, if_neg hgap]
            dsimp only
            split
            · rfl
            · exact gapWalk_trapped intervalEnd fuel m _ (pkt + 1)
        · rw [if_neg hlt, if_neg hlt]

/-- The interval loop hands the manager back as it received it. -/
theorem intervalWalk_manager (pastEnd : Nat → Option PacketDescriptor) (fuel : Nat) :
    ∀ (intervals : List interval_t) (m : Manager) (output : List PacketDescriptor)
      (pkt : Nat),
    (Manager.intervalWalk pastEnd fuel m intervals output pkt).1 = m
  | [], m, output, pkt => rfl
  | iv :: rest, m, output, pkt => by
    unfold Manager.intervalWalk
    split
    · rfl
    · next flashFirst _ _ =>
      by_cases hskip : iv.2 < flashFirst
      · rw [if_pos hskip]
        exact intervalWalk_manager pastEnd fuel rest m output pkt
      · rw [if_neg hskip]
        split
        · rfl
        · next cur _ =>
          by_cases hassert : ¬ (iv.1 < cur.packetTimestamp)
          · rw [if_pos hassert]
          · rw [if_neg hassert]
            by_cases hwhole : iv.2 < cur.packetTimestamp ∧ wrap32 (iv.2 - iv.1) > gapTreshold
            · rw [if_pos hwhole, intervalWalk_manager pastEnd fuel rest]
              rfl
            · rw [if_neg hwhole]
              dsimp only
              generalize hs : (if wrap32 (cur.packetTimestamp - iv.1) > gapTreshold
                  then m.findPacketsInFlash (iv.1, cur.packetTimestamp) output
                  else (m, output)) = started
              have h1 : started.1 = m := by
                rw [← hs]
                split <;> rfl
              generalize hw : (if pkt + 1 ≠ started.2.length
                  then Manager.gapWalk pastEnd iv.2 fuel started.1 started.2 pkt
                  else (started.1, Exec.done (started.2, pkt))) = walked
              have h2 : walked.1 = m := by
                rw [← hw]
                split
                · rw [gapWalk_manager pastEnd iv.2 fuel]
                  exact h1
                · exact h1
              obtain ⟨m2, outcome⟩ := walked
              simp only at h2
              subst h2
              cases outcome with
              | done r =>
                obtain ⟨output2, pkt2⟩ := r
                dsimp only
                split
                · rfl
                · next last _ =>
                  generalize he : (if wrap32 (iv.2 - last.packetTimestamp) > gapTreshold
                      then m2.findPacketsInFlash (last.packetTimestamp, iv.2) output2
                      else (m2, output2)) = ended
                  have h3 : ended.1 = m2 := by
                    rw [← he]
                    split <;> rfl
                  split
                  · exact h3
                  · rw [intervalWalk_manager pastEnd fuel rest]
                    exact h3
              | assertFailed => rfl
              | invalidRead => rfl
              | hang => rfl
              | outOfFuel => rfl
              | capacityExceeded => rfl

theorem remainingIntervals_manager : ∀ (intervals : List interval_t) (m : Manager)
    (output : List PacketDescriptor),
    Manager.remainingIntervals m intervals output
      = (m, remainingIntervals m.flash.flashPacketTimestampsIndex intervals output)
  | [], m, output => rfl
  | iv :: rest, m, output => by
    unfold Manager.remainingIntervals remainingIntervals
    exact remainingIntervals_manager rest m _

/-- The member function `findPackets` hands the manager back as it received it, however
the run ends and whatever the reads outside the output container yield. -/
theorem findPackets_manager (pastEnd : Nat → Option PacketDescriptor) (fuel : Nat)
    (sd : SdView) (m : Manager) (intervals : List interval_t)
    (output : List PacketDescriptor) :
    (Manager.findPackets pastEnd fuel sd m intervals output).1 = m := by
  unfold Manager.findPackets
  split
  · next output1 _ =>
    split
    · rfl
    · dsimp only
      generalize hw : (if (sortDescriptors output1).isEmpty
          then (m, Exec.done (sortIntervals intervals, sortDescriptors output1, 0))
          else Manager.intervalWalk pastEnd fuel m (sortIntervals intervals)
            (sortDescriptors output1) 0) = walked
      have h1 : walked.1 = m := by
        rw [← hw]
        split
        · rfl
        · exact intervalWalk_manager pastEnd fuel _ m _ 0
      obtain ⟨m1, outcome⟩ := walked
      simp only at h1
      subst h1
      cases outcome with
      | done r =>
        obtain ⟨left, output2, pkt⟩ := r
        dsimp only
        split
        · rw [remainingIntervals_manager]
        · rfl
      | assertFailed => rfl
      | invalidRead => rfl
      | hang => rfl
      | outOfFuel => rfl
      | capacityExceeded => rfl
  all_goals rfl

/-- The member function `getPacket` hands the manager back as it received it. -/
theorem getPacket_manager (io : ReadFaults) (m : Manager) (d : PacketDescriptor)
    (output : Bytes) : (Manager.getPacket io m d output).1 = m := by
  unfold Manager.getPacket
  split
  · split
    · rfl
    · split
      · rfl
      · split <;> rfl
  · split
    · rfl
    · split <;> rfl

/-- The outcome of the member function `getPacket` is that of `getPacket` on the flash
files and the SD sub-folders of the manager. -/
theorem getPacket_outcome (io : ReadFaults) (m : Manager) (d : PacketDescriptor)
    (output : Bytes) :
    Manager.getPacket io m d output
      = (m, getPacket io m.flash.files m.sd.folders d output) := by
  unfold Manager.getPacket getPacket
  by_cases hloc : d.location = PacketDescriptor.FLASH_LOCATION
  · rw [if_pos hloc, if_pos hloc]
    cases (if io.openFails then none
      else m.flash.files.read (flashReadPath d.packetTimestamp)) with
    | none => rfl
    | some content =>
      dsimp only
      split
      · rfl
      · split <;> rfl
  · rw [if_neg hloc, if_neg hloc]
    cases (if io.openFails then none
      else readSdFile m.sd.folders d.location
        (printInt d.packetTimestamp ++ ".pkt".toList)) with
    | none => rfl
    | some content =>
      dsimp only
      split <;> rfl

/-- With reads outside the container trapped, the interval loop on the manager is
`intervalWalk` on the flash index of the manager. -/
theorem intervalWalk_trapped (fuel : Nat) (m : Manager) (flashFirst : Int)
    (flashRest : List Int)
    (hidx : m.flash.flashPacketTimestampsIndex = flashFirst :: flashRest) :
    ∀ (intervals : List interval_t) (output : List PacketDescriptor) (pkt : Nat),
    Manager.intervalWalk (fun _ => none) fuel m intervals output pkt
      = (m, intervalWalk m.flash.flashPacketTimestampsIndex flashFirst fuel intervals
          output pkt)
  | [], output, pkt => rfl
  | iv :: rest, output, pkt => by
    unfold Manager.intervalWalk intervalWalk
    simp only [readDescriptor_trapped, Manager.findPacketsInFlash, gapWalk_trapped]
    rw [hidx]
    dsimp only
    have ih := intervalWalk_trapped fuel m flashFirst flashRest hidx rest
    rw [hidx] at ih
    by_cases hskip : iv.2 < flashFirst
    · rw [if_pos hskip, if_pos hskip]
      exact ih output pkt
    · rw [if_neg hskip, if_neg hskip]
      cases output[pkt]? with
      | none => rfl
      | some cur =>
        dsimp only
        by_cases hassert : ¬ (iv.1 < cur.packetTimestamp)
        · rw [if_pos hassert, if_pos hassert]
        · rw [if_neg hassert, if_neg hassert]
          by_cases hwhole : iv.2 < cur.packetTimestamp ∧ wrap32 (iv.2 - iv.1) > gapTreshold
          · rw [if_pos hwhole, if_pos hwhole]
            exact ih _ pkt
          · rw [if_neg hwhole, if_neg hwhole]
            have hpair : ∀ {α : Type} (c : Prop) [Decidable c] (a b : α),
                (if c then (m, a) else (m, b)) = (m, if c then a else b) := by
              intro α c _ a b
              split <;> rfl
            simp only [hpair, hidx]
            generalize (if wrap32 (cur.packetTimestamp - iv.1) > gapTreshold
              then findPacketsInFlash (flashFirst :: flashRest) (iv.1, cur.packetTimestamp)
                output
              else output) = output1
            generalize (if pkt + 1 ≠ output1.length
              then gapWalk (flashFirst :: flashRest) iv.2 fuel output1 pkt
              else Exec.done (output1, pkt)) = walked
            cases walked with
            | done r =>
              obtain ⟨output2, pkt2⟩ := r
              dsimp only
              cases output2[pkt2]? with
              | none => rfl
              | some last =>
                dsimp only
                simp only [hidx, ih, hpair]
            | assertFailed => rfl
            | invalidRead => rfl
            | hang => rfl
            | outOfFuel => rfl
            | capacityExceeded => rfl

/-- With reads outside the container trapped, the member function `findPackets` returns
the manager it was called on, and its outcome is that of `findPackets` on the indices and
the flash flag of that manager. -/
theorem findPackets_trapped (fuel : Nat) (sd : SdView) (m : Manager)
    (intervals : List interval_t) (output : List PacketDescriptor) :
    Manager.findPackets (fun _ => none) fuel sd m intervals output
      = (m, findPackets fuel m.sd.subFolderTimestampsIndex sd
          m.flash.flashPacketTimestampsIndex m.sysstate.flashActive intervals output) := by
  unfold Manager.findPackets findPackets
  cases findPacketsOnSDCard m.sd.subFolderTimestampsIndex sd intervals output with
  | done r =>
    obtain ⟨ok, output1⟩ := r
    cases ok with
    | false => rfl
    | true =>
      dsimp only
      cases hidx : m.flash.flashPacketTimestampsIndex with
      | nil => rfl
      | cons flashFirst flashRest =>
        cases hactive : m.sysstate.flashActive with
        | false => rfl
        | true =>
          simp only [List.isEmpty_cons, Bool.not_true, Bool.or_self, Bool.false_eq_true,
            if_false, if_true]
          unfold flashGapFill
          dsimp only
          have hwalk := intervalWalk_trapped fuel m flashFirst flashRest hidx
            (sortIntervals intervals) (sortDescriptors output1) 0
          rw [hidx] at hwalk
          rw [hwalk]
          have hpair : ∀ {α : Type} (c : Prop) [Decidable c] (a b : α),
              (if c then (m, a) else (m, b)) = (m, if c then a else b) := by
            intro α c _ a b
            split <;> rfl
          rw [hpair]
          generalize (if (sortDescriptors output1).isEmpty = true
            then Exec.done (sortIntervals intervals, sortDescriptors output1, 0)
            else intervalWalk (flashFirst :: flashRest) flashFirst fuel (sortIntervals intervals)
              (sortDescriptors output1) 0) = walked
          cases walked with
          | done r =>
            obtain ⟨left, output2, pkt⟩ := r
            dsimp only
            rw [remainingIntervals_manager, hidx]
            split <;> rfl
          | assertFailed => rfl
          | invalidRead => rfl
          | hang => rfl
          | outOfFuel => rfl
          | capacityExceeded => rfl
  | assertFailed => rfl
  | invalidRead => rfl
  | hang => rfl
  | outOfFuel => rfl
  | capacityExceeded => rfl

theorem managerFindPackets_eq (fuel : Nat) (sd : SdView) (m : Manager)
    (intervals : List interval_t) (output : List PacketDescriptor) :
    managerFindPackets fuel sd m intervals output =
      match findPackets fuel m.sd.subFolderTimestampsIndex sd
          m.flash.flashPacketTimestampsIndex m.sysstate.flashActive intervals output with
      | .done r => .done (m, r)
      | .assertFailed => .assertFailed
      | .invalidRead => .invalidRead
      | .hang => .hang
      | .outOfFuel => .outOfFuel
      | .capacityExceeded => .capacityExceeded := by
  unfold managerFindPackets
  rw [findPackets_trapped]
  cases findPackets fuel m.sd.subFolderTimestampsIndex sd
    m.flash.flashPacketTimestampsIndex m.sysstate.flashActive intervals output <;> rfl

theorem managerGetPacket_eq (io : ReadFaults) (m : Manager) (d : PacketDescriptor)
    (output : Bytes) :
    managerGetPacket io m d output =
      match getPacket io m.flash.files m.sd.folders d output with
      | .done r => .done (m, r)
      | .assertFailed => .assertFailed
      | .invalidRead => .invalidRead
      | .hang => .hang
      | .outOfFuel => .outOfFuel
      | .capacityExceeded => .capacityExceeded := by
  unfold managerGetPacket
  rw [getPacket_outcome]
  cases getPacket io m.flash.files m.sd.folders d output <;> rfl

/-! ### Gap-fill between archive matches -/

theorem findPacketsInFlash_150 (v : Int) (output : List PacketDescriptor) :
    findPacketsInFlash [150] (150, v) output = output := by
  have h : iterRange [150] (findInterval (150, v) [150]) = strictlyInside (150, v) [150] :=
    findInterval_range_eq 150 v [150] (by simp)
  unfold findPacketsInFlash
  rw [h]
  simp [strictlyInside]

theorem gapWalk_gap_scenario_last (stray : Nat → PacketDescriptor) (fuel : Nat) :
    Manager.gapWalk (fun i => some (stray i)) 210 (fuel + 1) gapFillManager
        [PacketDescriptor.mk 50 100, PacketDescriptor.mk 50 200, flashDescriptor 150] 2
      = (gapFillManager, .done
          ([PacketDescriptor.mk 50 100, PacketDescriptor.mk 50 200, flashDescriptor 150], 2)) := by
  unfold Manager.gapWalk
  have h2 : readDescriptor (fun i => some (stray i))
      [PacketDescriptor.mk 50 100, PacketDescriptor.mk 50 200, flashDescriptor 150] 2
      = some (flashDescriptor 150) := rfl
  have h3 : readDescriptor (fun i => some (stray i))
      [PacketDescriptor.mk 50 100, PacketDescriptor.mk 50 200, flashDescriptor 150] (2 + 1)
      = some (stray 3) := rfl
  rw [h2, h3]
  dsimp only
  by_cases hlt : (stray 3).packetTimestamp < 210
  · rw [if_pos hlt]
    have hflash : gapFillManager.flash.flashPacketTimestampsIndex = [150] := rfl
    have h150 : (flashDescriptor 150).packetTimestamp = 150 := rfl
    simp only [Manager.findPacketsInFlash, hflash, h150, findPacketsInFlash_150]
    split <;> rfl
  · rw [if_neg hlt]

theorem findPackets_gap_scenario_stray (stray : Nat → PacketDescriptor) (fuel : Nat) :
    Manager.findPackets (fun i => some (stray i)) (fuel + 3) gapFillCard gapFillManager
        [(90, 210)] []
      = (gapFillManager, .done (true, [(90, 210)],
          [PacketDescriptor.mk 50 100, PacketDescriptor.mk 50 200, flashDescriptor 150])) := by
  have harchive : findPacketsOnSDCard gapFillManager.sd.subFolderTimestampsIndex gapFillCard
      [(90, 210)] [] = .done (true, [PacketDescriptor.mk 50 100, PacketDescriptor.mk 50 200]) := by
    decide
  have hwalk : Manager.gapWalk (fun i => some (stray i)) 210 (fuel + 3) gapFillManager
      [PacketDescriptor.mk 50 100, PacketDescriptor.mk 50 200] 0
      = (gapFillManager, .done
          ([PacketDescriptor.mk 50 100, PacketDescriptor.mk 50 200, flashDescriptor 150],
            2)) := by
    rw [← gapWalk_gap_scenario_last stray fuel]
    rfl
  have hinterval : Manager.intervalWalk (fun i => some (stray i)) (fuel + 3) gapFillManager
      [(90, 210)] [PacketDescriptor.mk 50 100, PacketDescriptor.mk 50 200] 0
      = (gapFillManager, .done ([],
          [PacketDescriptor.mk 50 100, PacketDescriptor.mk 50 200, flashDescriptor 150],
          3)) := by
    unfold Manager.intervalWalk
    have hflash : gapFillManager.flash.flashPacketTimestampsIndex = [150] := rfl
    rw [hflash]
    have h0 : readDescriptor (fun i => some (stray i))
        [PacketDescriptor.mk 50 100, PacketDescriptor.mk 50 200] 0
        = some (PacketDescriptor.mk 50 100) := rfl
    simp only [h0]
    have hstart : (if wrap32 ((PacketDescriptor.mk 50 100).packetTimestamp
          - ((90 : Int), (210 : Int)).1) > gapTreshold
        then gapFillManager.findPacketsInFlash
          (((90 : Int), (210 : Int)).1, (PacketDescriptor.mk 50 100).packetTimestamp)
          [PacketDescriptor.mk 50 100, PacketDescriptor.mk 50 200]
        else (gapFillManager, [PacketDescriptor.mk 50 100, PacketDescriptor.mk 50 200]))
        = (gapFillManager, [PacketDescriptor.mk 50 100, PacketDescriptor.mk 50 200]) := by
      decide
    simp only [hstart, hwalk]
    rfl
  unfold Manager.findPackets
  rw [harchive]
  have hsortO : sortDescriptors [PacketDescriptor.mk 50 100, PacketDescriptor.mk 50 200]
      = [PacketDescriptor.mk 50 100, PacketDescriptor.mk 50 200] := by decide
  have hsortI : sortIntervals [((90 : Int), (210 : Int))] = [(90, 210)] := by decide
  simp only [hsortO, hsortI, hinterval]
  rfl

/-- C3 (the code departs from the claim): the archive search returns the matches 100 and
200 inside the one requested interval (90, 210), 100 apart, more than the gap threshold 12.
With the flash index [250] the interval ends before the first flash timestamp and is
skipped without its matches being consumed; `findPackets` then fails its final assertion
`pktIt == output.end()` instead of returning the two matches, and no read outside the
output container is involved.  (At the flash index [150] of the spec's instance the walk
does read past the end of the container; whatever descriptor that read yields, the call
returns success with exactly the descriptors 100, 200 and flash 150.) -/
theorem findPackets_gap_between_matches_assert_fails :
    findPacketsOnSDCard [50, 300] gapFillCard [(90, 210)] []
      = .done (true, [PacketDescriptor.mk 50 100, PacketDescriptor.mk 50 200]) ∧
    gapTreshold < 200 - 100 ∧
    (∀ fuel, findPackets fuel [50, 300] gapFillCard [250] true [(90, 210)] []
      = .assertFailed) ∧
    (∀ (pastEnd : Nat → Option PacketDescriptor) (fuel : Nat),
      Manager.findPackets pastEnd fuel gapFillCard
          { gapFillManager with flash := FlashStore.mk [250] [] } [(90, 210)] []
        = ({ gapFillManager with flash := FlashStore.mk [250] [] }, .assertFailed)) ∧
    (∀ (stray : Nat → PacketDescriptor) (fuel : Nat),
      Manager.findPackets (fun i => some (stray i)) (fuel + 3) gapFillCard gapFillManager
          [(90, 210)] []
        = (gapFillManager, .done (true, [(90, 210)],
            [PacketDescriptor.mk 50 100, PacketDescriptor.mk 50 200,
              flashDescriptor 150]))) := by
  refine ⟨by decide, by decide, fun _ => rfl, fun _ _ => rfl, ?_⟩
  intro stray fuel
  exact findPackets_gap_scenario_stray stray fuel

/-! ### System state, error handler and ingestion -/

/-- C21 (the code departs from the claim): `run` logs a packet whose event name is not
`dp` and then goes on to the two save branches with it.  With the flash tier active the
packet reaches `savePacketToFlash`, whose assertion on the event name fails; with the flash
tier disabled and the SD tier active the packet is saved on the card: a bucket is created,
the bucket index grows and the packet file is written. -/
theorem run_does_not_ignore_other_packets :
    errorPacket.eventName ≠ DataPointPacket.eventName ∧
    ingest FLASH_MAX_PACKETS SD_CARD_SUBFOLDER_TIMESPAN 1700000006 noFlashFaults noSdFaults
      freshManager errorPacket = .assertFailed ∧
    ingest FLASH_MAX_PACKETS SD_CARD_SUBFOLDER_TIMESPAN 1700000006 noFlashFaults noSdFaults
      flashDisabledManager errorPacket
      = .done (Manager.mk (SystemState.mk true false) (FlashStore.mk [] [])
          (SdStore.mk [1700000005]
            [(1700000005, [("1700000005.pkt".toList, [5, 241, 83, 101, 69])])]) [] 1) := by
  refine ⟨by decide, by decide, by decide⟩

/-- C22 (the code departs from the claim): `findPackets` does not read `sdActive`.  With
the SD tier disabled it still searches the bucket folders: when the card does not answer
the call fails, and when the card answers the result holds a descriptor located in bucket
300.  In general the result is the one obtained with the SD tier active. -/
theorem findPackets_ignores_sdActive :
    sdDisabledManager.sysstate.sdActive = false ∧
    (∀ fuel, managerFindPackets fuel noCard sdDisabledManager [(290, 310)] []
      = .done (sdDisabledManager, false, [(290, 310)], [])) ∧
    (∀ fuel, managerFindPackets fuel gapFillCard sdDisabledManager [(290, 310)] []
      = .done (sdDisabledManager, true, [(290, 310)], [PacketDescriptor.mk 300 300])) ∧
    PacketDescriptor.mk 300 300 ≠ flashDescriptor 300 ∧
    (∀ fuel sd (m : Manager) flashActive intervals output r,
      managerFindPackets fuel sd
          { m with sysstate := SystemState.mk false flashActive } intervals output
        = .done ({ m with sysstate := SystemState.mk false flashActive }, r)
      ↔ managerFindPackets fuel sd
          { m with sysstate := SystemState.mk true flashActive } intervals output
        = .done ({ m with sysstate := SystemState.mk true flashActive }, r)) := by
  refine ⟨rfl, fun _ => rfl, fun _ => rfl, by decide, ?_⟩
  intro fuel sd m flashActive intervals output r
  simp only [managerFindPackets_eq]
  cases findPackets fuel m.sd.subFolderTimestampsIndex sd m.flash.flashPacketTimestampsIndex
    flashActive intervals output <;> simp

/-- A step that leaves the system state and the sent messages alone, or is `flashError`, or
is `sdError`, on those two fields: no flag goes back to active, and a tier's message is
sent exactly when that tier's flag goes from active to inactive. -/
theorem disable_step (m m1 : Manager)
    (h : (m1.sysstate = m.sysstate ∧ m1.sentErrorMessages = m.sentErrorMessages) ∨
      (m1.sysstate = (flashError m).sysstate ∧
        m1.sentErrorMessages = (flashError m).sentErrorMessages) ∨
      (m1.sysstate = (sdError m).sysstate ∧
        m1.sentErrorMessages = (sdError m).sentErrorMessages)) :
    ∃ sent, m1.sentErrorMessages = m.sentErrorMessages ++ sent ∧
      sent.count ErrorMessage.flashError + (if m1.sysstate.flashActive then 1 else 0)
        = (if m.sysstate.flashActive then 1 else 0) ∧
      sent.count ErrorMessage.sdCardError + (if m1.sysstate.sdActive then 1 else 0)
        = (if m.sysstate.sdActive then 1 else 0) := by
  rcases h with ⟨hs, hm⟩ | ⟨hs, hm⟩ | ⟨hs, hm⟩
  · exact ⟨[], by simp [hm], by simp [hs], by simp [hs]⟩
  · rw [hs, hm]
    unfold flashError
    cases hf : m.sysstate.flashActive
    · exact ⟨[], by simp, by simp [hf], by simp⟩
    · exact ⟨[ErrorMessage.flashError], by simp, by simp, by simp⟩
  · rw [hs, hm]
    unfold sdError
    cases hf : m.sysstate.sdActive
    · exact ⟨[], by simp, by simp, by simp [hf]⟩
    · exact ⟨[ErrorMessage.sdCardError], by simp, by simp, by simp⟩

theorem disable_trans (m m1 m2 : Manager)
    (h1 : ∃ sent, m1.sentErrorMessages = m.sentErrorMessages ++ sent ∧
      sent.count ErrorMessage.flashError + (if m1.sysstate.flashActive then 1 else 0)
        = (if m.sysstate.flashActive then 1 else 0) ∧
      sent.count ErrorMessage.sdCardError + (if m1.sysstate.sdActive then 1 else 0)
        = (if m.sysstate.sdActive then 1 else 0))
    (h2 : ∃ sent, m2.sentErrorMessages = m1.sentErrorMessages ++ sent ∧
      sent.count ErrorMessage.flashError + (if m2.sysstate.flashActive then 1 else 0)
        = (if m1.sysstate.flashActive then 1 else 0) ∧
      sent.count ErrorMessage.sdCardError + (if m2.sysstate.sdActive then 1 else 0)
        = (if m1.sysstate.sdActive then 1 else 0)) :
    ∃ sent, m2.sentErrorMessages = m.sentErrorMessages ++ sent ∧
      sent.count ErrorMessage.flashError + (if m2.sysstate.flashActive then 1 else 0)
        = (if m.sysstate.flashActive then 1 else 0) ∧
      sent.count ErrorMessage.sdCardError + (if m2.sysstate.sdActive then 1 else 0)
        = (if m.sysstate.sdActive then 1 else 0) := by
  obtain ⟨s1, hm1, hf1, hd1⟩ := h1
  obtain ⟨s2, hm2, hf2, hd2⟩ := h2
  refine ⟨s1 ++ s2, by rw [hm2, hm1, List.append_assoc], ?_, ?_⟩
  · rw [List.count_append]; omega
  · rw [List.count_append]; omega

theorem initStorage_disable (maxPackets : Nat) (flashIo : FlashInitFaults)
    (flashListing : List f_string) (sdIo : SdInitFaults) (deviceFolderExists : Bool)
    (sdListing : List (f_string × Bool)) (m : Manager) :
    ∃ sent,
      (initStorage maxPackets flashIo flashListing sdIo deviceFolderExists sdListing
        m).sentErrorMessages = m.sentErrorMessages ++ sent ∧
      sent.count ErrorMessage.flashError +
          (if (initStorage maxPackets flashIo flashListing sdIo deviceFolderExists sdListing
            m).sysstate.flashActive then 1 else 0)
        = (if m.sysstate.flashActive then 1 else 0) ∧
      sent.count ErrorMessage.sdCardError +
          (if (initStorage maxPackets flashIo flashListing sdIo deviceFolderExists sdListing
            m).sysstate.sdActive then 1 else 0)
        = (if m.sysstate.sdActive then 1 else 0) := by
  have hflash : ∀ (r : Bool × List Int),
      ∃ m1 : Manager, m1 = (if m.sysstate.flashActive then
          (if r.1 then { m with flash := FlashStore.mk r.2 m.flash.files }
            else flashError { m with flash := FlashStore.mk r.2 m.flash.files })
          else m) ∧
        ((m1.sysstate = m.sysstate ∧ m1.sentErrorMessages = m.sentErrorMessages) ∨
        (m1.sysstate = (flashError m).sysstate ∧
          m1.sentErrorMessages = (flashError m).sentErrorMessages) ∨
        (m1.sysstate = (sdError m).sysstate ∧
          m1.sentErrorMessages = (sdError m).sentErrorMessages)) := by
    intro r
    refine ⟨_, rfl, ?_⟩
    by_cases hf : m.sysstate.flashActive = true
    · by_cases hr : r.1 = true
      · rw [if_pos hf, if_pos hr]
        exact Or.inl ⟨rfl, rfl⟩
      · rw [if_pos hf, if_neg hr]
        right; left
        simp [flashError, hf]
    · rw [if_neg hf]
      exact Or.inl ⟨rfl, rfl⟩
  have hsd : ∀ (m1 : Manager) (r : Bool × List Int),
      ∃ m2 : Manager, m2 = (if m1.sysstate.sdActive then
          (if r.1 then { m1 with sd := SdStore.mk r.2 m1.sd.folders }
            else sdError { m1 with sd := SdStore.mk r.2 m1.sd.folders })
          else m1) ∧
        ((m2.sysstate = m1.sysstate ∧ m2.sentErrorMessages = m1.sentErrorMessages) ∨
        (m2.sysstate = (flashError m1).sysstate ∧
          m2.sentErrorMessages = (flashError m1).sentErrorMessages) ∨
        (m2.sysstate = (sdError m1).sysstate ∧
          m2.sentErrorMessages = (sdError m1).sentErrorMessages)) := by
    intro m1 r
    refine ⟨_, rfl, ?_⟩
    by_cases hf : m1.sysstate.sdActive = true
    · by_cases hr : r.1 = true
      · rw [if_pos hf, if_pos hr]
        exact Or.inl ⟨rfl, rfl⟩
      · rw [if_pos hf, if_neg hr]
        right; right
        simp [sdError, hf]
    · rw [if_neg hf]
      exact Or.inl ⟨rfl, rfl⟩
  obtain ⟨m1, hm1, hstep1⟩ := hflash
    (initFlashStorage maxPackets flashIo flashListing m.flash.flashPacketTimestampsIndex)
  obtain ⟨m2, hm2, hstep2⟩ := hsd m1 (initSDCardStorage sdIo deviceFolderExists sdListing)
  have hinit : initStorage maxPackets flashIo flashListing sdIo deviceFolderExists sdListing m
      = m2 := by
    rw [hm2, hm1]
    rfl
  rw [hinit]
  exact disable_trans m m1 m2 (disable_step m m1 hstep1) (disable_step m1 m2 hstep2)

theorem ingestFlash_disable (maxPackets : Nat) (flashIo : FlashFaults) (m m1 : Manager)
    (packet : Packet) (h : ingestFlash maxPackets flashIo m packet = .done m1) :
    (m1.sysstate = m.sysstate ∧ m1.sentErrorMessages = m.sentErrorMessages) ∨
      (m1.sysstate = (flashError m).sysstate ∧
        m1.sentErrorMessages = (flashError m).sentErrorMessages) ∨
      (m1.sysstate = (sdError m).sysstate ∧
        m1.sentErrorMessages = (sdError m).sentErrorMessages) := by
  unfold ingestFlash at h
  by_cases hf : m.sysstate.flashActive = true
  · simp only [hf, if_true] at h
    cases hsave : savePacketToFlash maxPackets flashIo m.flash packet with
    | done r =>
      obtain ⟨ok, flash1⟩ := r
      simp only [hsave] at h
      cases ok with
      | true =>
        simp only [if_true, Exec.done.injEq] at h
        subst h
        exact Or.inl ⟨rfl, rfl⟩
      | false =>
        simp only [Bool.false_eq_true, if_false, Exec.done.injEq] at h
        subst h
        right; left
        simp [flashError, hf]
    | assertFailed => simp [hsave] at h
    | invalidRead => simp [hsave] at h
    | hang => simp [hsave] at h
    | outOfFuel => simp [hsave] at h
    | capacityExceeded => simp [hsave] at h
  · simp only [hf, Bool.false_eq_true, if_false, Exec.done.injEq] at h
    subst h
    exact Or.inl ⟨rfl, rfl⟩

theorem ingestSD_disable (timespan now : Int) (sdIo : SdFaults) (m m1 : Manager)
    (packet : Packet) (h : ingestSD timespan now sdIo m packet = .done m1) :
    (m1.sysstate = m.sysstate ∧ m1.sentErrorMessages = m.sentErrorMessages) ∨
      (m1.sysstate = (flashError m).sysstate ∧
        m1.sentErrorMessages = (flashError m).sentErrorMessages) ∨
      (m1.sysstate = (sdError m).sysstate ∧
        m1.sentErrorMessages = (sdError m).sentErrorMessages) := by
  unfold ingestSD at h
  by_cases hf : m.sysstate.sdActive = true
  · simp only [hf, if_true] at h
    cases hsave : savePacketToSD timespan now sdIo m.sd packet with
    | done r =>
      obtain ⟨ok, sd1⟩ := r
      simp only [hsave] at h
      cases ok with
      | true =>
        simp only [if_true, Exec.done.injEq] at h
        subst h
        exact Or.inl ⟨rfl, rfl⟩
      | false =>
        simp only [Bool.false_eq_true, if_false, Exec.done.injEq] at h
        subst h
        right; right
        simp [sdError, hf]
    | assertFailed => simp [hsave] at h
    | invalidRead => simp [hsave] at h
    | hang => simp [hsave] at h
    | outOfFuel => simp [hsave] at h
    | capacityExceeded => simp [hsave] at h
  · simp only [hf, Bool.false_eq_true, if_false, Exec.done.injEq] at h
    subst h
    exact Or.inl ⟨rfl, rfl⟩

theorem managerFindPackets_manager (fuel : Nat) (sd : SdView) (m m1 : Manager)
    (intervals : List interval_t) (output : List PacketDescriptor)
    (r : Bool × List interval_t × List PacketDescriptor)
    (h : managerFindPackets fuel sd m intervals output = .done (m1, r)) : m1 = m := by
  rw [managerFindPackets_eq] at h
  cases hf : findPackets fuel m.sd.subFolderTimestampsIndex sd
      m.flash.flashPacketTimestampsIndex m.sysstate.flashActive intervals output <;>
    simp [hf] at h
  exact h.1.symm

theorem managerGetPacket_manager (io : ReadFaults) (m m1 : Manager) (d : PacketDescriptor)
    (output : Bytes) (r : Bool × Bytes)
    (h : managerGetPacket io m d output = .done (m1, r)) : m1 = m := by
  rw [managerGetPacket_eq] at h
  cases hf : getPacket io m.flash.files m.sd.folders d output <;> simp [hf] at h
  exact h.1.symm

theorem applyOperation_disable (maxPackets : Nat) (timespan : Int) (m m1 : Manager)
    (op : Operation) (h : applyOperation maxPackets timespan m op = .done m1) :
    ∃ sent, m1.sentErrorMessages = m.sentErrorMessages ++ sent ∧
      sent.count ErrorMessage.flashError + (if m1.sysstate.flashActive then 1 else 0)
        = (if m.sysstate.flashActive then 1 else 0) ∧
      sent.count ErrorMessage.sdCardError + (if m1.sysstate.sdActive then 1 else 0)
        = (if m.sysstate.sdActive then 1 else 0) := by
  cases op with
  | sdError =>
    simp only [applyOperation, Exec.done.injEq] at h
    subst h
    exact disable_step m _ (Or.inr (Or.inr ⟨rfl, rfl⟩))
  | flashError =>
    simp only [applyOperation, Exec.done.injEq] at h
    subst h
    exact disable_step m _ (Or.inr (Or.inl ⟨rfl, rfl⟩))
  | initStorage flashIo flashListing sdIo deviceFolderExists sdListing =>
    simp only [applyOperation, Exec.done.injEq] at h
    subst h
    exact initStorage_disable maxPackets flashIo flashListing sdIo deviceFolderExists
      sdListing m
  | ingest now flashIo sdIo packet =>
    simp only [applyOperation] at h
    unfold ingest at h
    dsimp only at h
    generalize hgen : (if packet.eventName ≠ DataPointPacket.eventName then
      { m with invalidPacketReports := m.invalidPacketReports + 1 } else m) = mLogged at h
    have hlog : mLogged.sysstate = m.sysstate ∧
        mLogged.sentErrorMessages = m.sentErrorMessages := by
      rw [← hgen]
      split <;> exact ⟨rfl, rfl⟩
    cases hfl : ingestFlash maxPackets flashIo mLogged packet with
    | done m0 =>
      simp only [hfl] at h
      exact disable_trans m m0 m1
        (disable_trans m mLogged m0 (disable_step m mLogged (Or.inl hlog))
          (disable_step mLogged m0 (ingestFlash_disable maxPackets flashIo mLogged m0 packet hfl)))
        (disable_step m0 m1 (ingestSD_disable timespan now sdIo m0 m1 packet h))
    | assertFailed => simp [hfl] at h
    | invalidRead => simp [hfl] at h
    | hang => simp [hfl] at h
    | outOfFuel => simp [hfl] at h
    | capacityExceeded => simp [hfl] at h
  | findPackets fuel sd intervals output =>
    simp only [applyOperation] at h
    cases hq : managerFindPackets fuel sd m intervals output with
    | done r =>
      obtain ⟨m2, r2⟩ := r
      simp only [hq, Exec.done.injEq] at h
      subst h
      have := managerFindPackets_manager fuel sd m m2 intervals output r2 hq
      subst this
      exact disable_step _ _ (Or.inl ⟨rfl, rfl⟩)
    | assertFailed => simp [hq] at h
    | invalidRead => simp [hq] at h
    | hang => simp [hq] at h
    | outOfFuel => simp [hq] at h
    | capacityExceeded => simp [hq] at h
  | getPacket io d output =>
    simp only [applyOperation] at h
    cases hq : managerGetPacket io m d output with
    | done r =>
      obtain ⟨m2, r2⟩ := r
      simp only [hq, Exec.done.injEq] at h
      subst h
      have := managerGetPacket_manager io m m2 d output r2 hq
      subst this
      exact disable_step _ _ (Or.inl ⟨rfl, rfl⟩)
    | assertFailed => simp [hq] at h
    | invalidRead => simp [hq] at h
    | hang => simp [hq] at h
    | outOfFuel => simp [hq] at h
    | capacityExceeded => simp [hq] at h

theorem applyOperations_disable (maxPackets : Nat) (timespan : Int) :
    ∀ (ops : List Operation) (m m1 : Manager),
    applyOperations maxPackets timespan ops m = .done m1 →
    ∃ sent, m1.sentErrorMessages = m.sentErrorMessages ++ sent ∧
      sent.count ErrorMessage.flashError + (if m1.sysstate.flashActive then 1 else 0)
        = (if m.sysstate.flashActive then 1 else 0) ∧
      sent.count ErrorMessage.sdCardError + (if m1.sysstate.sdActive then 1 else 0)
        = (if m.sysstate.sdActive then 1 else 0)
  | [], m, m1, h => by
    simp only [applyOperations, Exec.done.injEq] at h
    subst h
    exact disable_step m m (Or.inl ⟨rfl, rfl⟩)
  | op :: rest, m, m1, h => by
    simp only [applyOperations] at h
    cases hop : applyOperation maxPackets timespan m op with
    | done m0 =>
      simp only [hop] at h
      exact disable_trans m m0 m1 (applyOperation_disable maxPackets timespan m m0 op hop)
        (applyOperations_disable maxPackets timespan rest m0 m1 h)
    | assertFailed => simp [hop] at h
    | invalidRead => simp [hop] at h
    | hang => simp [hop] at h
    | outOfFuel => simp [hop] at h
    | capacityExceeded => simp [hop] at h

/-- C23: tier disablement is one-shot and independent.  `flashError` leaves `flashActive`
false and `sdActive` as it was, and passes its message to `sendErrorMessages` exactly when
`flashActive` was true before the call; `sdError` likewise for the SD tier.  Over every
sequence of operations of the storage manager and the error handler (`sdError`,
`flashError`, `initStorage`, a pass of `run`, `findPackets`, `getPacket`) that returns, a
flag that is false stays false, and the messages sent during the sequence contain a tier's
message once if that tier's flag went from true to false and not at all otherwise. -/
theorem tier_disablement_one_shot (maxPackets : Nat) (timespan : Int) :
    (∀ m : Manager,
      (flashError m).sysstate.flashActive = false ∧
      (flashError m).sysstate.sdActive = m.sysstate.sdActive ∧
      (flashError m).sentErrorMessages =
        if m.sysstate.flashActive then m.sentErrorMessages ++ [ErrorMessage.flashError]
        else m.sentErrorMessages) ∧
    (∀ m : Manager,
      (sdError m).sysstate.sdActive = false ∧
      (sdError m).sysstate.flashActive = m.sysstate.flashActive ∧
      (sdError m).sentErrorMessages =
        if m.sysstate.sdActive then m.sentErrorMessages ++ [ErrorMessage.sdCardError]
        else m.sentErrorMessages) ∧
    (∀ (ops : List Operation) (m m1 : Manager),
      applyOperations maxPackets timespan ops m = .done m1 →
      (m.sysstate.flashActive = false → m1.sysstate.flashActive = false) ∧
      (m.sysstate.sdActive = false → m1.sysstate.sdActive = false) ∧
      ∃ sent, m1.sentErrorMessages = m.sentErrorMessages ++ sent ∧
        sent.count ErrorMessage.flashError =
          (if m.sysstate.flashActive = true ∧ m1.sysstate.flashActive = false then 1
            else 0) ∧
        sent.count ErrorMessage.sdCardError =
          (if m.sysstate.sdActive = true ∧ m1.sysstate.sdActive = false then 1 else 0)) := by
  refine ⟨?_, ?_, ?_⟩
  · intro m
    unfold flashError
    cases hf : m.sysstate.flashActive <;> simp [hf]
  · intro m
    unfold sdError
    cases hf : m.sysstate.sdActive <;> simp [hf]
  · intro ops m m1 h
    obtain ⟨sent, hsent, hflash, hsd⟩ := applyOperations_disable maxPackets timespan ops m m1 h
    cases hf : m.sysstate.flashActive <;> cases hf1 : m1.sysstate.flashActive <;>
      cases hs : m.sysstate.sdActive <;> cases hs1 : m1.sysstate.sdActive <;>
      simp only [hf, hf1, hs, hs1, if_true, if_false, Bool.false_eq_true] at hflash hsd <;>
      first
      | omega
      | exact ⟨by simp, by simp, sent, hsent, by simp; omega, by simp; omega⟩

/-- Instance of `tier_disablement_one_shot`: a startup at which `sd.begin` fails, a further
`sdError`, the ingestion of a data point packet and a second `initStorage`; the SD message
is sent once, the flash message not at all. -/
theorem tier_disablement_one_shot_witness :
    applyOperations FLASH_MAX_PACKETS SD_CARD_SUBFOLDER_TIMESPAN startupFailureOperations
      freshManager = .done afterStartupFailure ∧
    (freshManager.sysstate.flashActive = false →
      afterStartupFailure.sysstate.flashActive = false) ∧
    (freshManager.sysstate.sdActive = false →
      afterStartupFailure.sysstate.sdActive = false) ∧
    ∃ sent, afterStartupFailure.sentErrorMessages = freshManager.sentErrorMessages ++ sent ∧
      sent.count ErrorMessage.flashError =
        (if freshManager.sysstate.flashActive = true ∧
          afterStartupFailure.sysstate.flashActive = false then 1 else 0) ∧
      sent.count ErrorMessage.sdCardError =
        (if freshManager.sysstate.sdActive = true ∧
          afterStartupFailure.sysstate.sdActive = false then 1 else 0) :=
  ⟨by decide,
    (tier_disablement_one_shot FLASH_MAX_PACKETS SD_CARD_SUBFOLDER_TIMESPAN).2.2
      startupFailureOperations freshManager afterStartupFailure (by decide)⟩

/-- C24: queries never mutate the indices.  The member functions `findPackets` and
`getPacket`, run on a manager, leave it with the flash index and the bucket index it had
before the call: for every state, interval set, output container and behaviour of the
card, however the run ends (success, failure, a failed assertion, a trapped read) and
whatever the reads outside the output container yield. -/
theorem queries_leave_indices_unchanged :
    (∀ (pastEnd : Nat → Option PacketDescriptor) (fuel : Nat) (sd : SdView) (m : Manager)
        (intervals : List interval_t) (output : List PacketDescriptor),
      (Manager.findPackets pastEnd fuel sd m intervals
          output).1.flash.flashPacketTimestampsIndex
        = m.flash.flashPacketTimestampsIndex ∧
      (Manager.findPackets pastEnd fuel sd m intervals output).1.sd.subFolderTimestampsIndex
        = m.sd.subFolderTimestampsIndex) ∧
    (∀ (io : ReadFaults) (m : Manager) (d : PacketDescriptor) (output : Bytes),
      (Manager.getPacket io m d output).1.flash.flashPacketTimestampsIndex
        = m.flash.flashPacketTimestampsIndex ∧
      (Manager.getPacket io m d output).1.sd.subFolderTimestampsIndex
        = m.sd.subFolderTimestampsIndex) := by
  constructor
  · intro pastEnd fuel sd m intervals output
    rw [findPackets_manager]
    exact ⟨rfl, rfl⟩
  · intro io m d output
    rw [getPacket_manager]
    exact ⟨rfl, rfl⟩

/-! ### Phase A: soundness and completeness of the archive search -/

theorem scanFolder_mem : ∀ (entries : List f_string) (ts : List Int),
    scanFolder entries = some ts →
    ∀ t, t ∈ ts ↔ ∃ name ∈ entries, checkPacketName name = true ∧ atoi name = t
  | [], ts, h, t => by
    simp only [scanFolder, Option.some.injEq] at h
    subst h
    simp
  | name :: rest, ts, h, t => by
    unfold scanFolder at h
    by_cases hname : checkPacketName name = true
    · rw [if_pos hname] at h
      by_cases hzero : atoi name ≠ 0
      · rw [if_pos hzero] at h
        cases hrest : scanFolder rest with
        | none => rw [hrest] at h; simp at h
        | some ts1 =>
          rw [hrest] at h
          simp only [Option.map_some', Option.some.injEq] at h
          subst h
          have ih := scanFolder_mem rest ts1 hrest t
          simp only [List.mem_cons, ih]
          constructor
          · rintro (rfl | ⟨n, hn, hc, ha⟩)
            · exact ⟨name, Or.inl rfl, hname, rfl⟩
            · exact ⟨n, Or.inr hn, hc, ha⟩
          · rintro ⟨n, hn | hn, hc, ha⟩
            · subst hn; exact Or.inl ha.symm
            · exact Or.inr ⟨n, hn, hc, ha⟩
      · rw [if_neg hzero] at h
        cases h
    · rw [if_neg hname] at h
      have ih := scanFolder_mem rest ts h t
      rw [ih]
      constructor
      · rintro ⟨n, hn, hc, ha⟩
        exact ⟨n, List.mem_cons_of_mem _ hn, hc, ha⟩
      · rintro ⟨n, hn, hc, ha⟩
        rcases List.mem_cons.mp hn with rfl | hn
        · exact absurd hc hname
        · exact ⟨n, hn, hc, ha⟩

theorem scanFolder_isSome : ∀ (entries : List f_string),
    (∀ name ∈ entries, checkPacketName name = true → atoi name ≠ 0) →
    ∃ ts, scanFolder entries = some ts
  | [], _ => ⟨[], rfl⟩
  | name :: rest, h => by
    obtain ⟨ts, hts⟩ := scanFolder_isSome rest (fun n hn => h n (List.mem_cons_of_mem _ hn))
    unfold scanFolder
    by_cases hname : checkPacketName name = true
    · rw [if_pos hname, if_pos (h name (by simp) hname), hts]
      exact ⟨_, rfl⟩
    · rw [if_neg hname]
      exact ⟨ts, hts⟩

theorem folderMatches_eq (folder : Int) (ts : List Int) (iv : interval_t)
    (hs : ts.Sorted (· ≤ ·)) :
    folderMatches folder ts iv = (strictlyInside iv ts).map (PacketDescriptor.mk folder) := by
  have hrange := findInterval_range_eq iv.1 iv.2 ts hs
  unfold folderMatches
  split
  · next hend =>
    rw [← hrange]
    simp [iterRange, hend]
  · rw [← hrange]

theorem mem_folderMatches (folder : Int) (ts : List Int) (iv : interval_t)
    (d : PacketDescriptor) :
    d ∈ folderMatches folder (sortTimestamps ts) iv ↔
      d.location = folder ∧ d.packetTimestamp ∈ ts ∧
        iv.1 < d.packetTimestamp ∧ d.packetTimestamp < iv.2 := by
  rw [folderMatches_eq folder _ iv (sortTimestamps_sorted ts)]
  simp only [List.mem_map, strictlyInside, List.mem_filter, decide_eq_true_eq,
    mem_sortTimestamps]
  constructor
  · rintro ⟨t, ⟨ht, h1, h2⟩, rfl⟩
    exact ⟨rfl, ht, h1, h2⟩
  · rintro ⟨hloc, ht, h1, h2⟩
    refine ⟨d.packetTimestamp, ⟨ht, h1, h2⟩, ?_⟩
    cases d
    simp only at hloc
    subst hloc
    rfl

theorem findPacketsInFolder_done (sd : SdView) (folder : Int) (intervals : List interval_t)
    (output out1 : List PacketDescriptor)
    (h : findPacketsInFolder sd folder intervals output = .done (true, out1)) :
    ∃ dir ts, sd folder = some dir ∧ scanFolder dir.entries = some ts ∧
      out1 = output ++ intervals.flatMap (folderMatches folder (sortTimestamps ts)) := by
  unfold findPacketsInFolder at h
  cases hsd : sd folder with
  | none => simp [hsd] at h
  | some dir =>
    simp only [hsd] at h
    cases hcap : scanFolderOverflows PACKET_TIMESTAMPS_CAPACITY dir.entries 0 with
    | true => simp [hcap] at h
    | false =>
      simp only [hcap, Bool.false_eq_true, if_false] at h
      cases hscan : scanFolder dir.entries with
      | none => simp [hscan] at h
      | some ts =>
        simp only [hscan] at h
        cases hclose : dir.closeOk with
        | false => simp [hclose] at h
        | true =>
          simp only [hclose, if_true, Exec.done.injEq, Prod.mk.injEq, true_and] at h
          exact ⟨dir, ts, rfl, hscan, h.symm⟩

theorem findPacketsInFolder_ok (sd : SdView) (folder : Int) (intervals : List interval_t)
    (output : List PacketDescriptor) (dir : SdDir) (ts : List Int)
    (hsd : sd folder = some dir) (hclose : dir.closeOk = true)
    (hcap : scanFolderOverflows PACKET_TIMESTAMPS_CAPACITY dir.entries 0 = false)
    (hscan : scanFolder dir.entries = some ts) :
    findPacketsInFolder sd folder intervals output
      = .done (true, output ++ intervals.flatMap (folderMatches folder (sortTimestamps ts))) := by
  unfold findPacketsInFolder
  rw [hsd]
  simp only [hcap, hscan, hclose, if_true, Bool.false_eq_true, if_false]

/-- The scan does not meet a full vector when the folder holds no more packet files than
the vector has room for. -/
theorem scanFolderOverflows_false (capacity : Nat) : ∀ (entries : List f_string) (size : Nat),
    size + (entries.filter checkPacketName).length ≤ capacity →
    scanFolderOverflows capacity entries size = false
  | [], _, _ => rfl
  | name :: rest, size, h => by
    unfold scanFolderOverflows
    by_cases hname : checkPacketName name = true
    · rw [List.filter_cons_of_pos hname, List.length_cons] at h
      rw [if_pos hname]
      by_cases hzero : atoi name ≠ 0
      · rw [if_pos hzero, if_pos (by omega)]
        exact scanFolderOverflows_false capacity rest (size + 1) (by omega)
      · rw [if_neg hzero]
    · rw [List.filter_cons_of_neg hname] at h
      rw [if_neg hname]
      exact scanFolderOverflows_false capacity rest size h

/-- The scan meets a full vector when the folder holds more packet files, all of them
with a name that parses to a non-zero timestamp, than the vector has room for. -/
theorem scanFolderOverflows_true (capacity : Nat) : ∀ (entries : List f_string) (size : Nat),
    (∀ name ∈ entries, checkPacketName name = true ∧ atoi name ≠ 0) →
    size ≤ capacity → capacity < size + entries.length →
    scanFolderOverflows capacity entries size = true
  | [], size, _, hsize, h => by
    simp at h
    omega
  | name :: rest, size, hall, _, h => by
    unfold scanFolderOverflows
    obtain ⟨hname, hzero⟩ := hall name (by simp)
    rw [if_pos hname, if_pos hzero]
    by_cases hsize : size < capacity
    · rw [if_pos hsize]
      refine scanFolderOverflows_true capacity rest (size + 1)
        (fun n hn => hall n (List.mem_cons_of_mem _ hn)) (by omega) ?_
      rw [List.length_cons] at h
      omega
    · rw [if_neg hsize]

theorem mem_relevantScan_fst (cur : Int) : ∀ (ivs : List interval_t) (iv : interval_t),
    iv ∈ (relevantScan cur ivs).1 ↔ iv ∈ ivs ∧ iv.1 < cur
  | [], iv => by simp [relevantScan]
  | x :: rest, iv => by
    have ih := mem_relevantScan_fst cur rest iv
    unfold relevantScan
    by_cases h1 : x.1 < cur
    · by_cases h2 : x.2 < cur
      · simp only [h1, h2, if_true, List.mem_cons, ih]
        constructor
        · rintro (rfl | ⟨h, hc⟩)
          · exact ⟨Or.inl rfl, h1⟩
          · exact ⟨Or.inr h, hc⟩
        · rintro ⟨rfl | h, hc⟩
          · exact Or.inl rfl
          · exact Or.inr ⟨h, hc⟩
      · simp only [h1, h2, if_true, if_false, List.mem_cons, ih]
        constructor
        · rintro (rfl | ⟨h, hc⟩)
          · exact ⟨Or.inl rfl, h1⟩
          · exact ⟨Or.inr h, hc⟩
        · rintro ⟨rfl | h, hc⟩
          · exact Or.inl rfl
          · exact Or.inr ⟨h, hc⟩
    · simp only [h1, if_false, List.mem_cons, ih]
      constructor
      · rintro ⟨h, hc⟩
        exact ⟨Or.inr h, hc⟩
      · rintro ⟨rfl | h, hc⟩
        · exact absurd hc h1
        · exact ⟨h, hc⟩

theorem mem_relevantScan_snd (cur : Int) : ∀ (ivs : List interval_t) (iv : interval_t),
    iv ∈ (relevantScan cur ivs).2 ↔ iv ∈ ivs ∧ ¬ (iv.1 < cur ∧ iv.2 < cur)
  | [], iv => by simp [relevantScan]
  | x :: rest, iv => by
    have ih := mem_relevantScan_snd cur rest iv
    unfold relevantScan
    by_cases h1 : x.1 < cur
    · by_cases h2 : x.2 < cur
      · simp only [h1, h2, if_true, ih, List.mem_cons]
        constructor
        · rintro ⟨h, hc⟩
          exact ⟨Or.inr h, hc⟩
        · rintro ⟨rfl | h, hc⟩
          · exact absurd ⟨h1, h2⟩ hc
          · exact ⟨h, hc⟩
      · simp only [h1, h2, if_true, if_false, List.mem_cons, ih]
        constructor
        · rintro (rfl | ⟨h, hc⟩)
          · exact ⟨Or.inl rfl, fun hh => h2 hh.2⟩
          · exact ⟨Or.inr h, hc⟩
        · rintro ⟨rfl | h, hc⟩
          · exact Or.inl rfl
          · exact Or.inr ⟨h, hc⟩
    · simp only [h1, if_false, List.mem_cons, ih]
      constructor
      · rintro (rfl | ⟨h, hc⟩)
        · exact ⟨Or.inl rfl, fun hh => h1 hh.1⟩
        · exact ⟨Or.inr h, hc⟩
      · rintro ⟨rfl | h, hc⟩
        · exact Or.inl rfl
        · exact Or.inr ⟨h, hc⟩

theorem exec_done_true_cases {α : Type} (e : Exec (Bool × α)) :
    (∃ a, e = .done (true, a)) ∨ (∀ a, e ≠ .done (true, a)) := by
  cases e with
  | done r =>
    obtain ⟨b, a⟩ := r
    cases b with
    | true => exact Or.inl ⟨a, rfl⟩
    | false => right; intro a h; simp at h
  | assertFailed => right; intro a h; cases h
  | invalidRead => right; intro a h; cases h
  | hang => right; intro a h; cases h
  | outOfFuel => right; intro a h; cases h
  | capacityExceeded => right; intro a h; cases h

/-- What a successful pass of the loop of `findPacketsOnSDCard` did. -/
theorem sdCardLoop_done_cases (sd : SdView) (prev cur : Int) (later : List Int)
    (ivs : List interval_t) (out out3 : List PacketDescriptor)
    (h : sdCardLoop sd prev (cur :: later) ivs out = .done (true, out3)) :
    ∃ out2,
      (((relevantScan cur ivs).1 = [] ∧ out2 = out) ∨
        ((relevantScan cur ivs).1 ≠ [] ∧ ∃ out1,
          findPacketsInFolder sd prev (relevantScan cur ivs).1 out = .done (true, out1) ∧
          ((later = [] ∧
              findPacketsInFolder sd cur (relevantScan cur ivs).2 out1 = .done (true, out2)) ∨
            (later ≠ [] ∧ out2 = out1)))) ∧
      (((relevantScan cur ivs).2 = [] ∧ out3 = out2) ∨
        ((relevantScan cur ivs).2 ≠ [] ∧
          sdCardLoop sd cur later (relevantScan cur ivs).2 out2 = .done (true, out3))) := by
  unfold sdCardLoop at h
  simp only [List.isEmpty_iff] at h
  by_cases hr1 : (relevantScan cur ivs).1 = []
  · simp only [hr1, if_true] at h
    refine ⟨out, Or.inl ⟨hr1, rfl⟩, ?_⟩
    by_cases hr2 : (relevantScan cur ivs).2 = []
    · simp only [hr2, if_true, Exec.done.injEq, Prod.mk.injEq, true_and] at h
      exact Or.inl ⟨hr2, h.symm⟩
    · simp only [hr2, if_false] at h
      exact Or.inr ⟨hr2, h⟩
  · simp only [hr1, if_false] at h
    rcases exec_done_true_cases (findPacketsInFolder sd prev (relevantScan cur ivs).1 out)
      with ⟨out1, h1⟩ | hno
    · simp only [h1] at h
      by_cases hl : later = []
      · simp only [hl, if_true] at h
        rcases exec_done_true_cases (findPacketsInFolder sd cur (relevantScan cur ivs).2 out1)
          with ⟨out2, h2⟩ | hno2
        · simp only [h2] at h
          refine ⟨out2, Or.inr ⟨hr1, out1, h1, Or.inl ⟨hl, h2⟩⟩, ?_⟩
          by_cases hr2 : (relevantScan cur ivs).2 = []
          · simp only [hr2, if_true, Exec.done.injEq, Prod.mk.injEq, true_and] at h
            exact Or.inl ⟨hr2, h.symm⟩
          · simp only [hr2, if_false] at h
            rw [hl]
            exact Or.inr ⟨hr2, h⟩
        · exfalso
          revert h
          cases hf : findPacketsInFolder sd cur (relevantScan cur ivs).2 out1 with
          | done r =>
            obtain ⟨b, a⟩ := r
            cases b with
            | true => exact absurd hf (hno2 a)
            | false => simp
          | assertFailed => simp
          | invalidRead => simp
          | hang => simp
          | outOfFuel => simp
          | capacityExceeded => simp
      · simp only [hl, if_false] at h
        refine ⟨out1, Or.inr ⟨hr1, out1, h1, Or.inr ⟨hl, rfl⟩⟩, ?_⟩
        by_cases hr2 : (relevantScan cur ivs).2 = []
        · simp only [hr2, if_true, Exec.done.injEq, Prod.mk.injEq, true_and] at h
          exact Or.inl ⟨hr2, h.symm⟩
        · simp only [hr2, if_false] at h
          exact Or.inr ⟨hr2, h⟩
    · exfalso
      revert h
      cases hf : findPacketsInFolder sd prev (relevantScan cur ivs).1 out with
      | done r =>
        obtain ⟨b, a⟩ := r
        cases b with
        | true => exact absurd hf (hno a)
        | false => simp
      | assertFailed => simp
      | invalidRead => simp
      | hang => simp
      | outOfFuel => simp
      | capacityExceeded => simp

/-- One pass of the loop of `findPacketsOnSDCard`, from the results of its folder
searches. -/
theorem sdCardLoop_step (sd : SdView) (prev cur : Int) (later : List Int)
    (ivs : List interval_t) (out out2 : List PacketDescriptor)
    (hA : ((relevantScan cur ivs).1 = [] ∧ out2 = out) ∨
        ((relevantScan cur ivs).1 ≠ [] ∧ ∃ out1,
          findPacketsInFolder sd prev (relevantScan cur ivs).1 out = .done (true, out1) ∧
          ((later = [] ∧
              findPacketsInFolder sd cur (relevantScan cur ivs).2 out1 = .done (true, out2)) ∨
            (later ≠ [] ∧ out2 = out1)))) :
    sdCardLoop sd prev (cur :: later) ivs out =
      if (relevantScan cur ivs).2 = [] then .done (true, out2)
      else sdCardLoop sd cur later (relevantScan cur ivs).2 out2 := by
  conv_lhs => unfold sdCardLoop
  simp only [List.isEmpty_iff]
  rcases hA with ⟨hr1, rfl⟩ | ⟨hr1, out1, h1, ⟨hl, h2⟩ | ⟨hl, rfl⟩⟩
  · simp only [hr1, if_true]
  · simp only [hr1, if_false, h1, hl, if_true, h2]
  · simp only [hr1, if_false, h1, hl]

/-- Descriptors appended by one successful `findPacketsInFolder` call. -/
theorem findPacketsInFolder_sound (sd : SdView) (folder : Int) (intervals : List interval_t)
    (output out1 : List PacketDescriptor)
    (h : findPacketsInFolder sd folder intervals output = .done (true, out1)) :
    ∃ appended, out1 = output ++ appended ∧ ∀ d ∈ appended,
      d.location = folder ∧
      ∃ dir name, sd d.location = some dir ∧ name ∈ dir.entries ∧
        checkPacketName name = true ∧ atoi name = d.packetTimestamp ∧
        ∃ iv ∈ intervals, iv.1 < d.packetTimestamp ∧ d.packetTimestamp < iv.2 := by
  obtain ⟨dir, ts, hsd, hscan, hout⟩ := findPacketsInFolder_done sd folder intervals output out1 h
  refine ⟨_, hout, ?_⟩
  intro d hd
  obtain ⟨iv, hiv, hmem⟩ := List.mem_flatMap.mp hd
  obtain ⟨hloc, hts, h1, h2⟩ := (mem_folderMatches folder ts iv d).mp hmem
  obtain ⟨name, hname, hcheck, hatoi⟩ := (scanFolder_mem dir.entries ts hscan _).mp hts
  refine ⟨hloc, dir, name, ?_, hname, hcheck, hatoi, iv, hiv, h1, h2⟩
  rw [hloc]
  exact hsd

/-- Soundness of the loop of `findPacketsOnSDCard`. -/
theorem sdCardLoop_sound (sd : SdView) : ∀ (later : List Int) (prev : Int)
    (ivs : List interval_t) (out out3 : List PacketDescriptor),
    sdCardLoop sd prev later ivs out = .done (true, out3) →
    ∃ appended, out3 = out ++ appended ∧ ∀ d ∈ appended,
      d.location ∈ prev :: later ∧
      ∃ dir name, sd d.location = some dir ∧ name ∈ dir.entries ∧
        checkPacketName name = true ∧ atoi name = d.packetTimestamp ∧
        ∃ iv ∈ ivs, iv.1 < d.packetTimestamp ∧ d.packetTimestamp < iv.2
  | [], prev, ivs, out, out3, h => by
    simp only [sdCardLoop, Exec.done.injEq, Prod.mk.injEq, true_and] at h
    exact ⟨[], by simp [h], by simp⟩
  | cur :: later, prev, ivs, out, out3, h => by
    obtain ⟨out2, hA, hB⟩ := sdCardLoop_done_cases sd prev cur later ivs out out3 h
    -- the folders searched in this iteration
    have hA2 : ∃ app2, out2 = out ++ app2 ∧ ∀ d ∈ app2,
        d.location ∈ prev :: cur :: later ∧
        ∃ dir name, sd d.location = some dir ∧ name ∈ dir.entries ∧
          checkPacketName name = true ∧ atoi name = d.packetTimestamp ∧
          ∃ iv ∈ ivs, iv.1 < d.packetTimestamp ∧ d.packetTimestamp < iv.2 := by
      rcases hA with ⟨_, rfl⟩ | ⟨_, out1, h1, hlast⟩
      · exact ⟨[], by simp, by simp⟩
      · obtain ⟨app1, hout1, hs1⟩ := findPacketsInFolder_sound sd prev _ out out1 h1
        have hs1' : ∀ d ∈ app1, d.location ∈ prev :: cur :: later ∧
            ∃ dir name, sd d.location = some dir ∧ name ∈ dir.entries ∧
              checkPacketName name = true ∧ atoi name = d.packetTimestamp ∧
              ∃ iv ∈ ivs, iv.1 < d.packetTimestamp ∧ d.packetTimestamp < iv.2 := by
          intro d hd
          obtain ⟨hloc, dir, name, hsd, hname, hc, ha, iv, hiv, hlo, hhi⟩ := hs1 d hd
          exact ⟨by rw [hloc]; simp, dir, name, hsd, hname, hc, ha, iv,
            ((mem_relevantScan_fst cur ivs iv).mp hiv).1, hlo, hhi⟩
        rcases hlast with ⟨_, h2⟩ | ⟨_, rfl⟩
        · obtain ⟨app2, hout2, hs2⟩ := findPacketsInFolder_sound sd cur _ out1 out2 h2
          refine ⟨app1 ++ app2, by rw [hout2, hout1, List.append_assoc], ?_⟩
          intro d hd
          rcases List.mem_append.mp hd with hd | hd
          · exact hs1' d hd
          · obtain ⟨hloc, dir, name, hsd, hname, hc, ha, iv, hiv, hlo, hhi⟩ := hs2 d hd
            exact ⟨by rw [hloc]; simp, dir, name, hsd, hname, hc, ha, iv,
              ((mem_relevantScan_snd cur ivs iv).mp hiv).1, hlo, hhi⟩
        · exact ⟨app1, hout1, hs1'⟩
    obtain ⟨app2, hout2, hs2⟩ := hA2
    rcases hB with ⟨_, rfl⟩ | ⟨_, hrec⟩
    · exact ⟨app2, hout2, hs2⟩
    · obtain ⟨app3, hout3, hs3⟩ := sdCardLoop_sound sd later cur _ out2 out3 hrec
      refine ⟨app2 ++ app3, by rw [hout3, hout2, List.append_assoc], ?_⟩
      intro d hd
      rcases List.mem_append.mp hd with hd | hd
      · exact hs2 d hd
      · obtain ⟨hloc, dir, name, hsd, hname, hc, ha, iv, hiv, hlo, hhi⟩ := hs3 d hd
        exact ⟨List.mem_cons_of_mem _ hloc, dir, name, hsd, hname, hc, ha, iv,
          ((mem_relevantScan_snd cur ivs iv).mp hiv).1, hlo, hhi⟩

/-- C25: archive search soundness.  Whenever `findPacketsOnSDCard` succeeds, the result is
the output container it was given followed by the appended descriptors, and every appended
descriptor has a location that is a member of the bucket index and a packet timestamp that
is parsed (`atoi`) from the name of a packet file (`checkPacketName`) listed in that
bucket folder and lies strictly between the begin and the end of a requested interval. -/
theorem findPacketsOnSDCard_sound (subFolderTimestampsIndex : List Int) (sd : SdView)
    (intervals : List interval_t) (output result : List PacketDescriptor)
    (h : findPacketsOnSDCard subFolderTimestampsIndex sd intervals output
      = .done (true, result)) :
    ∃ appended, result = output ++ appended ∧ ∀ d ∈ appended,
      d.location ∈ subFolderTimestampsIndex ∧
      ∃ dir name, sd d.location = some dir ∧ name ∈ dir.entries ∧
        checkPacketName name = true ∧ atoi name = d.packetTimestamp ∧
        ∃ iv ∈ intervals, iv.1 < d.packetTimestamp ∧ d.packetTimestamp < iv.2 := by
  cases subFolderTimestampsIndex with
  | nil =>
    simp only [findPacketsOnSDCard, Exec.done.injEq, Prod.mk.injEq, true_and] at h
    exact ⟨[], by simp [h], by simp⟩
  | cons first later => exact sdCardLoop_sound sd later first intervals output result h

theorem findPacketsOnSDCard_sound_witness :
    findPacketsOnSDCard [50, 300] gapFillCard [(90, 210)] []
        = .done (true, [⟨50, 100⟩, ⟨50, 200⟩]) ∧
      ∃ appended, [PacketDescriptor.mk 50 100, ⟨50, 200⟩] = [] ++ appended ∧
        ∀ d ∈ appended,
          d.location ∈ [(50 : Int), 300] ∧
          ∃ dir name, gapFillCard d.location = some dir ∧ name ∈ dir.entries ∧
            checkPacketName name = true ∧ atoi name = d.packetTimestamp ∧
            ∃ iv ∈ [((90 : Int), (210 : Int))],
              iv.1 < d.packetTimestamp ∧ d.packetTimestamp < iv.2 :=
  ⟨by decide, findPacketsOnSDCard_sound [50, 300] gapFillCard [(90, 210)] [] _ (by decide)⟩

/-- Completeness of the loop of `findPacketsOnSDCard` for every bucket that has a
successor in the index. -/
theorem sdCardLoop_complete (sd : SdView) : ∀ (later : List Int) (prev : Int)
    (ivs : List interval_t) (out : List PacketDescriptor),
    (prev :: later).Sorted (· < ·) →
    (∀ f ∈ prev :: later, ∃ dir, sd f = some dir ∧ dir.closeOk = true ∧
      scanFolderOverflows PACKET_TIMESTAMPS_CAPACITY dir.entries 0 = false ∧
      ∀ name ∈ dir.entries, checkPacketName name = true → atoi name ≠ 0) →
    ∃ out3, sdCardLoop sd prev later ivs out = .done (true, out3) ∧
      (∀ d ∈ out, d ∈ out3) ∧
      ∀ pre b n post, prev :: later = pre ++ b :: n :: post →
        ∀ dir name, sd b = some dir → name ∈ dir.entries → checkPacketName name = true →
          b ≤ atoi name → atoi name < n →
          ∀ iv ∈ ivs, iv.1 < atoi name → atoi name < iv.2 →
            PacketDescriptor.mk b (atoi name) ∈ out3
  | [], prev, ivs, out, _, _ => by
    refine ⟨out, rfl, fun d hd => hd, ?_⟩
    intro pre b n post hsplit
    have hlen := congrArg List.length hsplit
    simp at hlen
    omega
  | cur :: later, prev, ivs, out, hsorted, hok => by
    have hsorted1 : (cur :: later).Sorted (· < ·) := (List.sorted_cons.mp hsorted).2
    have hok1 : ∀ f ∈ cur :: later, ∃ dir, sd f = some dir ∧ dir.closeOk = true ∧
        scanFolderOverflows PACKET_TIMESTAMPS_CAPACITY dir.entries 0 = false ∧
        ∀ name ∈ dir.entries, checkPacketName name = true → atoi name ≠ 0 :=
      fun f hf => hok f (List.mem_cons_of_mem _ hf)
    obtain ⟨dirP, hsdP, hcloseP, hcapP, hnamesP⟩ := hok prev (by simp)
    obtain ⟨tsP, hscanP⟩ := scanFolder_isSome dirP.entries hnamesP
    obtain ⟨dirC, hsdC, hcloseC, hcapC, hnamesC⟩ := hok cur (by simp)
    obtain ⟨tsC, hscanC⟩ := scanFolder_isSome dirC.entries hnamesC
    -- the folders searched in this iteration
    have hA : ∃ out2,
        (((relevantScan cur ivs).1 = [] ∧ out2 = out) ∨
          ((relevantScan cur ivs).1 ≠ [] ∧ ∃ out1,
            findPacketsInFolder sd prev (relevantScan cur ivs).1 out = .done (true, out1) ∧
            ((later = [] ∧
                findPacketsInFolder sd cur (relevantScan cur ivs).2 out1
                  = .done (true, out2)) ∨
              (later ≠ [] ∧ out2 = out1)))) ∧
        (∀ d ∈ out, d ∈ out2) ∧
        ∀ name ∈ dirP.entries, checkPacketName name = true → atoi name < cur →
          ∀ iv ∈ ivs, iv.1 < atoi name → atoi name < iv.2 →
            PacketDescriptor.mk prev (atoi name) ∈ out2 := by
      by_cases hr1 : (relevantScan cur ivs).1 = []
      · refine ⟨out, Or.inl ⟨hr1, rfl⟩, fun d hd => hd, ?_⟩
        intro name _ _ hlt iv hiv hlo _
        have : iv ∈ (relevantScan cur ivs).1 :=
          (mem_relevantScan_fst cur ivs iv).mpr ⟨hiv, by omega⟩
        rw [hr1] at this
        cases this
      · have h1 := findPacketsInFolder_ok sd prev (relevantScan cur ivs).1 out dirP tsP
          hsdP hcloseP hcapP hscanP
        have hmemP : ∀ name ∈ dirP.entries, checkPacketName name = true → atoi name < cur →
            ∀ iv ∈ ivs, iv.1 < atoi name → atoi name < iv.2 →
              PacketDescriptor.mk prev (atoi name) ∈
                out ++ (relevantScan cur ivs).1.flatMap
                  (folderMatches prev (sortTimestamps tsP)) := by
          intro name hname hcheck hlt iv hiv hlo hhi
          refine List.mem_append_right _ (List.mem_flatMap.mpr ⟨iv, ?_, ?_⟩)
          · exact (mem_relevantScan_fst cur ivs iv).mpr ⟨hiv, by omega⟩
          · refine (mem_folderMatches prev tsP iv _).mpr ⟨rfl, ?_, hlo, hhi⟩
            exact (scanFolder_mem dirP.entries tsP hscanP _).mpr ⟨name, hname, hcheck, rfl⟩
        by_cases hl : later = []
        · have h2 := findPacketsInFolder_ok sd cur (relevantScan cur ivs).2
            (out ++ (relevantScan cur ivs).1.flatMap (folderMatches prev (sortTimestamps tsP)))
            dirC tsC hsdC hcloseC hcapC hscanC
          refine ⟨out ++ (relevantScan cur ivs).1.flatMap
              (folderMatches prev (sortTimestamps tsP)) ++
            (relevantScan cur ivs).2.flatMap (folderMatches cur (sortTimestamps tsC)),
            Or.inr ⟨hr1, _, h1, Or.inl ⟨hl, h2⟩⟩, ?_, ?_⟩
          · intro d hd
            exact List.mem_append_left _ (List.mem_append_left _ hd)
          · intro name hname hcheck hlt iv hiv hlo hhi
            exact List.mem_append_left _ (hmemP name hname hcheck hlt iv hiv hlo hhi)
        · refine ⟨out ++ (relevantScan cur ivs).1.flatMap
              (folderMatches prev (sortTimestamps tsP)),
            Or.inr ⟨hr1, _, h1, Or.inr ⟨hl, rfl⟩⟩, ?_, hmemP⟩
          intro d hd
          exact List.mem_append_left _ hd
    obtain ⟨out2, hA1, hA2, hA3⟩ := hA
    -- contributions of the later pairs need the interval to survive the erasure
    have hsurvive : ∀ b ∈ cur :: later, ∀ (t : Int) (iv : interval_t), iv ∈ ivs → b ≤ t →
        t < iv.2 → iv ∈ (relevantScan cur ivs).2 := by
      intro b hb t iv hiv hbt hhi
      have hcb : cur ≤ b := by
        rcases List.mem_cons.mp hb with rfl | hb
        · exact le_refl _
        · exact le_of_lt ((List.sorted_cons.mp hsorted1).1 b hb)
      exact (mem_relevantScan_snd cur ivs iv).mpr ⟨hiv, by omega⟩
    by_cases hr2 : (relevantScan cur ivs).2 = []
    · refine ⟨out2, ?_, hA2, ?_⟩
      · rw [sdCardLoop_step sd prev cur later ivs out out2 hA1, if_pos hr2]
      · intro pre b n post hsplit dir name hsd hname hcheck hlo hhi iv hiv hivlo hivhi
        cases pre with
        | nil =>
          simp only [List.nil_append, List.cons.injEq] at hsplit
          obtain ⟨rfl, hrest⟩ := hsplit
          have hn : cur = n := hrest.1
          subst hn
          rw [hsdP] at hsd
          cases hsd
          exact hA3 name hname hcheck hhi iv hiv hivlo hivhi
        | cons p pre1 =>
          simp only [List.cons_append, List.cons.injEq] at hsplit
          have hb : b ∈ cur :: later := by rw [hsplit.2]; simp
          have := hsurvive b hb (atoi name) iv hiv hlo hivhi
          rw [hr2] at this
          cases this
    · obtain ⟨out3, hrec, hsub, hcomp⟩ :=
        sdCardLoop_complete sd later cur (relevantScan cur ivs).2 out2 hsorted1 hok1
      refine ⟨out3, ?_, fun d hd => hsub d (hA2 d hd), ?_⟩
      · rw [sdCardLoop_step sd prev cur later ivs out out2 hA1, if_neg hr2]
        exact hrec
      · intro pre b n post hsplit dir name hsd hname hcheck hlo hhi iv hiv hivlo hivhi
        cases pre with
        | nil =>
          simp only [List.nil_append, List.cons.injEq] at hsplit
          obtain ⟨rfl, hrest⟩ := hsplit
          have hn : cur = n := hrest.1
          subst hn
          rw [hsdP] at hsd
          cases hsd
          exact hsub _ (hA3 name hname hcheck hhi iv hiv hivlo hivhi)
        | cons p pre1 =>
          simp only [List.cons_append, List.cons.injEq] at hsplit
          have hb : b ∈ cur :: later := by rw [hsplit.2]; simp
          exact hcomp pre1 b n post hsplit.2 dir name hsd hname hcheck hlo hhi iv
            (hsurvive b hb (atoi name) iv hiv hlo hivhi) hivlo hivhi

theorem findPacketsInFolder_capacityExceeded (sd : SdView) (folder : Int)
    (intervals : List interval_t) (output : List PacketDescriptor) (dir : SdDir)
    (hsd : sd folder = some dir)
    (hcap : scanFolderOverflows PACKET_TIMESTAMPS_CAPACITY dir.entries 0 = true) :
    findPacketsInFolder sd folder intervals output = .capacityExceeded := by
  unfold findPacketsInFolder
  rw [hsd]
  simp only [hcap, if_true]

theorem crowdedFolder_entries (name : f_string) (h : name ∈ crowdedFolder) :
    checkPacketName name = true ∧ atoi name ≠ 0 ∧ 1000 ≤ atoi name ∧ atoi name < 5000 := by
  obtain ⟨i, hi, rfl⟩ := List.mem_map.mp h
  have hlt : i < 602 := List.mem_range.mp hi
  have hatoi : atoi (printInt ((1000 + i : Nat) : Int) ++ ".pkt".toList)
      = ((1000 + i : Nat) : Int) := atoi_printInt _ ['p', 'k', 't']
  refine ⟨(checkPacketName_iff_append _).mpr ⟨_, printInt_no_dot _, rfl⟩, ?_, ?_, ?_⟩ <;>
    rw [hatoi] <;> omega

/-- C26 as stated fails when a bucket holds more packet files than the vector
`packetTimestamps` of `findPacketsInFolder` has room for (601).  The bucket index
[1000, 5000] is strictly increasing, both folders open and close without error, and the
bucket 1000 holds the 602 packet files 1000.pkt to 1601.pkt, every one with a non-zero
timestamp from the start of the bucket up to below the start of the next; 1050.pkt lies
strictly inside the requested interval (1000, 1100).  The search of the folder meets the
full vector at the last file and `findPacketsOnSDCard` does not return. -/
theorem findPacketsOnSDCard_crowded_bucket :
    List.Sorted (· < ·) ([1000, 5000] : List Int) ∧
    (∀ f ∈ [(1000 : Int), 5000], ∃ dir, crowdedCard f = some dir ∧ dir.closeOk = true ∧
      ∀ name ∈ dir.entries, checkPacketName name = true ∧ atoi name ≠ 0) ∧
    (∃ dir, crowdedCard 1000 = some dir ∧ dir.entries.length = 602 ∧
      (∀ name ∈ dir.entries, 1000 ≤ atoi name ∧ atoi name < 5000) ∧
      "1050.pkt".toList ∈ dir.entries) ∧
    atoi "1050.pkt".toList = 1050 ∧
    findPacketsOnSDCard [1000, 5000] crowdedCard [(1000, 1100)] [] = .capacityExceeded := by
  have h1000 : crowdedCard 1000 = some (SdDir.mk crowdedFolder true) := rfl
  have h5000 : crowdedCard 5000 = some (SdDir.mk [] true) := rfl
  have hlen : crowdedFolder.length = 602 := by simp [crowdedFolder]
  refine ⟨by decide, ?_, ?_, by decide, ?_⟩
  · intro f hf
    simp only [List.mem_cons, List.mem_singleton, List.not_mem_nil, or_false] at hf
    rcases hf with rfl | rfl
    · exact ⟨_, h1000, rfl, fun name hname =>
        ⟨(crowdedFolder_entries name hname).1, (crowdedFolder_entries name hname).2.1⟩⟩
    · exact ⟨_, h5000, rfl, fun name hname => by cases hname⟩
  · refine ⟨_, h1000, hlen, fun name hname => (crowdedFolder_entries name hname).2.2, ?_⟩
    exact List.mem_map.mpr ⟨50, List.mem_range.mpr (by omega), by decide⟩
  · have hfolder : ∀ intervals output,
        findPacketsInFolder crowdedCard 1000 intervals output = .capacityExceeded := by
      intro intervals output
      refine findPacketsInFolder_capacityExceeded crowdedCard 1000 intervals output _ h1000
        (scanFolderOverflows_true _ _ 0
          (fun name hname =>
            ⟨(crowdedFolder_entries name hname).1, (crowdedFolder_entries name hname).2.1⟩)
          (by decide) ?_)
      simp [PACKET_TIMESTAMPS_CAPACITY, hlen]
    simp [findPacketsOnSDCard, sdCardLoop, relevantScan, hfolder]

/-- C26 (amended): archive search completeness for the buckets that have a successor.  Let
the bucket index be strictly increasing, let every bucket folder open and close without
error, hold at most 601 packet files (the capacity of `packetTimestamps`) and only packet
files whose name parses to a non-zero timestamp in the 32-bit range (where `std::atoi` is
defined), and let every packet file of a bucket `b` with successor `n` have a timestamp `t`
with `b ≤ t < n`.  Then `findPacketsOnSDCard` returns success, keeps what the output
container held, and contains the descriptor `(b, t)` for every packet file of such a bucket
`b` whose timestamp `t` lies strictly inside a requested interval. -/
theorem findPacketsOnSDCard_complete (subFolderTimestampsIndex : List Int) (sd : SdView)
    (intervals : List interval_t) (output : List PacketDescriptor)
    (hsorted : subFolderTimestampsIndex.Sorted (· < ·))
    (hfolders : ∀ f ∈ subFolderTimestampsIndex, ∃ dir, sd f = some dir ∧
      dir.closeOk = true ∧
      (dir.entries.filter checkPacketName).length ≤ PACKET_TIMESTAMPS_CAPACITY ∧
      ∀ name ∈ dir.entries, checkPacketName name = true →
        atoi name ≠ 0 ∧ -2147483648 ≤ atoi name ∧ atoi name ≤ 2147483647)
    (hrange : ∀ pre b n post, subFolderTimestampsIndex = pre ++ b :: n :: post →
      ∀ dir name, sd b = some dir → name ∈ dir.entries → checkPacketName name = true →
        b ≤ atoi name ∧ atoi name < n) :
    ∃ result,
      findPacketsOnSDCard subFolderTimestampsIndex sd intervals output
        = .done (true, result) ∧
      (∀ d ∈ output, d ∈ result) ∧
      ∀ pre b n post, subFolderTimestampsIndex = pre ++ b :: n :: post →
        ∀ dir name, sd b = some dir → name ∈ dir.entries → checkPacketName name = true →
          ∀ iv ∈ intervals, iv.1 < atoi name → atoi name < iv.2 →
            PacketDescriptor.mk b (atoi name) ∈ result := by
  have hok : ∀ f ∈ subFolderTimestampsIndex, ∃ dir, sd f = some dir ∧ dir.closeOk = true ∧
      scanFolderOverflows PACKET_TIMESTAMPS_CAPACITY dir.entries 0 = false ∧
      ∀ name ∈ dir.entries, checkPacketName name = true → atoi name ≠ 0 := by
    intro f hf
    obtain ⟨dir, hsd, hclose, hcount, hnames⟩ := hfolders f hf
    exact ⟨dir, hsd, hclose,
      scanFolderOverflows_false _ dir.entries 0 (by omega),
      fun name hname hcheck => (hnames name hname hcheck).1⟩
  cases subFolderTimestampsIndex with
  | nil =>
    refine ⟨output, rfl, fun d hd => hd, ?_⟩
    intro pre b n post hsplit
    have hlen := congrArg List.length hsplit
    simp at hlen
    omega
  | cons first later =>
    obtain ⟨result, hres, hsub, hcomp⟩ :=
      sdCardLoop_complete sd later first intervals output hsorted hok
    refine ⟨result, hres, hsub, ?_⟩
    intro pre b n post hsplit dir name hsd hname hcheck iv hiv hlo hhi
    obtain ⟨hb, hn⟩ := hrange pre b n post hsplit dir name hsd hname hcheck
    exact hcomp pre b n post hsplit dir name hsd hname hcheck hb hn iv hiv hlo hhi

/-- Instance of `findPacketsOnSDCard_complete`: buckets 50 (packets 100 and 200) and 300
(packet 300), one interval (90, 210). -/
theorem findPacketsOnSDCard_complete_witness :
    ∃ result,
      findPacketsOnSDCard [50, 300] gapFillCard [(90, 210)] [] = .done (true, result) ∧
      (∀ d ∈ ([] : List PacketDescriptor), d ∈ result) ∧
      ∀ pre b n post, ([50, 300] : List Int) = pre ++ b :: n :: post →
        ∀ dir name, gapFillCard b = some dir → name ∈ dir.entries →
          checkPacketName name = true →
          ∀ iv ∈ [((90 : Int), (210 : Int))], iv.1 < atoi name → atoi name < iv.2 →
            PacketDescriptor.mk b (atoi name) ∈ result :=
  findPacketsOnSDCard_complete [50, 300] gapFillCard [(90, 210)] []
    (by decide)
    (by
      intro f hf
      simp only [List.mem_cons, List.mem_singleton, List.not_mem_nil, or_false] at hf
      rcases hf with rfl | rfl
      · exact ⟨_, rfl, rfl, by decide, by decide⟩
      · exact ⟨_, rfl, rfl, by decide, by decide⟩)
    (by
      intro pre b n post hsplit dir name hsd hname hcheck
      cases pre with
      | nil =>
        simp only [List.nil_append, List.cons.injEq] at hsplit
        obtain ⟨rfl, rfl, _⟩ := hsplit
        have hdir : dir = SdDir.mk ["100.pkt".toList, "200.pkt".toList] true := by
          have h50 : gapFillCard 50
              = some (SdDir.mk ["100.pkt".toList, "200.pkt".toList] true) := rfl
          rw [h50] at hsd
          exact (Option.some.inj hsd).symm
        subst hdir
        simp only [List.mem_cons, List.mem_singleton, List.not_mem_nil, or_false] at hname
        rcases hname with rfl | rfl <;> decide
      | cons p pre1 =>
        have hlen := congrArg List.length hsplit
        simp at hlen
        omega)

/-! ### Phase B: what the gap walk does on well-formed requests -/

/-- C27 (the code departs from the claim): an interval without archive match whose span is
at most the gap threshold is not left alone; the walk goes on with the current match, which
belongs to a later interval, and queries the flash from the begin of the interval up to that
match.  With the archive match 150, the flash index [1, 120] and the non-overlapping request
(90, 100), (100, 110), (140, 200), `findPackets` succeeds and returns the flash descriptor
120, found by the sub-query (90, 150) issued for (90, 100); 120 is in the flash index and
strictly inside none of the requested intervals. -/
theorem findPackets_flash_hit_outside_request :
    nonOverlapping [(90, 100), (100, 110), (140, 200)] ∧
    List.Sorted (· ≤ ·) ([1, 120] : List Int) ∧
    findPacketsOnSDCard [50, 300] fallThroughCard [(90, 100), (100, 110), (140, 200)] []
      = .done (true, [PacketDescriptor.mk 50 150]) ∧
    (∀ fuel, findPackets (fuel + 1) [50, 300] fallThroughCard [1, 120] true
        [(90, 100), (100, 110), (140, 200)] []
      = .done (true, [(90, 100), (100, 110), (140, 200)],
          [PacketDescriptor.mk 50 150, flashDescriptor 120])) ∧
    findPacketsInFlash [1, 120] (90, 150) [PacketDescriptor.mk 50 150]
      = [PacketDescriptor.mk 50 150, flashDescriptor 120] ∧
    (∀ iv ∈ [((90 : Int), (100 : Int)), (100, 110), (140, 200)],
      ¬ (iv.1 < 120 ∧ 120 < iv.2)) := by
  refine ⟨by unfold nonOverlapping; decide, by decide, by decide, fun _ => rfl, by decide,
    by decide⟩

/-- C28 (the code departs from the claim): both assertions of `findPackets` fail on
non-overlapping requests with sound archive matches.  When the interval (90, 210), which
holds the archive matches 100 and 200, ends before the first flash timestamp 500, it is
skipped without consuming its matches and `assert(pktIt == output.end())` fails.  When the
flash hit 120 is appended for (90, 130), `pktIt` steps onto it and the assertion
`intervalIt->first < pktIt->packetTimestamp` fails for the next interval (130, 190). -/
theorem findPackets_assertions_fail :
    nonOverlapping [(90, 210)] ∧
    findPacketsOnSDCard [50, 300] gapFillCard [(90, 210)] []
      = .done (true, [PacketDescriptor.mk 50 100, PacketDescriptor.mk 50 200]) ∧
    (∀ fuel, findPackets fuel [50, 300] gapFillCard [500] true [(90, 210)] []
      = .assertFailed) ∧
    nonOverlapping [(90, 130), (130, 190)] ∧
    findPacketsOnSDCard [50, 300] gapFillCard [(90, 130), (130, 190)] []
      = .done (true, [PacketDescriptor.mk 50 100]) ∧
    (∀ fuel, findPackets fuel [50, 300] gapFillCard [5, 120] true [(90, 130), (130, 190)] []
      = .assertFailed) := by
  refine ⟨by unfold nonOverlapping; decide, by decide, fun _ => rfl,
    by unfold nonOverlapping; decide, by decide, fun _ => rfl⟩

/-- C29 (the code departs from the claim): the loop condition of the gap walk reads
`std::next(pktIt)` past the end of the output container.  With the archive matches 100 and
200 in the one requested interval (90, 210) and the flash index [5] (no flash hit), the
walk steps onto the last match and evaluates the condition again: a read at
`output.end()`.  With the flash index [150, 160] the two flash hits are appended during the
walk, which then runs over them and reads past the end as well.  Under no step budget does
either call return a result. -/
theorem findPackets_gap_walk_reads_past_end :
    nonOverlapping [(90, 210)] ∧
    findPacketsOnSDCard [50, 300] gapFillCard [(90, 210)] []
      = .done (true, [PacketDescriptor.mk 50 100, PacketDescriptor.mk 50 200]) ∧
    (∀ fuel, findPackets (fuel + 2) [50, 300] gapFillCard [5] true [(90, 210)] []
      = .invalidRead) ∧
    (∀ fuel r, findPackets fuel [50, 300] gapFillCard [5] true [(90, 210)] [] ≠ .done r) ∧
    (∀ fuel, findPackets (fuel + 4) [50, 300] gapFillCard [150, 160] true [(90, 210)] []
      = .invalidRead) ∧
    (∀ fuel r, findPackets fuel [50, 300] gapFillCard [150, 160] true [(90, 210)] []
      ≠ .done r) := by
  have h2 : ∀ fuel, findPackets (fuel + 2) [50, 300] gapFillCard [5] true [(90, 210)] []
      = .invalidRead := fun _ => rfl
  have h4 : ∀ fuel, findPackets (fuel + 4) [50, 300] gapFillCard [150, 160] true
      [(90, 210)] [] = .invalidRead := fun _ => rfl
  refine ⟨by unfold nonOverlapping; decide, by decide, h2, ?_, h4, ?_⟩
  · intro fuel r
    match fuel with
    | 0 =>
      have h : findPackets 0 [50, 300] gapFillCard [5] true [(90, 210)] [] = .outOfFuel := by
        decide
      rw [h]; exact fun h => Exec.noConfusion h
    | 1 =>
      have h : findPackets 1 [50, 300] gapFillCard [5] true [(90, 210)] [] = .outOfFuel := by
        decide
      rw [h]; exact fun h => Exec.noConfusion h
    | fuel + 2 => rw [h2 fuel]; exact fun h => Exec.noConfusion h
  · intro fuel r
    match fuel with
    | 0 =>
      have h : findPackets 0 [50, 300] gapFillCard [150, 160] true [(90, 210)] []
          = .outOfFuel := by decide
      rw [h]; exact fun h => Exec.noConfusion h
    | 1 =>
      have h : findPackets 1 [50, 300] gapFillCard [150, 160] true [(90, 210)] []
          = .outOfFuel := by decide
      rw [h]; exact fun h => Exec.noConfusion h
    | 2 =>
      have h : findPackets 2 [50, 300] gapFillCard [150, 160] true [(90, 210)] []
          = .outOfFuel := by decide
      rw [h]; exact fun h => Exec.noConfusion h
    | 3 =>
      have h : findPackets 3 [50, 300] gapFillCard [150, 160] true [(90, 210)] []
          = .outOfFuel := by decide
      rw [h]; exact fun h => Exec.noConfusion h
    | fuel + 4 => rw [h4 fuel]; exact fun h => Exec.noConfusion h

/-! ### The folder scan -/

/-- The step-by-step scan loop ends with the timestamps that `scanFolder` gives. -/
theorem folderScanRun_of_scanFolder : ∀ (entries : List f_string) (ts acc : List Int),
    scanFolder entries = some ts →
    ∃ fuel, folderScanRun fuel (FolderScanState.mk entries acc) = some (acc ++ ts)
  | [], ts, acc, h => by
    simp only [scanFolder, Option.some.injEq] at h
    subst h
    exact ⟨1, by simp [folderScanRun, folderScanStep]⟩
  | name :: rest, ts, acc, h => by
    unfold scanFolder at h
    by_cases hname : checkPacketName name = true
    · rw [if_pos hname] at h
      by_cases hzero : atoi name ≠ 0
      · rw [if_pos hzero] at h
        cases hrest : scanFolder rest with
        | none => rw [hrest] at h; simp at h
        | some ts1 =>
          rw [hrest] at h
          simp only [Option.map_some', Option.some.injEq] at h
          subst h
          obtain ⟨fuel, hfuel⟩ :=
            folderScanRun_of_scanFolder rest ts1 (acc ++ [atoi name]) hrest
          refine ⟨fuel + 1, ?_⟩
          simp only [folderScanRun, folderScanStep, hname, hzero, if_true, not_false_eq_true,
            ne_eq]
          rw [hfuel]
          simp
      · rw [if_neg hzero] at h
        cases h
    · rw [if_neg hname] at h
      obtain ⟨fuel, hfuel⟩ := folderScanRun_of_scanFolder rest ts acc h
      refine ⟨fuel + 1, ?_⟩
      simp only [folderScanRun, folderScanStep, hname, if_false, Bool.false_eq_true]
      exact hfuel

/-- A state that a pass of the loop maps to itself is never left. -/
theorem folderScanRun_stuck (s : FolderScanState) (h : folderScanStep s = some s) :
    ∀ fuel, folderScanRun fuel s = none
  | 0 => rfl
  | fuel + 1 => by
    simp only [folderScanRun, h]
    exact folderScanRun_stuck s h fuel

/-- Where `scanFolder` reports a loop that never ends, the step-by-step scan loop is still
running after every number of passes. -/
theorem folderScanRun_of_scanFolder_none : ∀ (entries : List f_string) (acc : List Int),
    scanFolder entries = none →
    ∀ fuel, folderScanRun fuel (FolderScanState.mk entries acc) = none
  | [], acc, h, fuel => by simp [scanFolder] at h
  | name :: rest, acc, h, fuel => by
    unfold scanFolder at h
    by_cases hname : checkPacketName name = true
    · rw [if_pos hname] at h
      by_cases hzero : atoi name ≠ 0
      · rw [if_pos hzero] at h
        have hrest : scanFolder rest = none := by
          cases hr : scanFolder rest with
          | none => rfl
          | some ts => rw [hr] at h; simp at h
        cases fuel with
        | zero => rfl
        | succ fuel =>
          simp only [folderScanRun, folderScanStep, hname, hzero, if_true,
            not_false_eq_true, ne_eq]
          exact folderScanRun_of_scanFolder_none rest _ hrest fuel
      · refine folderScanRun_stuck _ ?_ fuel
        simp only [folderScanStep, hname, hzero, if_true, if_false]
    · rw [if_neg hname] at h
      cases fuel with
      | zero => rfl
      | succ fuel =>
        simp only [folderScanRun, folderScanStep, hname, if_false, Bool.false_eq_true]
        exact folderScanRun_of_scanFolder_none rest _ h fuel

/-- C30 (the code departs from the claim): for an entry whose name has the packet extension
and parses to 0, such as `x.pkt` or `0.pkt`, the loop body ends with `continue` before the
next file is opened, so the pass leaves the state of the loop as it was and the loop is
still running after every number of passes; a search of a folder that holds such an entry
never returns.  (A listing without such an entry is scanned to its end.) -/
theorem folder_scan_does_not_terminate :
    checkPacketName "x.pkt".toList = true ∧ atoi "x.pkt".toList = 0 ∧
    checkPacketName "0.pkt".toList = true ∧ atoi "0.pkt".toList = 0 ∧
    (∀ (rest : List f_string) (acc : List Int),
      folderScanStep (FolderScanState.mk ("x.pkt".toList :: rest) acc)
        = some (FolderScanState.mk ("x.pkt".toList :: rest) acc)) ∧
    (∀ (rest : List f_string) (acc : List Int) (fuel : Nat),
      folderScanRun fuel (FolderScanState.mk ("x.pkt".toList :: rest) acc) = none) ∧
    (∀ (rest : List f_string) (acc : List Int) (fuel : Nat),
      folderScanRun fuel (FolderScanState.mk ("0.pkt".toList :: rest) acc) = none) ∧
    (∀ fuel, folderScanRun fuel
      (FolderScanState.mk ["100.pkt".toList, "x.pkt".toList, "200.pkt".toList] []) = none) ∧
    folderScanRun 3 (FolderScanState.mk ["100.pkt".toList, "200.pkt".toList] [])
      = some [100, 200] ∧
    findPacketsInFolder strayFileCard 50 [(90, 210)] [] = .hang := by
  have hx : checkPacketName "x.pkt".toList = true := by decide
  have hx0 : atoi "x.pkt".toList = 0 := by decide
  have h0 : checkPacketName "0.pkt".toList = true := by decide
  have h00 : atoi "0.pkt".toList = 0 := by decide
  have hstepx : ∀ (rest : List f_string) (acc : List Int),
      folderScanStep (FolderScanState.mk ("x.pkt".toList :: rest) acc)
        = some (FolderScanState.mk ("x.pkt".toList :: rest) acc) := by
    intro rest acc
    simp only [folderScanStep, hx, hx0, if_true, ne_eq, not_true_eq_false, if_false]
  have hstep0 : ∀ (rest : List f_string) (acc : List Int),
      folderScanStep (FolderScanState.mk ("0.pkt".toList :: rest) acc)
        = some (FolderScanState.mk ("0.pkt".toList :: rest) acc) := by
    intro rest acc
    simp only [folderScanStep, h0, h00, if_true, ne_eq, not_true_eq_false, if_false]
  refine ⟨hx, hx0, h0, h00, hstepx, ?_, ?_, ?_, by decide, by decide⟩
  · intro rest acc fuel
    exact folderScanRun_stuck _ (hstepx rest acc) fuel
  · intro rest acc fuel
    exact folderScanRun_stuck _ (hstep0 rest acc) fuel
  · intro fuel
    exact folderScanRun_of_scanFolder_none _ [] (by decide) fuel

end AirQuality
